import Mathlib

/-!
# Restore orchestration: lineage resolution and stage classification

A shallow embedding of `pkg/dataprotection/restore/manager.go`.

* Go pointers that the code tests against `nil` are `Option` values.
* Every method of `RestoreManager` mutates its receiver and talks to the
  control plane; it is embedded as a function on an explicit `World` holding the
  manager, the log of client calls and the recorded events.
* The control plane is a `Client`: a finite list of stored backups together with
  the answers of the reads the code performs.
* Functions, constants and accessors that the file imports from packages outside
  the sources are the fields of `Deps`.
* A Go string is a sequence of bytes: `len` counts them and a slice keeps a range
  of them. A `String` holds these bytes in their order, each byte as the `Char` of
  its value, so that `String.length` is `len` and the first `n` characters of the
  `String` are the slice `[:n]`. An ASCII text is the `String` that reads the same;
  `goString` gives the `String` of any other text.
-/

namespace KubeBlocks

/-! ## Time -/

/-- An instant, counted from the zero instant of Go's `time.Time`. -/
abbrev Time := Int

/-- Go `time.Time.IsZero`. -/
def timeIsZero (t : Time) : Bool := t == 0

/-- Go `time.Time.Before`. -/
def timeBefore (t u : Time) : Bool := decide (t < u)

/-- Go `time.Time.After`. -/
def timeAfter (t u : Time) : Bool := decide (u < t)

/-- The method `IsZero` of `*metav1.Time`: a nil pointer is zero. -/
def metaIsZero : Option Time → Bool
  | none => true
  | some t => timeIsZero t

/-- The method `Before` of `*metav1.Time`: false as soon as one side is nil. -/
def metaBefore : Option Time → Option Time → Bool
  | some t, some u => timeBefore t u
  | _, _ => false

/-! ## API objects -/

/-- The constant `dpv1alpha1.BackupTypeFull`. -/
def BackupTypeFull : String := "Full"

/-- The constant `dpv1alpha1.BackupTypeIncremental`. -/
def BackupTypeIncremental : String := "Incremental"

/-- The constant `dpv1alpha1.BackupTypeContinuous`. -/
def BackupTypeContinuous : String := "Continuous"

/-- The constant `dpv1alpha1.BackupPhaseCompleted`. -/
def BackupPhaseCompleted : String := "Completed"

/-- A Go `map[string]string`, first binding of a key wins. -/
abbrev StringMap := List (String × String)

/-- Indexing a Go map: the empty string when the key is absent. -/
def StringMap.get (m : StringMap) (k : String) : String :=
  match m.find? (fun kv => kv.1 == k) with
  | some kv => kv.2
  | none => ""

/-- Assigning to a key of a Go map: an existing binding is replaced. -/
def StringMap.set (m : StringMap) (k v : String) : StringMap :=
  if m.any (fun kv => kv.1 == k) then
    m.map (fun kv => if kv.1 == k then (k, v) else kv)
  else m ++ [(k, v)]

structure BackupMethod where
  ActionSetName : String
  SnapshotVolumes : Option Bool
deriving DecidableEq

structure BackupSpec where
  BackupPolicyName : String
  ParentBackupName : String
deriving DecidableEq

structure BackupStatus where
  Phase : String
  ParentBackupName : String
  BackupMethod : Option BackupMethod
  BackupRepoName : String := ""
  PersistentVolumeClaimName : String := ""
  KopiaRepoPath : String := ""
  EncryptionConfig : Option String := none
  Extras : List StringMap := []
deriving DecidableEq

/-- The object `dpv1alpha1.Backup`, with the fields the restore manager reads.
`startTime` and `endTime` hold what the accessors `GetStartTime()` and
`GetEndTime()` of the API type return. -/
structure Backup where
  Name : String
  Namespace : String
  Labels : StringMap
  Spec : BackupSpec
  Status : BackupStatus
  startTime : Option Time
  endTime : Option Time
deriving DecidableEq

/-- Modelled from the spec: the accessor `GetStartTime` of the API type `Backup`,
declared outside the sources, gives the backup's start time. -/
def Backup.GetStartTime (b : Backup) : Option Time := b.startTime

/-- Modelled from the spec: the accessor `GetEndTime` of the API type `Backup`,
declared outside the sources, gives the backup's end time. -/
def Backup.GetEndTime (b : Backup) : Option Time := b.endTime

structure JobActionSpec where
  Image : String
  Command : List String
deriving DecidableEq

structure ActionSpec where
  Job : Option JobActionSpec
  Exec : Option (List String)
deriving DecidableEq

structure RestoreActionSpec where
  PrepareData : Option JobActionSpec
  PostReady : List ActionSpec
  BaseBackupRequired : Option Bool
deriving DecidableEq

structure ActionSetSpec where
  BackupType : String
  Restore : Option RestoreActionSpec
deriving DecidableEq

structure ActionSet where
  Name : String
  Annotations : Option StringMap
  Spec : ActionSetSpec
deriving DecidableEq

structure BackupActionSet where
  Backup : KubeBlocks.Backup
  AncestorIncrementalBackups : List KubeBlocks.Backup
  BaseBackup : Option KubeBlocks.Backup
  ActionSet : Option KubeBlocks.ActionSet
  UseVolumeSnapshot : Bool
deriving DecidableEq

/-- The constant `dpv1alpha1.RestoreActionProcessing`. -/
def RestoreActionProcessing : String := "Processing"

/-- The constant `dpv1alpha1.RestoreActionCompleted`. -/
def RestoreActionCompleted : String := "Completed"

/-- The constant `dpv1alpha1.RestoreActionFailed`. -/
def RestoreActionFailed : String := "Failed"

/-- The constant `dpv1alpha1.PrepareData`, a restore stage. -/
def PrepareData : String := "prepareData"

/-- The constant `dpv1alpha1.PostReady`, a restore stage. -/
def PostReady : String := "postReady"

/-- The constant `dpv1alpha1.PodSelectionStrategyAll`. -/
def PodSelectionStrategyAll : String := "All"

/-- The constant `dpv1alpha1.PodSelectionStrategyAny`. -/
def PodSelectionStrategyAny : String := "Any"

structure VolumeConfig where
  VolumeSource : String := ""
  MountPath : String := ""
deriving DecidableEq

/-- The type `dpv1alpha1.RestoreVolumeClaim`: the name and labels of its metadata, its
claim spec (not looked into) and the embedded `VolumeConfig`. -/
structure RestoreVolumeClaim where
  Name : String
  Labels : StringMap := []
  VolumeClaimSpec : String := ""
  VolumeConfig : KubeBlocks.VolumeConfig := {}
deriving DecidableEq

structure RestoreVolumeClaimsTemplate where
  Templates : List RestoreVolumeClaim := []
  Replicas : Int := 1
  StartingIndex : Int := 0
deriving DecidableEq

/-- The scheduling fields copied to the pod of a prepare-data job (not looked into). -/
structure SchedulingSpec where
  Tolerations : List String := []
  Affinity : Option String := none
  NodeSelector : StringMap := []
  NodeName : String := ""
  SchedulerName : String := ""
  TopologySpreadConstraints : List String := []
deriving DecidableEq

structure PrepareDataConfig where
  RequiredPolicyForAllPodSelection : Option String := none
  DataSourceRef : Option VolumeConfig := none
  RestoreVolumeClaims : List RestoreVolumeClaim := []
  RestoreVolumeClaimsTemplate : Option KubeBlocks.RestoreVolumeClaimsTemplate := none
  VolumeClaimRestorePolicy : String := "Parallel"
  SchedulingSpec : KubeBlocks.SchedulingSpec := {}
deriving DecidableEq

structure RestoreStatusAction where
  Name : String
  BackupName : String
  ObjectKey : String
  Status : String
  Message : String := ""
deriving DecidableEq

structure RestoreStatusActions where
  PrepareData : List RestoreStatusAction := []
  PostReady : List RestoreStatusAction := []
deriving DecidableEq

structure RestoreStatus where
  Actions : RestoreStatusActions := {}
deriving DecidableEq

/-- Resource requirements (not looked into). -/
structure ResourceRequirements where
  Limits : StringMap := []
  Requests : StringMap := []
deriving DecidableEq

structure RestoreSpec where
  RestoreTime : String
  PrepareDataConfig : Option KubeBlocks.PrepareDataConfig := none
  BackoffLimit : Option Int := none
  ContainerResources : ResourceRequirements := {}
deriving DecidableEq

/-- The object `dpv1alpha1.Restore`, with the fields the restore manager reads. -/
structure Restore where
  Name : String
  Namespace : String
  Spec : RestoreSpec
  UID : String := ""
  Status : RestoreStatus := {}
deriving DecidableEq

structure RestoreManager where
  Restore : KubeBlocks.Restore
  PrepareDataBackupSets : List BackupActionSet
  PostReadyBackupSets : List BackupActionSet
  WorkerServiceAccount : String := ""
deriving DecidableEq

/-! ## Jobs, pods and claims -/

structure EnvVar where
  Name : String
  Value : String := ""
deriving DecidableEq

structure VolumeMount where
  Name : String
  MountPath : String := ""
deriving DecidableEq

structure DownwardAPIVolumeFile where
  Path : String
  FieldPath : String
deriving DecidableEq

/-- A volume of a pod: its name and whichever of the two sources the builder uses. -/
structure Volume where
  Name : String
  PersistentVolumeClaim : Option String := none
  DownwardAPI : Option (List DownwardAPIVolumeFile) := none
deriving DecidableEq

structure Container where
  Name : String
  Image : String := ""
  ImagePullPolicy : String := ""
  Resources : ResourceRequirements := {}
  Command : List String := []
  Args : List String := []
  Env : List EnvVar := []
  EnvFrom : List String := []
  VolumeMounts : List VolumeMount := []
deriving DecidableEq

structure PodSpec where
  RunAsUser : Option Int := none
  RestartPolicy : String := ""
  Tolerations : List String := []
  Affinity : Option String := none
  NodeSelector : StringMap := []
  NodeName : String := ""
  SchedulerName : String := ""
  TopologySpreadConstraints : List String := []
  Volumes : List Volume := []
  ServiceAccountName : String := ""
  InitContainers : List Container := []
  Containers : List Container := []
deriving DecidableEq

structure PodTemplateSpec where
  Labels : StringMap := []
  Annotations : Option StringMap := none
  Spec : PodSpec := {}
deriving DecidableEq

structure JobSpec where
  BackoffLimit : Option Int := none
  Template : PodTemplateSpec := {}
deriving DecidableEq

structure JobCondition where
  ConditionType : String
  Status : String
  Reason : String := ""
  Message : String := ""
deriving DecidableEq

structure OwnerReference where
  Kind : String
  Name : String
  UID : String
  Controller : Bool := false
  BlockOwnerDeletion : Bool := false
deriving DecidableEq

/-- The object `batchv1.Job`. -/
structure Job where
  Name : String
  Namespace : String
  Labels : StringMap := []
  Finalizers : List String := []
  OwnerReferences : List OwnerReference := []
  Spec : JobSpec := {}
  Conditions : List JobCondition := []
deriving DecidableEq

/-- The status of a container: its name and, once it has terminated, its exit code. -/
structure ContainerStatus where
  Name : String
  Terminated : Option Int := none
deriving DecidableEq

/-- The object `corev1.Pod`. -/
structure Pod where
  Name : String
  Namespace : String
  Labels : StringMap := []
  Annotations : Option StringMap := none
  ContainerStatuses : List ContainerStatus := []
deriving DecidableEq

/-- The object `corev1.PersistentVolumeClaim`. -/
structure PersistentVolumeClaim where
  Name : String
  Namespace : String
  Labels : StringMap := []
  Spec : String := ""
deriving DecidableEq

/-- The object `dpv1alpha1.BackupRepo` (not looked into). -/
structure BackupRepo where
  Name : String
deriving DecidableEq

/-- The target recorded in the status of a backup: the strategy of its pod selector; the
rest is read only by `GetSourcePodNameFromTarget`. -/
structure BackupStatusTarget where
  Name : String := ""
  Strategy : String := PodSelectionStrategyAny
  SelectedTargetPods : List String := []
deriving DecidableEq

/-! ## Errors, client calls and the world -/

/-- The errors the functions return: `fatal` is `intctrlutil.NewFatalError`,
`notFound` an API error for which `apierrors.IsNotFound` holds, `api` any other
error of the control plane, `nilDereference` a nil-pointer panic. -/
inductive Err where
  | fatal (msg : String)
  | notFound (msg : String)
  | api (msg : String)
  | nilDereference
deriving DecidableEq

/-- The method `Error()` of an error. -/
def Err.Error : Err → String
  | .fatal m => m
  | .notFound m => m
  | .api m => m
  | .nilDereference => "invalid memory address or nil pointer dereference"

def Err.isFatal : Err → Bool
  | .fatal _ => true
  | _ => false

/-- One request sent to the control plane. -/
inductive ClientCall where
  | get (kind ns name : String)
  | list (kind ns : String) (matchingLabels : StringMap)
  | create (kind ns name : String)
  | delete (kind ns name : String)
  | patch (kind ns name : String)
deriving DecidableEq

def ClientCall.isWrite : ClientCall → Bool
  | .get _ _ _ => false
  | .list _ _ _ => false
  | _ => true

/-- An event handed to the recorder. -/
structure Event where
  eventtype : String
  reason : String
  message : String
deriving DecidableEq

structure World where
  r : RestoreManager
  calls : List ClientCall
  events : List Event
  jobs : List Job := []
  pods : List Pod := []
  pvcs : List PersistentVolumeClaim := []
deriving DecidableEq

/-- A computation on the world: `none` when the model ran out of fuel, otherwise
the returned value or error and the world it leaves. -/
def M (α : Type) : Type := World → Option (Except Err α × World)

def M.pure {α : Type} (a : α) : M α := fun w => some (.ok a, w)

def M.bind {α β : Type} (x : M α) (f : α → M β) : M β := fun w =>
  match x w with
  | none => none
  | some (.error e, w') => some (.error e, w')
  | some (.ok a, w') => f a w'

instance : Monad M where
  pure := M.pure
  bind := M.bind

/-- Returning an error. -/
def M.fail {α : Type} (e : Err) : M α := fun w => some (.error e, w)

/-- The model has no fuel left. -/
def M.outOfFuel {α : Type} : M α := fun _ => none

/-- Running a call and looking at its error instead of propagating it. -/
def M.attempt {α : Type} (x : M α) : M (Except Err α) := fun w =>
  match x w with
  | none => none
  | some (res, w') => some (.ok res, w')

/-- Changing the manager in place. -/
def modifyManager (f : RestoreManager → RestoreManager) : M Unit := fun w =>
  some (.ok (), { w with r := f w.r })

/-- Reading the manager. -/
def getManager : M RestoreManager := fun w => some (.ok w.r, w)

/-- The call `Recorder.Event`. -/
def recordEvent (e : Event) : M Unit := fun w =>
  some (.ok (), { w with events := w.events ++ [e] })

/-! ## The control plane -/

/-- The state of the control plane as the reads of lineage resolution see it:
the stored backups, the failures of the API server, and what
`utils.GetActionSetByName` answers for a name. -/
structure Client where
  backups : List Backup
  getFault : String → String → Option String
  listFault : String → StringMap → Option String
  actionSetByName : String → Except Err (Option ActionSet)
  /-- The answer of `cli.Get` for a backup repository. -/
  backupRepoByName : String → Except Err BackupRepo := fun name => .error (.notFound name)
  /-- A failure of `cli.Get` for the job of this namespace and name. -/
  getJobFault : String → String → Option Err := fun _ _ => none
  /-- A failure, other than "already exists", of `cli.Create` for this job. -/
  createJobFault : Job → Option Err := fun _ => none
  /-- A failure of `cli.Delete` for the job of this namespace and name. -/
  deleteJobFault : String → String → Option Err := fun _ _ => none
  /-- A failure of `cli.List` for the pods of the job of this namespace and name. -/
  listPodsFault : String → String → Option Err := fun _ _ => none
  /-- A failure of `cli.Patch` for the pod of this namespace and name. -/
  patchPodFault : String → String → Option Err := fun _ _ => none
  /-- A failure of `cli.Get` for the volume claim of this namespace and name. -/
  getPVCFault : String → String → Option Err := fun _ _ => none
  /-- A failure, other than "already exists", of `cli.Create` for this volume claim. -/
  createPVCFault : PersistentVolumeClaim → Option Err := fun _ => none

/-- The result of `cli.Get` for a backup. -/
def Client.lookupBackup (cli : Client) (ns name : String) : Except Err Backup :=
  match cli.getFault ns name with
  | some msg => .error (.api msg)
  | none =>
    match cli.backups.find? (fun b => b.Namespace == ns && b.Name == name) with
    | some b => .ok b
    | none => .error (.notFound ("backups \"" ++ name ++ "\" not found"))

/-- The selector `client.MatchingLabels`. -/
def matchesLabels (labels selector : StringMap) : Bool :=
  selector.all (fun kv => labels.any (fun l => l.1 == kv.1) && labels.get kv.1 == kv.2)

/-- The result of `cli.List` for backups. -/
def Client.lookupBackups (cli : Client) (ns : String) (selector : StringMap) :
    Except Err (List Backup) :=
  match cli.listFault ns selector with
  | some msg => .error (.api msg)
  | none => .ok (cli.backups.filter (fun b => b.Namespace == ns && matchesLabels b.Labels selector))

/-- The call `cli.Get` for a backup. -/
def Client.Get (cli : Client) (ns name : String) : M Backup := fun w =>
  some (cli.lookupBackup ns name, { w with calls := w.calls ++ [.get "Backup" ns name] })

/-- The call `cli.List` for backups. -/
def Client.List (cli : Client) (ns : String) (selector : StringMap) : M (List Backup) := fun w =>
  some (cli.lookupBackups ns selector,
    { w with calls := w.calls ++ [.list "Backup" ns selector] })

/-- Modelled from the spec: `utils.GetActionSetByName`, declared outside the
sources, reads an action definition by name from the control plane; its answer
(possibly a nil action set without error) is a field of the client. -/
def GetActionSetByName (cli : Client) (name : String) : M (Option ActionSet) := fun w =>
  some (cli.actionSetByName name, { w with calls := w.calls ++ [.get "ActionSet" "" name] })

/-- What the file takes from packages outside the sources. -/
structure Deps where
  /-- The function `ValidateParentBackupSet parent child`: the message of its error, if any. -/
  ValidateParentBackupSet : BackupActionSet → BackupActionSet → Option String
  /-- The function `utils.CompareWithBackupStopTime`. -/
  CompareWithBackupStopTime : Backup → Backup → Bool
  /-- The function `sort.Slice` on backups, given the `less` function on elements. -/
  sortSlice : (Backup → Backup → Bool) → List Backup → List Backup
  /-- The call `time.Parse(time.RFC3339, s)`: `none` when `s` does not parse. -/
  timeParseRFC3339 : String → Option Time
  /-- Formatting a `metav1.Time` with the verb `%s`. -/
  formatTime : Time → String
  SkipBaseBackupRestoreInPitrAnnotationKey : String
  BackupTypeLabelKey : String
  ClusterUIDLabelKey : String
  AppInstanceLabelKey : String
  KBAppComponentLabelKey : String
  BackupPolicyLabelKey : String

/-- Modelled from the spec: `boolptr.IsSetToFalse`, declared outside the sources,
holds for a pointer that is set and points to false. -/
def IsSetToFalse : Option Bool → Bool
  | some false => true
  | _ => false

/-! ## Resolving one backup -/

def GetBackupActionSetByNamespaced (cli : Client) (backupName ns : String) :
    M BackupActionSet := do
  let res ← (cli.Get ns backupName).attempt
  match res with
  | .error err =>
    match err with
    | .notFound _ => M.fail (.fatal err.Error)
    | _ => M.fail err
  | .ok backup =>
    match backup.Status.BackupMethod with
    | none => M.fail (.fatal ("status.backupMethod of backup \"" ++ backupName ++ "\" is empty"))
    | some backupMethod =>
      let useVolumeSnapshot := backupMethod.SnapshotVolumes == some true
      let actionSet ← GetActionSetByName cli backupMethod.ActionSetName
      pure { Backup := backup, AncestorIncrementalBackups := [], BaseBackup := none,
             ActionSet := actionSet, UseVolumeSnapshot := useVolumeSnapshot }

/-! ## Stage classification -/

/-- One round of the loop of `SetBackupSets`. -/
def SetBackupSet (r : RestoreManager) (s : BackupActionSet) : RestoreManager :=
  if s.UseVolumeSnapshot then
    { r with PrepareDataBackupSets := r.PrepareDataBackupSets ++ [s] }
  else
    match s.ActionSet with
    | none => r
    | some actionSet =>
      match actionSet.Spec.Restore with
      | none => r
      | some restore =>
        let r1 := if restore.PrepareData.isSome then
          { r with PrepareDataBackupSets := r.PrepareDataBackupSets ++ [s] } else r
        if restore.PostReady.length > 0 then
          { r1 with PostReadyBackupSets := r1.PostReadyBackupSets ++ [s] } else r1

def RestoreManager.SetBackupSets (r : RestoreManager) (backupSets : List BackupActionSet) :
    RestoreManager :=
  backupSets.foldl SetBackupSet r

/-! ## Incremental chains -/

/-- The test `ActionSet != nil && ActionSet.Spec.BackupType == BackupTypeIncremental`. -/
def BackupActionSet.isIncremental (s : BackupActionSet) : Bool :=
  match s.ActionSet with
  | some actionSet => actionSet.Spec.BackupType == BackupTypeIncremental
  | none => false

/-- The variables of the loop of `BuildIncrementalBackupActionSet`. In the first
round `childBackupSet` points to `sourceBackupSet`; every read of it in that round
comes before the write to `sourceBackupSet`, after which it is pointed elsewhere,
so it is held by value. -/
structure IncrementalLoop where
  sourceBackupSet : BackupActionSet
  childBackupSet : BackupActionSet
  backupMap : List String

/-- One round of the loop of `BuildIncrementalBackupActionSet`. -/
def incrementalRound (d : Deps) (cli : Client) (s : IncrementalLoop) : M IncrementalLoop := do
  let backupMap := s.childBackupSet.Backup.Name :: s.backupMap
  let res ← (GetBackupActionSetByNamespaced cli s.childBackupSet.Backup.Status.ParentBackupName
    s.childBackupSet.Backup.Namespace).attempt
  match res with
  | .error _ =>
    M.fail (.fatal ("fails to get parent backup \"" ++ s.childBackupSet.Backup.Status.ParentBackupName
      ++ "\" of incremental backup \"" ++ s.childBackupSet.Backup.Name ++ "\""))
  | .ok backupSet =>
    if backupMap.contains backupSet.Backup.Name then
      M.fail (.fatal ("backup \"" ++ s.childBackupSet.Backup.Name ++ "\" relies on child backup \""
        ++ backupSet.Backup.Name ++ "\""))
    else
      match d.ValidateParentBackupSet backupSet s.childBackupSet with
      | some msg =>
        M.fail (.fatal ("fails to validate parent backup \"" ++ backupSet.Backup.Name
          ++ "\" and child backup \"" ++ s.childBackupSet.Backup.Name ++ "\": " ++ msg))
      | none =>
        let sourceBackupSet :=
          if backupSet.isIncremental then
            { s.sourceBackupSet with
              AncestorIncrementalBackups := backupSet.Backup :: s.sourceBackupSet.AncestorIncrementalBackups }
          else
            { s.sourceBackupSet with BaseBackup := some backupSet.Backup }
        pure { sourceBackupSet := sourceBackupSet, childBackupSet := backupSet, backupMap := backupMap }

/-- The loop of `BuildIncrementalBackupActionSet`; every round takes one unit of fuel. -/
def incrementalLoop (d : Deps) (cli : Client) : Nat → IncrementalLoop → M BackupActionSet
  | 0, s => if s.childBackupSet.isIncremental then M.outOfFuel else pure s.sourceBackupSet
  | fuel + 1, s =>
    if s.childBackupSet.isIncremental then
      incrementalRound d cli s >>= incrementalLoop d cli fuel
    else pure s.sourceBackupSet

/-- The function `BuildIncrementalBackupActionSet` with a bound on the rounds of its loop. -/
def BuildIncrementalBackupActionSetWithin (fuel : Nat) (d : Deps) (cli : Client)
    (sourceBackupSet : BackupActionSet) : M Unit := do
  let sourceBackupSet ← incrementalLoop d cli fuel
    { sourceBackupSet := sourceBackupSet, childBackupSet := sourceBackupSet, backupMap := [] }
  modifyManager (fun r => r.SetBackupSets [sourceBackupSet])

/-- The function `BuildIncrementalBackupActionSet`: one round more than the store has
backups is enough fuel (`loop_total`). -/
def BuildIncrementalBackupActionSet (d : Deps) (cli : Client) (sourceBackupSet : BackupActionSet) :
    M Unit :=
  BuildIncrementalBackupActionSetWithin (cli.backups.length + 1) d cli sourceBackupSet

/-! ## Continuous (point-in-time) restores -/

/-- The closure `checkRestoreTime` of `BuildContinuousRestoreManager`. -/
def checkRestoreTime (continuousBackup : Backup) (restoreTime : Time) : Except Err Unit :=
  let startTime := continuousBackup.GetStartTime
  let stopTime := continuousBackup.GetEndTime
  if metaIsZero startTime || metaIsZero stopTime then
    .error (.fatal ("startTimeStamp or completeTimeStamp of backup \"" ++ continuousBackup.Name
      ++ "\" is empty"))
  else
    match startTime, stopTime with
    | some start, some stop =>
      if timeBefore restoreTime start || timeAfter restoreTime stop then
        .error (.fatal ("restore time out of the range for backup \"" ++ continuousBackup.Name ++ "\""))
      else .ok ()
    | _, _ => .error .nilDereference

def listCompletedBackups (d : Deps) (cli : Client) (continuousBackup : Backup)
    (backupType : String) : M (List Backup) := do
  let matchingLabels : StringMap := [(d.BackupTypeLabelKey, backupType)]
  let clusterUID := StringMap.get continuousBackup.Labels d.ClusterUIDLabelKey
  let matchingLabels : StringMap :=
    if clusterUID != "" then StringMap.set matchingLabels d.ClusterUIDLabelKey clusterUID
    else matchingLabels
  let instance_ := StringMap.get continuousBackup.Labels d.AppInstanceLabelKey
  let matchingLabels : StringMap :=
    if instance_ != "" then StringMap.set matchingLabels d.AppInstanceLabelKey instance_
    else matchingLabels
  let compName := StringMap.get continuousBackup.Labels d.KBAppComponentLabelKey
  let matchingLabels : StringMap :=
    if compName != "" then StringMap.set matchingLabels d.KBAppComponentLabelKey compName
    else matchingLabels
  let matchingLabels : StringMap :=
    if matchingLabels.length == 1 then
      StringMap.set matchingLabels d.BackupPolicyLabelKey continuousBackup.Spec.BackupPolicyName
    else matchingLabels
  let backups ← cli.List continuousBackup.Namespace matchingLabels
  pure (backups.filter (fun b => b.Status.Phase == BackupPhaseCompleted))

/-- The test of the loop that looks for the latest backup. -/
def isLatestBackupCandidate (continuousBackup : Backup) (restoreTime : Time) (item : Backup) : Bool :=
  let backupStopTime := item.GetEndTime
  backupStopTime.isSome &&
    !metaBefore (some restoreTime) backupStopTime &&
    !metaBefore backupStopTime continuousBackup.GetStartTime

/-- The function `getBaseBackupActionSetForContinuous`. It returns a non-nil set
whenever it returns no error. -/
def getBaseBackupActionSetForContinuous (d : Deps) (cli : Client) (continuousBackup : Backup)
    (restoreTime : Time) : M BackupActionSet :=
  let notFoundLatestBackup : M BackupActionSet :=
    M.fail (.fatal ("can not found latest full or incremental backup based on backupPolicy \""
      ++ continuousBackup.Spec.BackupPolicyName ++ "\" and specified restoreTime \""
      ++ d.formatTime restoreTime ++ "\""))
  if metaIsZero continuousBackup.GetStartTime then notFoundLatestBackup
  else do
    let fullBackupItems ← listCompletedBackups d cli continuousBackup BackupTypeFull
    let incrementalBackupItems ← listCompletedBackups d cli continuousBackup BackupTypeIncremental
    let backupItems := ([] ++ fullBackupItems) ++ incrementalBackupItems
    let backupItems := d.sortSlice (fun i j => d.CompareWithBackupStopTime j i) backupItems
    match backupItems.find? (isLatestBackupCandidate continuousBackup restoreTime) with
    | none => notFoundLatestBackup
    | some latestBackup =>
      let actionSetName :=
        match latestBackup.Status.BackupMethod with
        | some backupMethod => backupMethod.ActionSetName
        | none => ""
      let actionSet ← GetActionSetByName cli actionSetName
      pure { Backup := latestBackup, AncestorIncrementalBackups := [], BaseBackup := none,
             ActionSet := actionSet, UseVolumeSnapshot := false }

def BuildContinuousRestoreManager (d : Deps) (cli : Client) (continuousBackupSet : BackupActionSet) :
    M Unit := do
  let r ← getManager
  let restoreTime := (d.timeParseRFC3339 r.Restore.Spec.RestoreTime).getD 0
  let continuousBackup := continuousBackupSet.Backup
  match checkRestoreTime continuousBackup restoreTime with
  | .error err => M.fail err
  | .ok _ =>
    match continuousBackupSet.ActionSet with
    | none => M.fail .nilDereference
    | some actionSet =>
      let baseBackupNotRequired :=
        match actionSet.Spec.Restore with
        | some restore => IsSetToFalse restore.BaseBackupRequired
        | none => false
      if baseBackupNotRequired then
        modifyManager (fun r => r.SetBackupSets [continuousBackupSet])
      else do
        let baseBackupSet ← getBaseBackupActionSetForContinuous d cli continuousBackup restoreTime
        let skipBaseBackupRestoreInPitr :=
          match actionSet.Annotations with
          | some annotations =>
            StringMap.get annotations d.SkipBaseBackupRestoreInPitrAnnotationKey == "true"
          | none => false
        let continuousBackupSet := { continuousBackupSet with BaseBackup := some baseBackupSet.Backup }
        if baseBackupSet.isIncremental then
          if skipBaseBackupRestoreInPitr then
            M.fail (.fatal "unify incremental and continuous restore job is not supported")
          else do
            BuildIncrementalBackupActionSet d cli baseBackupSet
            modifyManager (fun r => r.SetBackupSets [continuousBackupSet])
        else
          if skipBaseBackupRestoreInPitr then do
            recordEvent { eventtype := "Normal", reason := "SkipBaseBackupRestoreInPitr",
                          message := "base backup restore skipped" }
            modifyManager (fun r => r.SetBackupSets [continuousBackupSet])
          else
            modifyManager (fun r => r.SetBackupSets [baseBackupSet, continuousBackupSet])

/-! ## The execution coordinator: what it takes from elsewhere -/

/-- The constant `Restore` of the package: the name of the container that does the work. -/
def RestoreContainer : String := "restore"

/-- The constant `restoreManagerContainerName`. -/
def restoreManagerContainerName : String := "restore-manager"

/-- What the execution coordinator and the job builder take from the other files of the
package and from imported packages. -/
structure Helpers where
  /-- The function `GetRestoreActionsCountForPrepareData`: the target count of a configuration. -/
  GetRestoreActionsCountForPrepareData : Option PrepareDataConfig → Int
  /-- The method `IsSerialPolicy` of `*PrepareDataConfig`. -/
  IsSerialPolicy : Option PrepareDataConfig → Bool
  /-- The function `BuildJobKeyForActionStatus`: the object key recorded for a job name. -/
  BuildJobKeyForActionStatus : String → String
  /-- The job name `deleteRestoreJob` reads off an object key. -/
  jobNameOfKey : String → String
  /-- The function `GetSourcePodNameFromTarget target policy index`. -/
  GetSourcePodNameFromTarget : BackupStatusTarget → Option String → Int → Except Err String
  /-- The function `cutJobName`. -/
  cutJobName : String → String
  /-- The function `BuildRestoreLabels`, of the name of the restore. -/
  BuildRestoreLabels : String → StringMap
  /-- The function `getMountPathWithSourceVolume`. -/
  getMountPathWithSourceVolume : Backup → String → String
  /-- The environment `addCommonEnv` assembles for a restore, a backup set and a source pod. -/
  commonEnv : Restore → BackupActionSet → String → List EnvVar
  /-- The call `common.Expand(image, common.MappingFuncFor(utils.CovertEnvToMap(env)))`. -/
  expandImage : String → List EnvVar → String
  /-- The function `intctrlutil.ReplaceImageRegistry`. -/
  ReplaceImageRegistry : String → String
  /-- The resources `intctrlutil.InjectZeroResourcesLimitsIfEmpty` leaves in a container. -/
  zeroResourcesLimitsIfEmpty : ResourceRequirements → ResourceRequirements
  /-- The function `utils.InjectDatasafed podSpec repo mountPath encryptionConfig kopiaRepoPath`. -/
  InjectDatasafed : PodSpec → BackupRepo → String → Option String → String → PodSpec
  /-- The function `utils.InjectDatasafedWithPVC podSpec pvcName mountPath kopiaRepoPath`. -/
  InjectDatasafedWithPVC : PodSpec → String → String → String → PodSpec
  /-- The call `json.Marshal` on the extras of a backup. -/
  marshalExtras : List StringMap → String
  /-- The function `utils.IsJobFinished`: whether the job is done, and its error message. -/
  IsJobFinished : Job → Bool × String
  /-- The list `SetRestoreStatusAction` leaves behind the pointer it is given. -/
  SetRestoreStatusAction : List RestoreStatusAction → RestoreStatusAction → List RestoreStatusAction
  /-- The pods `utils.GetAssociatedPodsOfJob` selects for a job name within the namespace,
  by their labels. -/
  isPodOfJob : StringMap → String → Bool
  /-- The function `constant.GenerateWorkloadNamePattern`. -/
  GenerateWorkloadNamePattern : String → String → String
  /-- The function `instanceset.GetMatchLabels`. -/
  GetMatchLabels : String → StringMap
  /-- The map `intctrlutil.MergeMetadataMapInplace original target` leaves in `target`. -/
  MergeMetadataMap : StringMap → StringMap → StringMap
  KBToolsImage : String
  KBImagePullPolicy : String
  defaultBackoffLimit : Int
  DataProtectionFinalizerName : String
  DataProtectionBackupExtrasLabelKey : String
  DataProtectionStopRestoreManagerAnnotationKey : String
  reasonCreateRestoreJob : String
  reasonCreateRestorePVC : String
  KBAppPodNameLabelKey : String
  KBAppInstanceTemplateLabelKey : String

/-- The object that owns the created jobs. `Kind` is the kind the scheme knows for it,
`none` when the scheme does not know its type. -/
structure OwnerObject where
  Kind : Option String
  Name : String
  Namespace : String
  UID : String

/-- Whether a Go map has the key. -/
def StringMap.has (m : StringMap) (k : String) : Bool := m.any (fun kv => kv.1 == k)

/-- A Go `int` printed with the verb `%d`. -/
def formatInt (i : Int) : String := toString i

/-- The function `strings.ToLower`, on the ASCII names of the stages. -/
def toLower (s : String) : String := ⟨s.data.map Char.toLower⟩

/-- The slice `s[:n]` of a string of at least `n` bytes: its first `n` bytes. -/
def prefixOf (s : String) (n : Nat) : String := ⟨s.data.take n⟩

/-- An operand of `fmt.Sprintf`. -/
inductive FormatArg where
  | str (s : String)
  | int (i : Int)

/-- The output of `fmt.Sprintf` for the rest of a format and the operands left: the verb
`%s` writes the bytes of a string operand, the verb `%d` the decimal numeral of an integer
operand, and any other byte of the format is copied. -/
def sprintfBytes : List Char → List FormatArg → List Char
  | '%' :: 's' :: format, .str s :: args => s.data ++ sprintfBytes format args
  | '%' :: 'd' :: format, .int i :: args => (formatInt i).data ++ sprintfBytes format args
  | c :: format, args => c :: sprintfBytes format args
  | [], _ => []

/-- The function `fmt.Sprintf`, for the verbs `%s` and `%d` with operands that fit them. -/
def Sprintf (format : String) (args : List FormatArg) : String :=
  ⟨sprintfBytes format.data args⟩

/-- Modelled from the spec: the method `HasPrepareDataStage` of `*ActionSet`, declared
outside the sources, tells whether the action definition declares a prepare-data stage. -/
def HasPrepareDataStage : Option ActionSet → Bool
  | some actionSet =>
    match actionSet.Spec.Restore with
    | some restore => restore.PrepareData.isSome
    | none => false
  | none => false

/-- Modelled from the spec: `restoreJobHasCompleted`, declared outside the sources, tells
whether the task of this name is already recorded Completed. -/
def restoreJobHasCompleted (h : Helpers) (statusActions : List RestoreStatusAction)
    (jobName : String) : Bool :=
  statusActions.any (fun a =>
    a.ObjectKey == h.BuildJobKeyForActionStatus jobName && a.Status == RestoreActionCompleted)

/-! ## The execution coordinator: requests to the control plane -/

/-- The call `cli.Get` for a job. -/
def Client.GetJob (cli : Client) (ns name : String) : M Job := fun w =>
  let w' := { w with calls := w.calls ++ [.get "Job" ns name] }
  match cli.getJobFault ns name with
  | some err => some (.error err, w')
  | none =>
    match w.jobs.find? (fun j => j.Namespace == ns && j.Name == name) with
    | some j => some (.ok j, w')
    | none => some (.error (.notFound ("jobs \"" ++ name ++ "\" not found")), w')

/-- What `cli.Create` answers. -/
inductive CreateResult where
  | created
  | alreadyExists
  | failed (err : Err)
deriving DecidableEq

/-- The call `cli.Create` for a job. -/
def Client.CreateJob (cli : Client) (job : Job) : M CreateResult := fun w =>
  let w' := { w with calls := w.calls ++ [.create "Job" job.Namespace job.Name] }
  match cli.createJobFault job with
  | some err => some (.ok (.failed err), w')
  | none =>
    if w.jobs.any (fun j => j.Namespace == job.Namespace && j.Name == job.Name) then
      some (.ok .alreadyExists, w')
    else some (.ok .created, { w' with jobs := w'.jobs ++ [job] })

/-- The call `cli.Get` for a volume claim: whether it exists. -/
def Client.GetPVC (cli : Client) (ns name : String) : M Unit := fun w =>
  let w' := { w with calls := w.calls ++ [.get "PersistentVolumeClaim" ns name] }
  match cli.getPVCFault ns name with
  | some err => some (.error err, w')
  | none =>
    if w.pvcs.any (fun c => c.Namespace == ns && c.Name == name) then some (.ok (), w')
    else some (.error (.notFound ("persistentvolumeclaims \"" ++ name ++ "\" not found")), w')

/-- The call `cli.Create` for a volume claim. -/
def Client.CreatePVC (cli : Client) (pvc : PersistentVolumeClaim) : M CreateResult := fun w =>
  let w' := { w with calls := w.calls ++ [.create "PersistentVolumeClaim" pvc.Namespace pvc.Name] }
  match cli.createPVCFault pvc with
  | some err => some (.ok (.failed err), w')
  | none =>
    if w.pvcs.any (fun c => c.Namespace == pvc.Namespace && c.Name == pvc.Name) then
      some (.ok .alreadyExists, w')
    else some (.ok .created, { w' with pvcs := w'.pvcs ++ [pvc] })

/-- The call `cli.Get` for a backup repository. -/
def Client.GetBackupRepo (cli : Client) (name : String) : M BackupRepo := fun w =>
  some (cli.backupRepoByName name, { w with calls := w.calls ++ [.get "BackupRepo" "" name] })

/-- Modelled from the spec: `utils.GetAssociatedPodsOfJob`, declared outside the sources,
lists the pods of a job in its namespace. -/
def GetAssociatedPodsOfJob (h : Helpers) (cli : Client) (ns name : String) : M (List Pod) :=
  fun w =>
    let w' := { w with calls := w.calls ++ [.list "Pod" ns [("job-name", name)]] }
    match cli.listPodsFault ns name with
    | some err => some (.error err, w')
    | none =>
      some (.ok (w.pods.filter (fun p => p.Namespace == ns && h.isPodOfJob p.Labels name)), w')

/-- The stored pod after a merge patch that sets one annotation. -/
def Pod.annotate (p : Pod) (key value : String) : Pod :=
  { p with Annotations := some (StringMap.set (p.Annotations.getD []) key value) }

/-- The call `Client.Patch(modified, client.MergeFrom(pod))` where `modified` is `pod` with
one annotation set: the stored pod of that namespace and name gets the annotation. -/
def Client.PatchPodAnnotation (cli : Client) (ns name key value : String) : M Unit := fun w =>
  let w' := { w with calls := w.calls ++ [.patch "Pod" ns name] }
  match cli.patchPodFault ns name with
  | some err => some (.error err, w')
  | none =>
    if w.pods.any (fun p => p.Namespace == ns && p.Name == name) then
      some (.ok (), { w' with pods := w'.pods.map (fun p =>
        if p.Namespace == ns && p.Name == name then p.annotate key value else p) })
    else some (.error (.notFound ("pods \"" ++ name ++ "\" not found")), w')

/-- Modelled from the spec: `deleteRestoreJob`, declared outside the sources, deletes the
task recorded under an object key, in the namespace of the restore; a task that is already
gone is no error. -/
def deleteRestoreJob (h : Helpers) (cli : Client) (objectKey ns : String) : M Unit := fun w =>
  let name := h.jobNameOfKey objectKey
  let w' := { w with calls := w.calls ++ [.delete "Job" ns name] }
  match cli.deleteJobFault ns name with
  | some err => some (.error err, w')
  | none =>
    some (.ok (), { w' with jobs := w'.jobs.filter (fun j => !(j.Namespace == ns && j.Name == name)) })

/-! ## The execution coordinator: completion and the barrier -/

/-- The function `Recalculation`: the value it leaves behind `allActionsFinished`; it does
not write behind `existFailedAction`. -/
def Recalculation (h : Helpers) (r : RestoreManager) (backupName actionName : String)
    (allActionsFinished existFailedAction : Bool) : Bool :=
  let prepareDataConfig := r.Restore.Spec.PrepareDataConfig
  if !h.IsSerialPolicy prepareDataConfig then allActionsFinished
  else if existFailedAction then true
  else
    let actionCount : Int := r.Restore.Status.Actions.PrepareData.foldl
      (fun actionCount v =>
        if v.Name == actionName && v.BackupName == backupName then actionCount + 1
        else actionCount) 0
    if actionCount != h.GetRestoreActionsCountForPrepareData prepareDataConfig then false
    else allActionsFinished

/-- The function `StopManagerContainer`. -/
def StopManagerContainer (h : Helpers) (cli : Client) (pod : Pod) : M Unit :=
  let annotations : StringMap := pod.Annotations.getD []
  if StringMap.has annotations h.DataProtectionStopRestoreManagerAnnotationKey &&
      StringMap.get annotations h.DataProtectionStopRestoreManagerAnnotationKey == "true" then
    pure ()
  else do
    let res ← (cli.PatchPodAnnotation pod.Namespace pod.Name
      h.DataProtectionStopRestoreManagerAnnotationKey "true").attempt
    match res with
    | .error err =>
      match err with
      | .notFound _ => pure ()
      | _ => M.fail err
    | .ok _ => pure ()

/-- The loop of `StopManagerContainerByJob`. -/
def StopManagerContainers (h : Helpers) (cli : Client) : List Pod → M Unit
  | [] => pure ()
  | pod :: pods => do
    StopManagerContainer h cli pod
    StopManagerContainers h cli pods

/-- The function `StopManagerContainerByJob`. -/
def StopManagerContainerByJob (h : Helpers) (cli : Client) (job : Job) : M Unit := do
  let podList ← GetAssociatedPodsOfJob h cli job.Namespace job.Name
  StopManagerContainers h cli podList

/-- The inner loop of `CheckIfRestoreContainerTerminated`, over the container statuses of
one pod. -/
def checkContainerStatuses (h : Helpers) (cli : Client) (pod : Pod) :
    List ContainerStatus → Bool → M Bool
  | [], normalTerminated => pure normalTerminated
  | containerStatus :: rest, normalTerminated =>
    if containerStatus.Name != RestoreContainer then
      checkContainerStatuses h cli pod rest normalTerminated
    else
      match containerStatus.Terminated with
      | none => checkContainerStatuses h cli pod rest normalTerminated
      | some exitCode =>
        if exitCode != 0 then do
          StopManagerContainer h cli pod
          checkContainerStatuses h cli pod rest normalTerminated
        else checkContainerStatuses h cli pod rest true

/-- The outer loop of `CheckIfRestoreContainerTerminated`, over the pods of the job. -/
def checkPods (h : Helpers) (cli : Client) : List Pod → Bool → M Bool
  | [], normalTerminated => pure normalTerminated
  | pod :: pods, normalTerminated => do
    let normalTerminated ← checkContainerStatuses h cli pod pod.ContainerStatuses normalTerminated
    checkPods h cli pods normalTerminated

/-- The function `CheckIfRestoreContainerTerminated`. -/
def CheckIfRestoreContainerTerminated (h : Helpers) (cli : Client) (job : Job) : M Bool := do
  let podList ← GetAssociatedPodsOfJob h cli job.Namespace job.Name
  if podList.length == 0 then pure false
  else checkPods h cli podList false

/-- The call `SetRestoreStatusAction(restoreActions, statusAction)` of `CheckJobsDone`, where
`restoreActions` points to the actions of the stage in the status of the restore. -/
def setStatusAction (h : Helpers) (stage : String) (statusAction : RestoreStatusAction) : M Unit :=
  modifyManager (fun r =>
    let actions := r.Restore.Status.Actions
    let actions :=
      if stage == PostReady then
        { actions with PostReady := h.SetRestoreStatusAction actions.PostReady statusAction }
      else
        { actions with PrepareData := h.SetRestoreStatusAction actions.PrepareData statusAction }
    { r with Restore := { r.Restore with Status := { r.Restore.Status with Actions := actions } } })

/-- The variables of the first loop of `CheckJobsDone`. -/
structure JobsProgress where
  allJobFinished : Bool := true
  existFailedJob : Bool := false
  finishedCount : Nat := 0
deriving DecidableEq

/-- One round of the first loop of `CheckJobsDone`. -/
def checkJob (h : Helpers) (cli : Client) (stage actionName : String) (backupSet : BackupActionSet)
    (job : Job) (p : JobsProgress) : M JobsProgress :=
  let statusAction : RestoreStatusAction :=
    { Name := actionName, ObjectKey := h.BuildJobKeyForActionStatus job.Name,
      BackupName := backupSet.Backup.Name, Status := "" }
  let done := (h.IsJobFinished job).1
  let errMsg := (h.IsJobFinished job).2
  if errMsg != "" then do
    setStatusAction h stage { statusAction with Status := RestoreActionFailed, Message := errMsg }
    pure { p with existFailedJob := true, finishedCount := p.finishedCount + 1 }
  else if done then do
    setStatusAction h stage { statusAction with Status := RestoreActionCompleted }
    pure { p with finishedCount := p.finishedCount + 1 }
  else do
    setStatusAction h stage { statusAction with Status := RestoreActionProcessing }
    let normalTerminated ← CheckIfRestoreContainerTerminated h cli job
    if normalTerminated then
      pure { p with allJobFinished := false, finishedCount := p.finishedCount + 1 }
    else pure { p with allJobFinished := false }

/-- The first loop of `CheckJobsDone`. -/
def checkJobs (h : Helpers) (cli : Client) (stage actionName : String) (backupSet : BackupActionSet) :
    List Job → JobsProgress → M JobsProgress
  | [], p => pure p
  | job :: jobs, p => do
    let p ← checkJob h cli stage actionName backupSet job p
    checkJobs h cli stage actionName backupSet jobs p

/-- The second loop of `CheckJobsDone`. -/
def stopManagerContainersByJobs (h : Helpers) (cli : Client) : List Job → M Unit
  | [] => pure ()
  | job :: jobs => do
    StopManagerContainerByJob h cli job
    stopManagerContainersByJobs h cli jobs

/-- The function `CheckJobsDone`: it returns `allJobFinished` and `existFailedJob`. -/
def CheckJobsDone (h : Helpers) (cli : Client) (stage actionName : String)
    (backupSet : BackupActionSet) (fetchedJobs : List Job) : M (Bool × Bool) := do
  let p ← checkJobs h cli stage actionName backupSet fetchedJobs {}
  if p.finishedCount == fetchedJobs.length then
    stopManagerContainersByJobs h cli fetchedJobs
    pure (p.allJobFinished, p.existFailedJob)
  else pure (p.allJobFinished, p.existFailedJob)

/-! ## The execution coordinator: submission -/

/-- The test `referSameObject` of `controllerutil`: same kind and name. -/
def referSameObject (a b : OwnerReference) : Bool := a.Kind == b.Kind && a.Name == b.Name

/-- The function `upsertOwnerRef` of `controllerutil`. -/
def upsertOwnerRef (ref : OwnerReference) (refs : List OwnerReference) : List OwnerReference :=
  if refs.any (referSameObject ref) then
    refs.map (fun existing => if referSameObject existing ref then ref else existing)
  else refs ++ [ref]

/-- The function `controllerutil.SetControllerReference`: the job with the owner as its
controller, or the error of an owner of another namespace, of a type unknown to the scheme,
or of a job that another object controls already. -/
def SetControllerReference (owner : OwnerObject) (job : Job) : Except Err Job :=
  if owner.Namespace != "" && job.Namespace == "" then
    .error (.api "cluster-scoped resource must not have a namespace-scoped owner")
  else if owner.Namespace != "" && owner.Namespace != job.Namespace then
    .error (.api "cross-namespace owner references are disallowed")
  else
    match owner.Kind with
    | none => .error (.api "no kind is registered for the type of the owner")
    | some kind =>
      let ref : OwnerReference :=
        { Kind := kind, Name := owner.Name, UID := owner.UID,
          Controller := true, BlockOwnerDeletion := true }
      match job.OwnerReferences.find? (·.Controller) with
      | some existing =>
        if !referSameObject existing ref then .error (.api "Object is already owned by another controller")
        else .ok { job with OwnerReferences := upsertOwnerRef ref job.OwnerReferences }
      | none => .ok { job with OwnerReferences := upsertOwnerRef ref job.OwnerReferences }

/-- One round of the loop of `CreateJobsIfNotExist`, for a planned job that is not nil:
the job it appends to `fetchedJobs`. -/
def createJobIfNotExist (h : Helpers) (cli : Client) (ownerObj : OwnerObject) (obj : Job) :
    M Job := do
  let res ← (cli.GetJob obj.Namespace obj.Name).attempt
  match res with
  | .ok fetchedJob => pure fetchedJob
  | .error err =>
    match err with
    | .notFound _ =>
      let owned : Except Err Job :=
        if ownerObj.Namespace == obj.Namespace then SetControllerReference ownerObj obj
        else .ok obj
      match owned with
      | .error err => M.fail err
      | .ok obj =>
        let outcome ← cli.CreateJob obj
        match outcome with
        | .failed err => M.fail err
        | _ =>
          recordEvent { eventtype := "Normal", reason := h.reasonCreateRestoreJob,
                        message := "created job " ++ obj.Namespace ++ "/" ++ obj.Name }
          pure obj
    | _ => M.fail err

/-- The function `CreateJobsIfNotExist`. -/
def CreateJobsIfNotExist (h : Helpers) (cli : Client) (ownerObj : OwnerObject) :
    List (Option Job) → M (List Job)
  | [] => pure []
  | none :: objs => CreateJobsIfNotExist h cli ownerObj objs
  | some obj :: objs => do
    let fetchedJob ← createJobIfNotExist h cli ownerObj obj
    let fetchedJobs ← CreateJobsIfNotExist h cli ownerObj objs
    pure (fetchedJob :: fetchedJobs)

/-! ## The job builder -/

/-- The builder of restore jobs. Its slices are held by value: the aliasing of their
backing arrays between the builder and a built job is not modelled. -/
structure restoreJobBuilder where
  restore : Restore
  stage : String
  backupSet : BackupActionSet
  backupRepo : Option BackupRepo
  buildWithRepo : Bool := false
  env : List EnvVar := []
  envFrom : List String := []
  commonVolumes : List Volume := []
  commonVolumeMounts : List VolumeMount := []
  specificVolumes : List Volume := []
  specificVolumeMounts : List VolumeMount := []
  image : String := ""
  command : List String := []
  args : List String := []
  tolerations : List String := []
  nodeSelector : StringMap := []
  jobName : String := ""
  labels : StringMap := []
  serviceAccount : String := ""

def newRestoreJobBuilder (h : Helpers) (restore : Restore) (backupSet : BackupActionSet)
    (backupRepo : Option BackupRepo) (stage : String) : restoreJobBuilder :=
  { restore := restore, backupSet := backupSet, backupRepo := backupRepo, stage := stage,
    commonVolumes := [], commonVolumeMounts := [], labels := h.BuildRestoreLabels restore.Name }

/-- The method `buildPVCVolumeAndMount`: a volume and its mount, two nil pointers, or an error. -/
def restoreJobBuilder.buildPVCVolumeAndMount (h : Helpers) (r : restoreJobBuilder)
    (claim : VolumeConfig) (claimName identifier : String) :
    Except Err (Option Volume × Option VolumeMount) :=
  let volumeName := identifier ++ "-" ++ claimName
  let volume : Volume := { Name := volumeName, PersistentVolumeClaim := some claimName }
  let volumeMount : VolumeMount := { Name := volumeName }
  if claim.MountPath != "" then
    .ok (some volume, some { volumeMount with MountPath := claim.MountPath })
  else
    let mountPath := h.getMountPathWithSourceVolume r.backupSet.Backup claim.VolumeSource
    if mountPath != "" then
      .ok (some volume, some { volumeMount with MountPath := mountPath })
    else if r.backupSet.UseVolumeSnapshot && !HasPrepareDataStage r.backupSet.ActionSet then
      .ok (none, none)
    else
      .error (.fatal ("unable to find the mountPath corresponding to volumeSource \""
        ++ claim.VolumeSource ++ "\" from status.backupMethod.targetVolumes.volumeMounts of backup \""
        ++ r.backupSet.Backup.Name ++ "\""))

def restoreJobBuilder.addToCommonVolumesAndMounts (r : restoreJobBuilder)
    (volume : Option Volume) (volumeMount : Option VolumeMount) : restoreJobBuilder :=
  let r := match volume with
    | some v => { r with commonVolumes := r.commonVolumes ++ [v] }
    | none => r
  match volumeMount with
  | some m => { r with commonVolumeMounts := r.commonVolumeMounts ++ [m] }
  | none => r

def restoreJobBuilder.resetSpecificVolumesAndMounts (r : restoreJobBuilder) : restoreJobBuilder :=
  { r with specificVolumes := [], specificVolumeMounts := [] }

def restoreJobBuilder.resetSpecificLabels (h : Helpers) (r : restoreJobBuilder) : restoreJobBuilder :=
  { r with labels := h.BuildRestoreLabels r.restore.Name }

def restoreJobBuilder.addToSpecificVolumesAndMounts (r : restoreJobBuilder)
    (volume : Option Volume) (volumeMount : Option VolumeMount) : restoreJobBuilder :=
  let r := match volume with
    | some v => { r with specificVolumes := r.specificVolumes ++ [v] }
    | none => r
  match volumeMount with
  | some m => { r with specificVolumeMounts := r.specificVolumeMounts ++ [m] }
  | none => r

def restoreJobBuilder.setImage (r : restoreJobBuilder) (image : String) : restoreJobBuilder :=
  { r with image := image }

def restoreJobBuilder.setCommand (r : restoreJobBuilder) (command : List String) : restoreJobBuilder :=
  { r with command := command }

def restoreJobBuilder.setJobName (r : restoreJobBuilder) (jobName : String) : restoreJobBuilder :=
  { r with jobName := jobName }

def restoreJobBuilder.addLabel (r : restoreJobBuilder) (key value : String) : restoreJobBuilder :=
  if StringMap.has r.labels key then r
  else { r with labels := StringMap.set r.labels key value }

def restoreJobBuilder.setServiceAccount (r : restoreJobBuilder) (serviceAccount : String) :
    restoreJobBuilder :=
  { r with serviceAccount := serviceAccount }

def restoreJobBuilder.attachBackupRepo (r : restoreJobBuilder) : restoreJobBuilder :=
  { r with buildWithRepo := true }

/-- The method `addCommonEnv`: it replaces the environment of the builder by the one it
assembles from the restore, the backup set and the source pod; what it assembles is taken
from `Helpers.commonEnv`. -/
def restoreJobBuilder.addCommonEnv (h : Helpers) (r : restoreJobBuilder)
    (sourceTargetPodName : String) : restoreJobBuilder :=
  { r with env := h.commonEnv r.restore r.backupSet sourceTargetPodName }

/-- The method `builderRestoreJobName`. The slice `UID[:8]` keeps the first 8 bytes of the
UID and panics when the UID has fewer than 8 bytes; the model returns the panic as the
error `nilDereference`. -/
def restoreJobBuilder.builderRestoreJobName (h : Helpers) (r : restoreJobBuilder)
    (jobIndex : Int) : Except Err String :=
  if r.restore.UID.length < 8 then .error .nilDereference
  else
    let jobName := Sprintf "restore-%s-%s-%s-%d"
      [.str (toLower r.stage), .str (prefixOf r.restore.UID 8), .str r.backupSet.Backup.Name,
       .int jobIndex]
    .ok (h.cutJobName jobName)

/-- The script of the `restore-manager` container. -/
def buildSyncProgressCommand (checkIntervalSeconds : Int) (signalFile : String) : String :=
  "\nset -o errexit\nset -o nounset\n\nsleep_seconds=\"" ++ formatInt checkIntervalSeconds
    ++ "\"\nsignal_file=\"" ++ signalFile
    ++ "\"\n\nif [ \"$sleep_seconds\" -le 0 ]; then\n  sleep_seconds=2\nfi\n\nwhile true; do\n"
    ++ "  if [ -f \"$signal_file\" ] && [ \"$(cat \"$signal_file\")\" = \"true\" ]; then\n"
    ++ "    break\n  fi\n"
    ++ "  echo \"waiting for other restore workloads, sleep $\x7bsleep_seconds\x7ds\"\n"
    ++ "  sleep \"$sleep_seconds\"\ndone\n\necho \"restore manager stopped\"\n"

/-- The method `InjectManagerContainer`. -/
def InjectManagerContainer (h : Helpers) (podSpec : PodSpec) : PodSpec :=
  let container : Container :=
    { Name := restoreManagerContainerName, Image := h.KBToolsImage,
      ImagePullPolicy := h.KBImagePullPolicy, Resources := {}, Command := ["sh", "-c"] }
  let container := { container with Resources := h.zeroResourcesLimitsIfEmpty container.Resources }
  let checkIntervalSeconds : Int := 1
  let volumeName := "downward-volume"
  let mountPath := "/dp_downward"
  let fileName := "stop_restore_manager"
  let file : DownwardAPIVolumeFile :=
    { Path := fileName,
      FieldPath := "metadata.annotations[\x27"
        ++ h.DataProtectionStopRestoreManagerAnnotationKey ++ "\x27]" }
  let volume : Volume := { Name := volumeName, DownwardAPI := some [file] }
  let podSpec := { podSpec with Volumes := podSpec.Volumes ++ [volume] }
  let volumeMount : VolumeMount := { Name := volumeName, MountPath := mountPath }
  let container := { container with VolumeMounts := container.VolumeMounts ++ [volumeMount] }
  let container := { container with
    Args := [buildSyncProgressCommand checkIntervalSeconds (mountPath ++ "/" ++ fileName)] }
  { podSpec with Containers := podSpec.Containers ++ [container] }

/-- The function `controllerutil.AddFinalizer`. -/
def AddFinalizer (job : Job) (finalizer : String) : Job :=
  if job.Finalizers.contains finalizer then job
  else { job with Finalizers := job.Finalizers ++ [finalizer] }

/-- The method `build`: the builder as the call leaves it, and the job. -/
def restoreJobBuilder.build (h : Helpers) (r : restoreJobBuilder) :
    Except Err (restoreJobBuilder × Job) := do
  let r ←
    if r.jobName == "" then do
      let jobName ← r.builderRestoreJobName h 0
      pure { r with jobName := jobName }
    else pure r
  -- 1. set pod spec
  let podSpec : PodSpec := { RunAsUser := some 0, RestartPolicy := "Never" }
  let podSpec ←
    if r.stage == PrepareData then
      match r.restore.Spec.PrepareDataConfig with
      | none => .error .nilDereference
      | some prepareDataConfig =>
        let schedulingSpec := prepareDataConfig.SchedulingSpec
        pure { podSpec with
          Tolerations := schedulingSpec.Tolerations, Affinity := schedulingSpec.Affinity,
          NodeSelector := schedulingSpec.NodeSelector, NodeName := schedulingSpec.NodeName,
          SchedulerName := schedulingSpec.SchedulerName,
          TopologySpreadConstraints := schedulingSpec.TopologySpreadConstraints }
    else pure { podSpec with Tolerations := r.tolerations, NodeSelector := r.nodeSelector }
  let r := { r with specificVolumes := r.specificVolumes ++ r.commonVolumes }
  let podSpec := { podSpec with Volumes := r.specificVolumes, ServiceAccountName := r.serviceAccount }
  let backoffLimit :=
    match r.restore.Spec.BackoffLimit with
    | some limit => some limit
    | none => some h.defaultBackoffLimit
  -- 2. set restore container
  let r := { r with specificVolumeMounts := r.specificVolumeMounts ++ r.commonVolumeMounts }
  let image := h.expandImage r.image r.env
  let container : Container :=
    { Name := RestoreContainer, Resources := r.restore.Spec.ContainerResources, Env := r.env,
      EnvFrom := r.envFrom, VolumeMounts := r.specificVolumeMounts, Command := r.command,
      Args := r.args, Image := h.ReplaceImageRegistry image, ImagePullPolicy := "IfNotPresent" }
  -- downward backup.status.extras to volumes
  let extras := r.backupSet.Backup.Status.Extras
  let annotations : Option StringMap :=
    if extras.length == 0 then none
    else some (StringMap.set [] h.DataProtectionBackupExtrasLabelKey (h.marshalExtras extras))
  let extrasFile : DownwardAPIVolumeFile :=
    { Path := "status_extras",
      FieldPath := "metadata.annotations[\x27" ++ h.DataProtectionBackupExtrasLabelKey
        ++ "\x27]" }
  let extrasVolume : Volume := { Name := "downward-volume", DownwardAPI := some [extrasFile] }
  let extrasMount : VolumeMount := { Name := "downward-volume", MountPath := "/dp_downward/" }
  let podSpec :=
    if extras.length == 0 then podSpec
    else { podSpec with Volumes := podSpec.Volumes ++ [extrasVolume] }
  let container :=
    if extras.length == 0 then container
    else { container with VolumeMounts := container.VolumeMounts ++ [extrasMount] }
  let container := { container with Resources := h.zeroResourcesLimitsIfEmpty container.Resources }
  let podSpec := { podSpec with Containers := [container] }
  -- 3. inject restore manager
  let podSpec := InjectManagerContainer h podSpec
  -- 4. inject datasafed if needed
  let podSpec :=
    if r.buildWithRepo then
      let mountPath := "/backupdata"
      let kopiaRepoPath := r.backupSet.Backup.Status.KopiaRepoPath
      let encryptionConfig := r.backupSet.Backup.Status.EncryptionConfig
      match r.backupRepo with
      | some backupRepo => h.InjectDatasafed podSpec backupRepo mountPath encryptionConfig kopiaRepoPath
      | none =>
        if r.backupSet.Backup.Status.PersistentVolumeClaimName != "" then
          h.InjectDatasafedWithPVC podSpec r.backupSet.Backup.Status.PersistentVolumeClaimName
            mountPath kopiaRepoPath
        else podSpec
    else podSpec
  let job : Job :=
    { Name := r.jobName, Namespace := r.restore.Namespace, Labels := r.labels,
      Spec := { BackoffLimit := backoffLimit,
                Template := { Labels := r.labels, Annotations := annotations, Spec := podSpec } } }
  pure (r, AddFinalizer job h.DataProtectionFinalizerName)

/-! ## Planning the prepare-data jobs -/

/-- A value or an error computed without the control plane, as a step of a call. -/
def M.ofExcept {α : Type} (x : Except Err α) : M α := fun w => some (x, w)

/-- The function `addItsManagingLabels`: the claim with the labels it leaves on it. -/
def addItsManagingLabels (d : Deps) (h : Helpers) (claim : RestoreVolumeClaim) (index : Int) :
    RestoreVolumeClaim :=
  let clusterName := StringMap.get claim.Labels d.AppInstanceLabelKey
  let compName := StringMap.get claim.Labels d.KBAppComponentLabelKey
  if clusterName == "" || compName == "" then claim
  else
    let compObjName := h.GenerateWorkloadNamePattern clusterName compName
    let itsMatchLabels := h.GetMatchLabels compObjName
    let labels := h.MergeMetadataMap itsMatchLabels claim.Labels
    if StringMap.get labels h.KBAppPodNameLabelKey == "" then
      let podName :=
        if StringMap.has labels h.KBAppInstanceTemplateLabelKey then
          compObjName ++ "-" ++ StringMap.get labels h.KBAppInstanceTemplateLabelKey ++ "-"
            ++ formatInt index
        else compObjName ++ "-" ++ formatInt index
      { claim with Labels := StringMap.set labels h.KBAppPodNameLabelKey podName }
    else { claim with Labels := labels }

/-- The method `createPVCIfNotExist`, for the metadata (name and labels) and the spec of a
claim, in the namespace of the request. -/
def createPVCIfNotExist (h : Helpers) (cli : Client) (reqNamespace name : String)
    (labels : StringMap) (claimSpec : String) : M Unit := do
  let pvc : PersistentVolumeClaim :=
    { Name := name, Namespace := reqNamespace, Labels := labels, Spec := claimSpec }
  let res ← (cli.GetPVC reqNamespace name).attempt
  match res with
  | .ok _ => pure ()
  | .error err =>
    match err with
    | .notFound _ =>
      recordEvent { eventtype := "Normal", reason := h.reasonCreateRestorePVC,
                    message := "created pvc " ++ pvc.Namespace ++ "/" ++ pvc.Name }
      let outcome ← cli.CreatePVC pvc
      match outcome with
      | .failed err => M.fail err
      | _ => pure ()
    | _ => M.fail err

/-- The method `prepareBackupRepo`. -/
def prepareBackupRepo (cli : Client) (backupSet : BackupActionSet) : M (Option BackupRepo) :=
  if backupSet.Backup.Status.BackupRepoName != "" then do
    let res ← (cli.GetBackupRepo backupSet.Backup.Status.BackupRepoName).attempt
    match res with
    | .error err =>
      match err with
      | .notFound _ => M.fail (.fatal err.Error)
      | _ => M.fail err
    | .ok backupRepo => pure (some backupRepo)
  else pure none

/-- The closure `createPVCIfNotExistsAndBuildVolume` of `BuildPrepareDataJobs`. -/
def createPVCIfNotExistsAndBuildVolume (h : Helpers) (cli : Client) (reqNamespace : String)
    (jobBuilder : restoreJobBuilder) (claim : RestoreVolumeClaim) (identifier : String) :
    M (Option Volume × Option VolumeMount) := do
  createPVCIfNotExist h cli reqNamespace claim.Name claim.Labels claim.VolumeClaimSpec
  M.ofExcept (jobBuilder.buildPVCVolumeAndMount h claim.VolumeConfig claim.Name identifier)

/-- The loop of `BuildPrepareDataJobs` over `RestoreVolumeClaims`. -/
def addVolumeClaims (h : Helpers) (cli : Client) (reqNamespace : String) :
    List RestoreVolumeClaim → restoreJobBuilder → M restoreJobBuilder
  | [], jobBuilder => pure jobBuilder
  | claim :: claims, jobBuilder => do
    let vm ← createPVCIfNotExistsAndBuildVolume h cli reqNamespace jobBuilder claim "dp-claim"
    addVolumeClaims h cli reqNamespace claims (jobBuilder.addToCommonVolumesAndMounts vm.1 vm.2)

/-- The loop of `BuildPrepareDataJobs` over the recorded actions, under the Serial policy:
the order it ends with. -/
def serialOrder (h : Helpers) (cli : Client) (restoreNamespace backupName actionName : String)
    (serial : Bool) (restoreJobReplicas : Int) : List RestoreStatusAction → Int → M Int
  | [], currentOrder => pure currentOrder
  | action :: actions, currentOrder =>
    if action.BackupName != backupName || action.Name != actionName then
      serialOrder h cli restoreNamespace backupName actionName serial restoreJobReplicas actions
        currentOrder
    else if action.Status == RestoreActionCompleted && currentOrder < restoreJobReplicas then do
      if serial then
        deleteRestoreJob h cli action.ObjectKey restoreNamespace
      serialOrder h cli restoreNamespace backupName actionName serial restoreJobReplicas actions
        (currentOrder + 1)
    else
      serialOrder h cli restoreNamespace backupName actionName serial restoreJobReplicas actions
        currentOrder

/-- The loop over the templates of the claims template, for the job of index `i`. -/
def addTemplateClaims (d : Deps) (h : Helpers) (cli : Client) (reqNamespace : String)
    (startingIndex i : Int) : List RestoreVolumeClaim → restoreJobBuilder → M restoreJobBuilder
  | [], jobBuilder => pure jobBuilder
  | c :: templates, jobBuilder => do
    let index := i + startingIndex
    let claim := { c with Name := c.Name ++ "-" ++ formatInt index }
    let claim := addItsManagingLabels d h claim index
    let vm ← createPVCIfNotExistsAndBuildVolume h cli reqNamespace jobBuilder claim "dp-claim-tpl"
    let jobBuilder := claim.Labels.foldl (fun b kv => b.addLabel kv.1 kv.2) jobBuilder
    addTemplateClaims d h cli reqNamespace startingIndex i templates
      (jobBuilder.addToSpecificVolumesAndMounts vm.1 vm.2)

/-- One round of the loop of `BuildPrepareDataJobs` that builds the jobs: the builder it
leaves and the job it appends, if any. -/
def prepareDataJob (d : Deps) (h : Helpers) (cli : Client) (reqNamespace : String)
    (prepareDataConfig : PrepareDataConfig) (target : BackupStatusTarget) (i : Int)
    (jobBuilder : restoreJobBuilder) : M (restoreJobBuilder × Option Job) := do
  let jobBuilder := jobBuilder.resetSpecificVolumesAndMounts
  let jobBuilder := jobBuilder.resetSpecificLabels h
  let jobBuilder ←
    match prepareDataConfig.RestoreVolumeClaimsTemplate with
    | some claimsTemplate =>
      addTemplateClaims d h cli reqNamespace claimsTemplate.StartingIndex i
        claimsTemplate.Templates jobBuilder
    | none => pure jobBuilder
  let sourceTargetPodName ← M.ofExcept
    (h.GetSourcePodNameFromTarget target prepareDataConfig.RequiredPolicyForAllPodSelection i)
  if target.Strategy == PodSelectionStrategyAll && sourceTargetPodName == "" then
    pure (jobBuilder, none)
  else do
    let jobName ← M.ofExcept (jobBuilder.builderRestoreJobName h i)
    let built ← M.ofExcept
      (((jobBuilder.setJobName jobName).addCommonEnv h sourceTargetPodName).build h)
    let r ← getManager
    if h.IsSerialPolicy (some prepareDataConfig) &&
        restoreJobHasCompleted h r.Restore.Status.Actions.PrepareData built.2.Name then
      pure (built.1, none)
    else pure (built.1, some built.2)

/-- The loop of `BuildPrepareDataJobs` that builds the jobs, over the indices. -/
def prepareDataJobs (d : Deps) (h : Helpers) (cli : Client) (reqNamespace : String)
    (prepareDataConfig : PrepareDataConfig) (target : BackupStatusTarget) :
    List Int → restoreJobBuilder → M (List Job)
  | [], _ => pure []
  | i :: indices, jobBuilder => do
    let round ← prepareDataJob d h cli reqNamespace prepareDataConfig target i jobBuilder
    let restoreJobs ← prepareDataJobs d h cli reqNamespace prepareDataConfig target indices round.1
    match round.2 with
    | some job => pure (job :: restoreJobs)
    | none => pure restoreJobs

/-- The indices `0, 1, ..` below `n` of a counting loop. -/
def indicesBelow (n : Int) : List Int := (List.range n.toNat).map Int.ofNat

/-- The function `BuildPrepareDataJobs`; `reqNamespace` is the namespace of the request. -/
def BuildPrepareDataJobs (d : Deps) (h : Helpers) (cli : Client) (reqNamespace : String)
    (backupSet : BackupActionSet) (target : BackupStatusTarget) (actionName : String) :
    M (List Job) := do
  let r ← getManager
  match r.Restore.Spec.PrepareDataConfig with
  | none => pure []
  | some prepareDataConfig =>
    if !HasPrepareDataStage backupSet.ActionSet then pure []
    else do
      let backupRepo ← prepareBackupRepo cli backupSet
      let prepareData ← M.ofExcept
        (match backupSet.ActionSet with
        | some actionSet =>
          match actionSet.Spec.Restore with
          | some restore =>
            match restore.PrepareData with
            | some prepareData => .ok prepareData
            | none => .error .nilDereference
          | none => .error .nilDereference
        | none => .error .nilDereference)
      let jobBuilder :=
        ((((newRestoreJobBuilder h r.Restore backupSet backupRepo PrepareData).setImage
          prepareData.Image).setCommand prepareData.Command).setServiceAccount
          r.WorkerServiceAccount).attachBackupRepo
      let jobBuilder ← addVolumeClaims h cli reqNamespace prepareDataConfig.RestoreVolumeClaims
        jobBuilder
      let restoreJobReplicas := h.GetRestoreActionsCountForPrepareData (some prepareDataConfig)
      let restoreJobReplicas ←
        if h.IsSerialPolicy (some prepareDataConfig) then
          serialOrder h cli r.Restore.Namespace backupSet.Backup.Name actionName
            (h.IsSerialPolicy (some prepareDataConfig)) restoreJobReplicas
            r.Restore.Status.Actions.PrepareData 1
        else pure restoreJobReplicas
      prepareDataJobs d h cli reqNamespace prepareDataConfig target
        (indicesBelow restoreJobReplicas) jobBuilder

/-! ## Progress analysis -/

/-- The variables of the loop of `AnalysisRestoreActionsWithBackup`. -/
structure ActionsProgress where
  restoreActionCount : Int
  finishedActionCount : Int := 0
  existFailedAction : Bool := false
deriving DecidableEq

/-- One round of the loop of `AnalysisRestoreActionsWithBackup`. -/
def analyseAction (stage backupName actionName : String) (p : ActionsProgress)
    (action : RestoreStatusAction) : ActionsProgress :=
  if action.BackupName != backupName || action.Name != actionName then p
  else
    let p := if stage == PostReady then { p with restoreActionCount := p.restoreActionCount + 1 } else p
    if action.Status == RestoreActionFailed then
      { p with finishedActionCount := p.finishedActionCount + 1, existFailedAction := true }
    else if action.Status == RestoreActionCompleted then
      { p with finishedActionCount := p.finishedActionCount + 1 }
    else p

/-- The function `AnalysisRestoreActionsWithBackup`: it returns `allActionsFinished` and
`existFailedAction`. -/
def AnalysisRestoreActionsWithBackup (h : Helpers) (r : RestoreManager)
    (stage backupName actionName : String) : Bool × Bool :=
  let restoreActions :=
    if stage == PrepareData then r.Restore.Status.Actions.PrepareData
    else r.Restore.Status.Actions.PostReady
  let restoreActionCount : Int :=
    if stage == PrepareData then
      h.GetRestoreActionsCountForPrepareData r.Restore.Spec.PrepareDataConfig
    else 0
  let p := restoreActions.foldl (analyseAction stage backupName actionName)
    { restoreActionCount := restoreActionCount }
  (decide (p.restoreActionCount > 0) && p.finishedActionCount == p.restoreActionCount,
    p.existFailedAction)

/-! ## The sharding definition reconciler -/

/-- The constant `appsv1.SerialStrategy`. -/
def appsv1.SerialStrategy : String := "Serial"

/-- The constant `appsv1.ParallelStrategy`. -/
def appsv1.ParallelStrategy : String := "Parallel"

/-- The type `appsv1.MultipleClusterObjectOption`: the field the reconciler reads. -/
structure appsv1.MultipleClusterObjectOption where
  RequireAllComponentObjects : Option Bool := none
deriving DecidableEq

/-- A variable reference of any of the seven kinds: the reconciler reads its
`MultipleClusterObjectOption` only. -/
structure appsv1.VarRef where
  MultipleClusterObjectOption : Option appsv1.MultipleClusterObjectOption := none
deriving DecidableEq

/-- The type `appsv1.VarSource`: the references the reconciler looks at. -/
structure appsv1.VarSource where
  HostNetworkVarRef : Option appsv1.VarRef := none
  ServiceVarRef : Option appsv1.VarRef := none
  CredentialVarRef : Option appsv1.VarRef := none
  TLSVarRef : Option appsv1.VarRef := none
  ServiceRefVarRef : Option appsv1.VarRef := none
  ResourceVarRef : Option appsv1.VarRef := none
  ComponentVarRef : Option appsv1.VarRef := none
deriving DecidableEq

/-- The type `appsv1.EnvVar`. -/
structure appsv1.EnvVar where
  Name : String := ""
  ValueFrom : Option appsv1.VarSource := none
deriving DecidableEq

/-- The type `appsv1.ComponentDefinition`: its name and the variables of its spec. -/
structure appsv1.ComponentDefinition where
  Name : String := ""
  Vars : List appsv1.EnvVar := []
deriving DecidableEq

/-- The type `appsv1.ShardingDefinition`: the two strategies of its spec. -/
structure appsv1.ShardingDefinition where
  ProvisionStrategy : Option String := none
  UpdateStrategy : Option String := none
deriving DecidableEq

/-- The reconciler: the component definitions `validateTemplate` left in it. -/
structure ShardingDefinitionReconciler where
  compDefs : List appsv1.ComponentDefinition := []
deriving DecidableEq

/-- The closure `requireAll` of `requireParallelProvision`. -/
def requireAll (opt : Option appsv1.MultipleClusterObjectOption) : Bool :=
  match opt with
  | none => false
  | some opt =>
    match opt.RequireAllComponentObjects with
    | none => false
    | some requireAllComponentObjects => requireAllComponentObjects

/-- The closure `require` of `requireParallelProvision`. -/
def require (v : appsv1.EnvVar) : Bool :=
  match v.ValueFrom with
  | none => false
  | some valueFrom =>
    match valueFrom.HostNetworkVarRef with
    | some ref => requireAll ref.MultipleClusterObjectOption
    | none =>
    match valueFrom.ServiceVarRef with
    | some ref => requireAll ref.MultipleClusterObjectOption
    | none =>
    match valueFrom.CredentialVarRef with
    | some ref => requireAll ref.MultipleClusterObjectOption
    | none =>
    match valueFrom.TLSVarRef with
    | some ref => requireAll ref.MultipleClusterObjectOption
    | none =>
    match valueFrom.ServiceRefVarRef with
    | some ref => requireAll ref.MultipleClusterObjectOption
    | none =>
    match valueFrom.ResourceVarRef with
    | some ref => requireAll ref.MultipleClusterObjectOption
    | none =>
    match valueFrom.ComponentVarRef with
    | some ref => requireAll ref.MultipleClusterObjectOption
    | none => false

/-- The method `requireParallelProvision`. -/
def ShardingDefinitionReconciler.requireParallelProvision (r : ShardingDefinitionReconciler) :
    Bool :=
  r.compDefs.any (fun compDef => compDef.Vars.any require)

/-- The closure `supported` of `validateProvisionNUpdateStrategy`. -/
def supported (strategy : Option String) : Bool :=
  match strategy with
  | none => true
  | some strategy => strategy == appsv1.SerialStrategy || strategy == appsv1.ParallelStrategy

/-- The method `validateProvisionNUpdateStrategy`: the message of the error it returns, or
nothing. -/
def ShardingDefinitionReconciler.validateProvisionNUpdateStrategy
    (r : ShardingDefinitionReconciler) (shardingDef : appsv1.ShardingDefinition) : Option String :=
  let provision := shardingDef.ProvisionStrategy
  let update := shardingDef.UpdateStrategy
  if !supported provision then
    some ("unsupported provision strategy: " ++ provision.getD "")
  else if !supported update then
    some ("unsupported update strategy: " ++ update.getD "")
  else if provision == some appsv1.SerialStrategy && r.requireParallelProvision then
    some ("serial provision strategy is conflicted with vars that requires parallel provision "
      ++ "when mutiple objects matched")
  else none

/-! ## Pod names -/

/-- The call `strings.Replace(s, old, new, 1)` for a non-empty `old`, on the bytes of the
strings: the first instance of `old` is replaced. -/
def replaceFirst (old new : List Char) : List Char → List Char
  | [] => []
  | c :: s =>
    if old.isPrefixOf (c :: s) then new ++ (c :: s).drop old.length
    else c :: replaceFirst old new s

/-- The call `strings.LastIndex(s, "-")`, counted in bytes: the place of the last dash
among the bytes from place `start` on, or what was found before. -/
def lastDashFrom : List Char → Int → Int → Int
  | [], _, found => found
  | c :: s, place, found => lastDashFrom s (place + 1) (if c == '-' then place else found)

/-- The call `strings.LastIndex(s, "-")`, counted in bytes. -/
def lastDashIndex (s : List Char) : Int := lastDashFrom s 0 (-1)

/-- The value of a string of decimal digits. -/
def digitsValue (s : List Char) : Nat := s.foldl (fun value c => 10 * value + (c.toNat - 48)) 0

/-- The function `strconv.Atoi`, for the 64-bit `int`: an optional sign and decimal digits,
within the range of `int`. -/
def Atoi (s : List Char) : Option Int :=
  let negative := s.head? == some '-'
  let digits := if s.head? == some '-' || s.head? == some '+' then s.drop 1 else s
  if digits.isEmpty || !digits.all Char.isDigit then none
  else
    let value : Int := if negative then -(digitsValue digits : Int) else (digitsValue digits : Int)
    if value < -(2 : Int) ^ 63 || value > (2 : Int) ^ 63 - 1 then none else some value

/-- The conversion `int32(index)` of an `int`. -/
def toInt32 (index : Int) : Int := (index + 2 ^ 31) % 2 ^ 32 - 2 ^ 31

/-- The function `GetTemplateNameAndOrdinal`: the template name and the ordinal, or the
message of the error. Places in strings are counted in bytes, as `strings.LastIndex` and
the slices count them. -/
def GetTemplateNameAndOrdinal (workloadName podName : String) : Except String (String × Int) :=
  let podSuffix := replaceFirst (workloadName ++ "-").data [] podName.data
  let lastDashIndex := lastDashIndex podSuffix
  if lastDashIndex == (podSuffix.length : Int) - 1 then
    .error "no pod ordinal found after the last dash"
  else
    let templateName := if lastDashIndex == -1 then [] else podSuffix.take lastDashIndex.toNat
    let indexStr :=
      if lastDashIndex == -1 then podSuffix else podSuffix.drop (lastDashIndex.toNat + 1)
    match Atoi indexStr with
    | none => .error "failed to obtain pod ordinal"
    | some index => .ok (String.mk templateName, toInt32 index)

/-! ## Vocabulary of the statements -/

/-- The world after the requests `cs` have been sent and nothing else has changed. -/
def World.logged (w : World) (cs : List ClientCall) : World := { w with calls := w.calls ++ cs }

/-- The store resolves `s`: it holds the backup of `s` under its namespace and name, the
backup records a method, `utils.GetActionSetByName` answers the action set of `s` for it,
and `s` is the set `GetBackupActionSetByNamespaced` builds from them, without base or
ancestors. -/
def Client.HasSet (cli : Client) (s : BackupActionSet) : Prop :=
  cli.lookupBackup s.Backup.Namespace s.Backup.Name = .ok s.Backup ∧
  ∃ m, s.Backup.Status.BackupMethod = some m ∧ cli.actionSetByName m.ActionSetName = .ok s.ActionSet ∧
    s.UseVolumeSnapshot = (m.SnapshotVolumes == some true) ∧
    s.AncestorIncrementalBackups = [] ∧ s.BaseBackup = none

/-- The request is a `Get` of a backup. -/
def ClientCall.isBackupGet : ClientCall → Bool
  | .get kind _ _ => kind == "Backup"
  | _ => false

/-- The state a round leaves when it fetched the parent set `p`. -/
def IncrementalLoop.advance (s : IncrementalLoop) (p : BackupActionSet) : IncrementalLoop :=
  { sourceBackupSet :=
      if p.isIncremental then
        { s.sourceBackupSet with
          AncestorIncrementalBackups := p.Backup :: s.sourceBackupSet.AncestorIncrementalBackups }
      else { s.sourceBackupSet with BaseBackup := some p.Backup },
    childBackupSet := p,
    backupMap := s.childBackupSet.Backup.Name :: s.backupMap }

/-- The parent set `p` is what a round on `s` fetches and accepts. -/
def IncrementalLoop.Accepts (d : Deps) (cli : Client) (s : IncrementalLoop) (p : BackupActionSet) : Prop :=
  cli.HasSet p ∧ p.Backup.Name = s.childBackupSet.Backup.Status.ParentBackupName ∧
    p.Backup.Namespace = s.childBackupSet.Backup.Namespace ∧
    p.Backup.Name ∉ s.childBackupSet.Backup.Name :: s.backupMap ∧
    d.ValidateParentBackupSet p s.childBackupSet = none

/-- The stored names not yet traversed. -/
def untraversed (cli : Client) (visited : List String) : Finset String :=
  (cli.backups.map (·.Name)).toFinset \ visited.toFinset

/-- A set the store resolves to an incremental backup. -/
def Client.IsIncrementalBackup (cli : Client) (b : Backup) : Prop :=
  ∃ p, cli.HasSet p ∧ p.isIncremental = true ∧ p.Backup = b

/-- The set `p` is what the store resolves for the parent reference of `c`. -/
def Client.IsParentOf (cli : Client) (p c : BackupActionSet) : Prop :=
  cli.HasSet p ∧ p.Backup.Name = c.Backup.Status.ParentBackupName ∧
    p.Backup.Namespace = c.Backup.Namespace

/-- The state in which `BuildIncrementalBackupActionSet` enters its loop. -/
def IncrementalLoop.start (sourceBackupSet : BackupActionSet) : IncrementalLoop :=
  { sourceBackupSet := sourceBackupSet, childBackupSet := sourceBackupSet, backupMap := [] }

/-- The number of distinct backup names in the store. -/
def Client.distinctNames (cli : Client) : Nat := (cli.backups.map (·.Name)).dedup.length

/-- The set uses volume-snapshot restore or its action set declares a prepare-data action. -/
def BackupActionSet.wantsPrepareData (s : BackupActionSet) : Bool :=
  s.UseVolumeSnapshot ||
    match s.ActionSet with
    | some actionSet =>
      match actionSet.Spec.Restore with
      | some restore => restore.PrepareData.isSome
      | none => false
    | none => false

/-- The action set of the set declares at least one post-ready action. -/
def BackupActionSet.declaresPostReady (s : BackupActionSet) : Bool :=
  match s.ActionSet with
  | some actionSet =>
    match actionSet.Spec.Restore with
    | some restore => decide (0 < restore.PostReady.length)
    | none => false
  | none => false

/-- The end time of the backup is set and lies between the start of the continuous backup
and the restore time, both bounds included. -/
def Backup.endsWithin (b : Backup) (continuousStart restoreTime : Time) : Prop :=
  ∃ e, b.GetEndTime = some e ∧ continuousStart ≤ e ∧ e ≤ restoreTime

/-- The name of the action set of a backup, empty when the backup records no method. -/
def Backup.actionSetName (b : Backup) : String :=
  match b.Status.BackupMethod with
  | some backupMethod => backupMethod.ActionSetName
  | none => ""

/-- The set `getBaseBackupActionSetForContinuous` returns for the backup it selected. -/
def baseSetOf (b : Backup) (actionSet : Option ActionSet) : BackupActionSet :=
  { Backup := b, AncestorIncrementalBackups := [], BaseBackup := none,
    ActionSet := actionSet, UseVolumeSnapshot := false }

/-- The restore time `BuildContinuousRestoreManager` works with: the parsed
`Spec.RestoreTime`, the zero time when it does not parse. -/
def RestoreManager.restoreTime (d : Deps) (r : RestoreManager) : Time :=
  (d.timeParseRFC3339 r.Restore.Spec.RestoreTime).getD 0

/-- The number of recorded prepare-data actions of the action name and the backup name. -/
def recordedCount (r : RestoreManager) (backupName actionName : String) : Nat :=
  (r.Restore.Status.Actions.PrepareData.filter
    (fun v => v.Name == actionName && v.BackupName == backupName)).length

/-- Whether the pod carries the stop marker: the test `StopManagerContainer` makes. -/
def Pod.stopped (key : String) (p : Pod) : Bool :=
  StringMap.has (p.Annotations.getD []) key && StringMap.get (p.Annotations.getD []) key == "true"

/-- The pod stored under a namespace and a name. -/
def storedPod (pods : List Pod) (ns name : String) : Option Pod :=
  pods.find? (fun p => p.Namespace == ns && p.Name == name)

/-- The pod after the stop marker was written on it, if the test selects its namespace and
its name. -/
def stopWhere (key : String) (sel : String → String → Bool) (p : Pod) : Pod :=
  if sel p.Namespace p.Name then p.annotate key "true" else p

/-- The world `w'` is the world `w` after stop markers were written on the selected pods:
the jobs, the claims and the events are the same. -/
def StopsTo (key : String) (sel : String → String → Bool) (w w' : World) : Prop :=
  w'.pods = w.pods.map (stopWhere key sel) ∧ w'.jobs = w.jobs ∧ w'.pvcs = w.pvcs ∧
    w'.events = w.events

/-- Whether the pod is one of the job: what `GetAssociatedPodsOfJob` selects. -/
def isPodOf (h : Helpers) (job : Job) (p : Pod) : Bool :=
  p.Namespace == job.Namespace && h.isPodOfJob p.Labels job.Name

/-- Whether the status is that of a `restore` container that terminated with exit code 0. -/
def ContainerStatus.normal (containerStatus : ContainerStatus) : Bool :=
  containerStatus.Name == RestoreContainer && containerStatus.Terminated == some 0

/-- Whether the status is that of a `restore` container that terminated with another exit
code than 0. -/
def ContainerStatus.abnormal (containerStatus : ContainerStatus) : Bool :=
  containerStatus.Name == RestoreContainer &&
    match containerStatus.Terminated with
    | some exitCode => exitCode != 0
    | none => false

/-- Whether the status is that of a `restore` container that has terminated. -/
def ContainerStatus.restoreTerminated (containerStatus : ContainerStatus) : Bool :=
  containerStatus.Name == RestoreContainer && containerStatus.Terminated.isSome

/-- Whether a pod of the job has a `restore` container that terminated with exit code 0. -/
def restoreTerminatedNormally (h : Helpers) (pods : List Pod) (job : Job) : Bool :=
  (pods.filter (isPodOf h job)).any (fun p => p.ContainerStatuses.any ContainerStatus.normal)

/-- Whether the first loop of `CheckJobsDone` counts the job: it is failed, it is
completed, or a pod of it has a `restore` container that terminated with exit code 0. -/
def jobCounted (h : Helpers) (pods : List Pod) (job : Job) : Bool :=
  (h.IsJobFinished job).2 != "" || (h.IsJobFinished job).1 || restoreTerminatedNormally h pods job

/-- Whether the job is neither completed nor failed. -/
def jobUnfinished (h : Helpers) (job : Job) : Bool :=
  (h.IsJobFinished job).2 == "" && !(h.IsJobFinished job).1

/-- The job stored under a namespace and a name: what `cli.Get` finds. -/
def storedJob (jobs : List Job) (ns name : String) : Option Job :=
  jobs.find? (fun j => j.Namespace == ns && j.Name == name)

/-- The controller reference `SetControllerReference` builds for an owner of the kind. -/
def controllerRef (owner : OwnerObject) (kind : String) : OwnerReference :=
  { Kind := kind, Name := owner.Name, UID := owner.UID, Controller := true,
    BlockOwnerDeletion := true }

/-- The call returns from `w`, leaves the manager as it is, and a value it returns
satisfies `P`. -/
def M.Yields {α : Type} (x : M α) (w : World) (P : α → Prop) : Prop :=
  ∃ res w', x w = some (res, w') ∧ w'.r = w.r ∧ ∀ v, res = .ok v → P v

/-- The name `builderRestoreJobName` gives the prepare-data job of index `i` of a restore
and a backup set. -/
def restoreJobNameOf (h : Helpers) (restore : Restore) (backupSet : BackupActionSet) (i : Int) :
    String :=
  h.cutJobName ("restore-" ++ toLower PrepareData ++ "-" ++ prefixOf restore.UID 8 ++ "-"
    ++ backupSet.Backup.Name ++ "-" ++ formatInt i)

/-- The name of the job `BuildPrepareDataJobs` builds for index `i`: the name of
`builderRestoreJobName`, in place of which `build` puts that of index 0 when it is empty. -/
def prepareDataJobName (h : Helpers) (restore : Restore) (backupSet : BackupActionSet) (i : Int) :
    String :=
  if restoreJobNameOf h restore backupSet i == "" then restoreJobNameOf h restore backupSet 0
  else restoreJobNameOf h restore backupSet i

/-- Whether the builder is for the restore, the stage and the backup set. -/
def restoreJobBuilder.IsFor (b : restoreJobBuilder) (restore : Restore) (stage : String)
    (backupSet : BackupActionSet) : Prop :=
  b.restore = restore ∧ b.stage = stage ∧ b.backupSet = backupSet

/-- Whether the loop of `BuildPrepareDataJobs` appends the job of index `i`: a source pod is
found or the strategy is not `All`, and under the Serial policy the job is not recorded
Completed. -/
def appendsJob (h : Helpers) (r : RestoreManager) (prepareDataConfig : PrepareDataConfig)
    (backupSet : BackupActionSet) (target : BackupStatusTarget) (i : Int) : Bool :=
  match h.GetSourcePodNameFromTarget target prepareDataConfig.RequiredPolicyForAllPodSelection i with
  | .error _ => false
  | .ok sourceTargetPodName =>
    !(target.Strategy == PodSelectionStrategyAll && sourceTargetPodName == "") &&
    !(h.IsSerialPolicy (some prepareDataConfig) &&
      restoreJobHasCompleted h r.Restore.Status.Actions.PrepareData
        (prepareDataJobName h r.Restore backupSet i))

/-- The order the loop of `BuildPrepareDataJobs` over the recorded actions ends with. -/
def serialOrderOf (backupName actionName : String) (restoreJobReplicas : Int) :
    List RestoreStatusAction → Int → Int
  | [], currentOrder => currentOrder
  | action :: actions, currentOrder =>
    if action.BackupName != backupName || action.Name != actionName then
      serialOrderOf backupName actionName restoreJobReplicas actions currentOrder
    else if action.Status == RestoreActionCompleted && currentOrder < restoreJobReplicas then
      serialOrderOf backupName actionName restoreJobReplicas actions (currentOrder + 1)
    else serialOrderOf backupName actionName restoreJobReplicas actions currentOrder

/-- The number of rounds of the loop of `BuildPrepareDataJobs` that builds the jobs: the
target count, or under the Serial policy the order the loop over the recorded actions ends
with. -/
def jobRounds (h : Helpers) (r : RestoreManager) (prepareDataConfig : PrepareDataConfig)
    (backupSet : BackupActionSet) (actionName : String) : Int :=
  if h.IsSerialPolicy (some prepareDataConfig) then
    serialOrderOf backupSet.Backup.Name actionName
      (h.GetRestoreActionsCountForPrepareData (some prepareDataConfig))
      r.Restore.Status.Actions.PrepareData 1
  else h.GetRestoreActionsCountForPrepareData (some prepareDataConfig)

/-- The names of the jobs a call returned, if it returned jobs. -/
def returnedJobNames (x : Option (Except Err (List Job) × World)) : Option (List String) :=
  match x with
  | some (.ok jobs, _) => some (jobs.map (·.Name))
  | _ => none

/-- Whether the recorded action is one of the backup and the action name. -/
def RestoreStatusAction.isOf (action : RestoreStatusAction) (backupName actionName : String) :
    Bool :=
  action.BackupName == backupName && action.Name == actionName

/-- Whether the recorded action is Completed or Failed. -/
def RestoreStatusAction.finished (action : RestoreStatusAction) : Bool :=
  action.Status == RestoreActionFailed || action.Status == RestoreActionCompleted

/-- The fourth step of `build`: the injection of datasafed into the pod spec, if needed. -/
def restoreJobBuilder.injectDatasafedIfNeeded (h : Helpers) (r : restoreJobBuilder)
    (podSpec : PodSpec) : PodSpec :=
  if r.buildWithRepo then
    match r.backupRepo with
    | some backupRepo =>
      h.InjectDatasafed podSpec backupRepo "/backupdata" r.backupSet.Backup.Status.EncryptionConfig
        r.backupSet.Backup.Status.KopiaRepoPath
    | none =>
      if r.backupSet.Backup.Status.PersistentVolumeClaimName != "" then
        h.InjectDatasafedWithPVC podSpec r.backupSet.Backup.Status.PersistentVolumeClaimName
          "/backupdata" r.backupSet.Backup.Status.KopiaRepoPath
      else podSpec
  else podSpec

/-- The volume of the downward API that `InjectManagerContainer` appends: the file
`stop_restore_manager` shows the stop annotation. -/
def managerVolume (h : Helpers) : Volume :=
  { Name := "downward-volume",
    DownwardAPI := some [{ Path := "stop_restore_manager",
                           FieldPath := "metadata.annotations[\x27"
                             ++ h.DataProtectionStopRestoreManagerAnnotationKey ++ "\x27]" }] }

/-- The volume of the downward API that `build` appends for the extras of the backup. -/
def extrasVolume (h : Helpers) : Volume :=
  { Name := "downward-volume",
    DownwardAPI := some [{ Path := "status_extras",
                           FieldPath := "metadata.annotations[\x27"
                             ++ h.DataProtectionBackupExtrasLabelKey ++ "\x27]" }] }

/-- A change of a pod spec that keeps the names of the containers in their order, the
volume mounts of each container and the volumes. -/
def KeepsPodSpec (f : PodSpec → PodSpec) : Prop :=
  ∀ p, List.Forall₂ (fun c c' => c'.Name = c.Name ∧ ∀ m ∈ c.VolumeMounts, m ∈ c'.VolumeMounts)
      p.Containers (f p).Containers ∧
    ∀ v ∈ p.Volumes, v ∈ (f p).Volumes

/-- The injections of datasafed keep the names of the containers, their volume mounts and
the volumes. -/
def Helpers.DatasafedKeeps (h : Helpers) : Prop :=
  (∀ repo mountPath encryptionConfig kopiaRepoPath,
    KeepsPodSpec (fun p => h.InjectDatasafed p repo mountPath encryptionConfig kopiaRepoPath)) ∧
  (∀ pvcName mountPath kopiaRepoPath,
    KeepsPodSpec (fun p => h.InjectDatasafedWithPVC p pvcName mountPath kopiaRepoPath))

/-- The references of a variable source that are set, in the order in which `require`
looks at them. -/
def appsv1.VarSource.refs (s : appsv1.VarSource) : List appsv1.VarRef :=
  [s.HostNetworkVarRef, s.ServiceVarRef, s.CredentialVarRef, s.TLSVarRef, s.ServiceRefVarRef,
    s.ResourceVarRef, s.ComponentVarRef].filterMap id

/-- The references of a variable that are set, in the order in which `require` looks at
them. -/
def appsv1.EnvVar.refs (v : appsv1.EnvVar) : List appsv1.VarRef :=
  match v.ValueFrom with
  | some valueFrom => valueFrom.refs
  | none => []

/-- The bytes of the UTF-8 encoding of the code point `c`. -/
def utf8Bytes (c : Nat) : List Nat :=
  if c < 0x80 then [c]
  else if c < 0x800 then [0xC0 + c / 0x40, 0x80 + c % 0x40]
  else if c < 0x10000 then [0xE0 + c / 0x1000, 0x80 + c / 0x40 % 0x40, 0x80 + c % 0x40]
  else [0xF0 + c / 0x40000, 0x80 + c / 0x1000 % 0x40, 0x80 + c / 0x40 % 0x40, 0x80 + c % 0x40]

/-- The Go string of a text: the bytes of the UTF-8 encoding of its characters, each byte
as the `Char` of its value. -/
def goString (text : String) : String :=
  ⟨text.data.flatMap (fun c => (utf8Bytes c.toNat).map Char.ofNat)⟩

/-! ## Examples -/

/-- A backup taken with the method whose action set is `actionSetName`. -/
def exBackup (name parent actionSetName : String) (startTime endTime : Option Time) : Backup :=
  { Name := name, Namespace := "default", Labels := [],
    Spec := { BackupPolicyName := "policy", ParentBackupName := parent },
    Status := { Phase := BackupPhaseCompleted, ParentBackupName := parent,
                BackupMethod := some { ActionSetName := actionSetName, SnapshotVolumes := none } },
    startTime := startTime, endTime := endTime }

/-- An action set with a prepare-data action and no post-ready action. -/
def exActionSet (name backupType : String) : ActionSet :=
  { Name := name, Annotations := none,
    Spec := { BackupType := backupType,
              Restore := some { PrepareData := some { Image := "restore", Command := ["sh"] },
                                PostReady := [], BaseBackupRequired := none } } }

/-- The answers of `utils.GetActionSetByName` in the examples. -/
def exActionSets (name : String) : Except Err (Option ActionSet) :=
  if name = "full" then .ok (some (exActionSet "full" BackupTypeFull))
  else if name = "incremental" then .ok (some (exActionSet "incremental" BackupTypeIncremental))
  else if name = "continuous" then .ok (some (exActionSet "continuous" BackupTypeContinuous))
  else .error (.notFound name)

/-- The set `GetBackupActionSetByNamespaced` builds for a backup and its action set. -/
def exSet (b : Backup) (name backupType : String) : BackupActionSet :=
  { Backup := b, AncestorIncrementalBackups := [], BaseBackup := none,
    ActionSet := some (exActionSet name backupType), UseVolumeSnapshot := false }

/-- Scenario A: the full backup `F`. -/
def exF : Backup := exBackup "F" "" "full" (some 10) (some 20)

/-- Scenario A: the incremental backup `I1`, whose parent is `F`. -/
def exI1 : Backup := exBackup "I1" "F" "incremental" (some 30) (some 40)

/-- Scenario A: the incremental backup `I2`, whose parent is `I1`. -/
def exI2 : Backup := exBackup "I2" "I1" "incremental" (some 50) (some 60)

/-- Scenario A: a full backup `F` and the incremental backups `I1` and `I2` on top of it. -/
def exStore : Client :=
  { backups := [exF, exI1, exI2], getFault := fun _ _ => none, listFault := fun _ _ => none,
    actionSetByName := exActionSets }

/-- An incremental backup `A` whose parent is `B`. -/
def exA : Backup := exBackup "A" "B" "incremental" (some 10) (some 20)

/-- An incremental backup `B` whose parent is `A`. -/
def exB : Backup := exBackup "B" "A" "incremental" (some 30) (some 40)

/-- A store with a cycle: the parent of `A` is `B` and the parent of `B` is `A`. -/
def exCycleStore : Client :=
  { backups := [exA, exB], getFault := fun _ _ => none, listFault := fun _ _ => none,
    actionSetByName := exActionSets }

/-- Insertion of a backup into a list sorted by `less`. -/
def exInsert (less : Backup → Backup → Bool) (b : Backup) : List Backup → List Backup
  | [] => [b]
  | x :: l => if less x b then x :: exInsert less b l else b :: x :: l

/-- The imported functions and constants of the examples: no validation error, a
comparator on end times, an insertion sort, a parser that knows two times. -/
def exDeps : Deps :=
  { ValidateParentBackupSet := fun _ _ => none
    CompareWithBackupStopTime := fun i j =>
      match i.GetEndTime, j.GetEndTime with
      | some x, some y => decide (x < y)
      | _, _ => false
    sortSlice := fun less l => l.foldr (exInsert less) []
    timeParseRFC3339 := fun s =>
      if s = "10:20" then some 1020 else if s = "10:40" then some 1040 else none
    formatTime := fun _ => "time"
    SkipBaseBackupRestoreInPitrAnnotationKey := "dataprotection.kubeblocks.io/skip-base-backup-restore-in-pitr"
    BackupTypeLabelKey := "dataprotection.kubeblocks.io/backup-type"
    ClusterUIDLabelKey := "dataprotection.kubeblocks.io/cluster-uid"
    AppInstanceLabelKey := "app.kubernetes.io/instance"
    KBAppComponentLabelKey := "apps.kubeblocks.io/component-name"
    BackupPolicyLabelKey := "dataprotection.kubeblocks.io/backup-policy" }

/-- A fresh manager for a restore asking for 10:20. -/
def exManager : RestoreManager :=
  { Restore := { Name := "restore", Namespace := "default", Spec := { RestoreTime := "10:20" } },
    PrepareDataBackupSets := [], PostReadyBackupSets := [] }

/-- The world before any call. -/
def exWorld : World := { r := exManager, calls := [], events := [] }

/-- The world after resolving `I2` in Scenario A. -/
def exWorldResolved : World :=
  { r := exManager.SetBackupSets [{ exSet exI2 "incremental" BackupTypeIncremental with
          BaseBackup := some exF, AncestorIncrementalBackups := [exI1] }],
    calls := [.get "Backup" "default" "I1", .get "ActionSet" "" "incremental",
              .get "Backup" "default" "F", .get "ActionSet" "" "full"],
    events := [] }

/-- A set restored from volume snapshots whose action set declares a post-ready action. -/
def exSnapshotSet : BackupActionSet :=
  { Backup := exF, AncestorIncrementalBackups := [], BaseBackup := none,
    ActionSet := some
      { Name := "snapshot", Annotations := none,
        Spec := { BackupType := BackupTypeFull,
                  Restore := some { PrepareData := none,
                                    PostReady := [{ Job := none, Exec := some ["sh"] }],
                                    BaseBackupRequired := none } } },
    UseVolumeSnapshot := true }

/-- The labels of a backup of the policy `policy`. -/
def exLabels (backupType : String) : StringMap :=
  [("dataprotection.kubeblocks.io/backup-type", backupType),
   ("dataprotection.kubeblocks.io/backup-policy", "policy")]

/-- Scenario B: the full backup `FB`, ended at 10:10. -/
def exFB : Backup :=
  { exBackup "FB" "" "full" (some 1005) (some 1010) with Labels := exLabels BackupTypeFull }

/-- Scenario B: the continuous backup `C`, from 10:00 to 10:30. -/
def exC : Backup :=
  { exBackup "C" "" "continuous" (some 1000) (some 1030) with
    Labels := exLabels BackupTypeContinuous }

/-- Scenario B: a store holding the full backup `FB` and the continuous backup `C`. -/
def exStoreB : Client :=
  { backups := [exFB, exC], getFault := fun _ _ => none, listFault := fun _ _ => none,
    actionSetByName := exActionSets }

/-- The world after the two listings of Scenario B. -/
def exWorldListed : World :=
  exWorld.logged [.list "Backup" "default" (exLabels BackupTypeFull),
                  .list "Backup" "default" (exLabels BackupTypeIncremental)]

/-- A restore asking for 10:40, after the end of `C`. -/
def exWorldLate : World :=
  { r := { exManager with
           Restore := { Name := "restore", Namespace := "default", Spec := { RestoreTime := "10:40" } } },
    calls := [], events := [] }

/-- The world after the failed resolution of `A` in the store with a cycle. -/
def exWorldCycle : World :=
  exWorld.logged [.get "Backup" "default" "B", .get "ActionSet" "" "incremental",
                  .get "Backup" "default" "A", .get "ActionSet" "" "incremental"]

/-- The imported functions and constants of the examples of the execution coordinator:
the target count is the replica count of the claims template, one without a template. -/
def exHelpers : Helpers :=
  { GetRestoreActionsCountForPrepareData := fun config =>
      match config with
      | none => 0
      | some config =>
        match config.RestoreVolumeClaimsTemplate with
        | some template => template.Replicas
        | none => 1
    IsSerialPolicy := fun config =>
      match config with
      | some config => config.VolumeClaimRestorePolicy == "Serial"
      | none => false
    BuildJobKeyForActionStatus := fun jobName => "Job/" ++ jobName
    jobNameOfKey := fun key => ⟨key.data.drop 4⟩
    GetSourcePodNameFromTarget := fun _ _ i => .ok ("pod-" ++ formatInt i)
    cutJobName := fun jobName => jobName
    BuildRestoreLabels := fun name => [("dataprotection.kubeblocks.io/restore", name)]
    getMountPathWithSourceVolume := fun _ _ => ""
    commonEnv := fun _ backupSet _ => [{ Name := "DP_BACKUP_NAME", Value := backupSet.Backup.Name }]
    expandImage := fun image _ => image
    ReplaceImageRegistry := fun image => image
    zeroResourcesLimitsIfEmpty := fun resources => resources
    InjectDatasafed := fun podSpec _ _ _ _ => podSpec
    InjectDatasafedWithPVC := fun podSpec _ _ _ => podSpec
    marshalExtras := fun _ => "[]"
    IsJobFinished := fun job =>
      match job.Conditions.find? (fun c => c.Status == "True") with
      | some c => if c.ConditionType == "Failed" then (true, c.Reason ++ ":" ++ c.Message)
                  else (true, "")
      | none => (false, "")
    SetRestoreStatusAction := fun actions statusAction =>
      if actions.any (fun a => a.ObjectKey == statusAction.ObjectKey) then
        actions.map (fun a => if a.ObjectKey == statusAction.ObjectKey then statusAction else a)
      else actions ++ [statusAction]
    isPodOfJob := fun labels name => StringMap.get labels "job-name" == name
    GenerateWorkloadNamePattern := fun clusterName compName => clusterName ++ "-" ++ compName
    GetMatchLabels := fun name => [("workloads.kubeblocks.io/instance", name)]
    MergeMetadataMap := fun original target =>
      target ++ original.filter (fun kv => !StringMap.has target kv.1)
    KBToolsImage := "tools"
    KBImagePullPolicy := "IfNotPresent"
    defaultBackoffLimit := 3
    DataProtectionFinalizerName := "dataprotection.kubeblocks.io/finalizer"
    DataProtectionBackupExtrasLabelKey := "dataprotection.kubeblocks.io/backup-extras"
    DataProtectionStopRestoreManagerAnnotationKey := "dataprotection.kubeblocks.io/stop-restore-manager"
    reasonCreateRestoreJob := "CreateRestoreJob"
    reasonCreateRestorePVC := "CreateRestorePVC"
    KBAppPodNameLabelKey := "apps.kubeblocks.io/pod-name"
    KBAppInstanceTemplateLabelKey := "apps.kubeblocks.io/instance-template" }

/-- A prepare-data configuration with one claim and a target count of `replicas`. -/
def exConfig (policy : String) (replicas : Int) : PrepareDataConfig :=
  { RestoreVolumeClaimsTemplate := some
      { Templates := [{ Name := "data", VolumeConfig := { MountPath := "/data" } }],
        Replicas := replicas }
    VolumeClaimRestorePolicy := policy }

/-- A manager for a restore with the policy, the target count and the recorded
prepare-data actions given. -/
def exCoordinator (policy : String) (replicas : Int) (actions : List RestoreStatusAction) :
    RestoreManager :=
  { Restore :=
      { Name := "restore", Namespace := "default",
        Spec := { RestoreTime := "", PrepareDataConfig := some (exConfig policy replicas) },
        UID := "0123456789abcdef",
        Status := { Actions := { PrepareData := actions } } },
    PrepareDataBackupSets := [], PostReadyBackupSets := [] }

/-- A job of the name given, completed when `done`. -/
def exJob (name : String) (done : Bool) : Job :=
  { Name := name, Namespace := "default",
    Conditions := if done then [{ ConditionType := "Complete", Status := "True" }] else [] }

/-- A pod of the job given whose `restore` container has the state given and whose
`restore-manager` container runs. -/
def exPod (name jobName : String) (terminated : Option Int) : Pod :=
  { Name := name, Namespace := "default", Labels := [("job-name", jobName)],
    ContainerStatuses := [{ Name := "restore", Terminated := terminated },
                          { Name := "restore-manager" }] }

/-- A world that stores the pods given. -/
def exPodWorld (pods : List Pod) : World :=
  { r := exCoordinator "Parallel" 3 [], calls := [], events := [], pods := pods }

/-- The restore as the owner of the jobs. -/
def exOwner : OwnerObject :=
  { Kind := some "Restore", Name := "restore", Namespace := "default", UID := "0123456789abcdef" }

/-- A world that stores the jobs given. -/
def exJobWorld (jobs : List Job) : World :=
  { r := exCoordinator "Parallel" 3 [], calls := [], events := [], jobs := jobs }

/-- The world `exJobWorld [exJob "j1" true]` after the jobs `j0` and `j1` were submitted for
the owner `exOwner`. -/
def exSubmitted : World :=
  { r := exCoordinator "Parallel" 3 [],
    calls := [.get "Job" "default" "j0", .create "Job" "default" "j0", .get "Job" "default" "j1"],
    events := [{ eventtype := "Normal", reason := "CreateRestoreJob",
                 message := "created job default/j0" }],
    jobs := [exJob "j1" true,
      { exJob "j0" false with OwnerReferences := [controllerRef exOwner "Restore"] }] }

/-- A world whose manager is `exCoordinator` with the policy, the target count and the
recorded prepare-data actions given. -/
def exPlanWorld (policy : String) (replicas : Int) (actions : List RestoreStatusAction) : World :=
  { r := exCoordinator policy replicas actions, calls := [], events := [] }

/-- The recorded action of the completed prepare-data job of index `i` of backup `F`. -/
def exCompleted (i : Int) : RestoreStatusAction :=
  { Name := "prepareData", BackupName := "F",
    ObjectKey := "Job/restore-preparedata-01234567-F-" ++ formatInt i,
    Status := RestoreActionCompleted }

/-- Scenario E: a full backup `FE` that ended at 10:00, when the continuous backup `C`
started. -/
def exFE : Backup :=
  { exBackup "FE" "" "full" (some 950) (some 1000) with Labels := exLabels BackupTypeFull }

/-- Scenario E: a store holding the full backup `FE` and the continuous backup `C`. -/
def exStoreE : Client :=
  { backups := [exFE, exC], getFault := fun _ _ => none, listFault := fun _ _ => none,
    actionSetByName := exActionSets }

/-- A builder for the prepare-data stage of a backup whose status carries extras. -/
def exExtrasBuilder : restoreJobBuilder :=
  { newRestoreJobBuilder exHelpers (exCoordinator "Parallel" 1 []).Restore
      { exSet exF "full" BackupTypeFull with
        Backup := { exF with Status := { exF.Status with Extras := [[("k", "v")]] } } }
      none PrepareData with
    jobName := "job",
    commonVolumes := [{ Name := "dp-claim-data", PersistentVolumeClaim := some "data" }] }

/-- A reference that requires all component objects. -/
def exRequireAllRef : appsv1.VarRef :=
  { MultipleClusterObjectOption := some { RequireAllComponentObjects := some true } }

/-- A variable with two references: a host-network reference without option and a service
reference that requires all component objects. -/
def exTwoRefsVar : appsv1.EnvVar :=
  { Name := "SERVICE_HOST",
    ValueFrom := some { HostNetworkVarRef := some {}, ServiceVarRef := some exRequireAllRef } }

/-- A reconciler that carries one component definition with the variable `exTwoRefsVar`. -/
def exReconciler : ShardingDefinitionReconciler :=
  { compDefs := [{ Name := "compdef", Vars := [exTwoRefsVar] }] }

/-- A variable whose one reference requires all component objects. -/
def exOneRefVar : appsv1.EnvVar :=
  { Name := "SERVICE_HOST", ValueFrom := some { ServiceVarRef := some exRequireAllRef } }

/-- A reconciler that carries one component definition with the variable `exOneRefVar`. -/
def exOneRefReconciler : ShardingDefinitionReconciler :=
  { compDefs := [{ Name := "compdef", Vars := [exOneRefVar] }] }

/-- Scenario F: the full backup `FB2`, ended at 10:15. -/
def exFB2 : Backup :=
  { exBackup "FB2" "" "full" (some 1011) (some 1015) with Labels := exLabels BackupTypeFull }

/-- Scenario F: the incremental backup `IB`, ended at 10:12. -/
def exIB : Backup :=
  { exBackup "IB" "FB" "incremental" (some 1011) (some 1012) with
    Labels := exLabels BackupTypeIncremental }

/-- Scenario F: the full backup `FL`, ended at 10:25, after the restore time. -/
def exFL : Backup :=
  { exBackup "FL" "" "full" (some 1021) (some 1025) with Labels := exLabels BackupTypeFull }

/-- Scenario F: the full backup `FO`, ended at 9:50, before the continuous backup started. -/
def exFO : Backup :=
  { exBackup "FO" "" "full" (some 940) (some 950) with Labels := exLabels BackupTypeFull }

/-- Scenario F: a store holding four full backups, an incremental one and the continuous
backup `C`. -/
def exStoreF : Client :=
  { backups := [exFO, exFB, exFL, exFB2, exIB, exC], getFault := fun _ _ => none,
    listFault := fun _ _ => none, actionSetByName := exActionSets }

/-! ## The monad and the reads -/

theorem M.bind_def {α β : Type} (x : M α) (f : α → M β) (w : World) :
    (x >>= f) w = match x w with
      | none => none
      | some (.error e, w') => some (.error e, w')
      | some (.ok a, w') => f a w' := rfl

theorem M.pure_def {α : Type} (a : α) (w : World) : (Pure.pure a : M α) w = some (.ok a, w) := rfl

theorem World.logged_nil (w : World) : w.logged [] = w := by
  simp [World.logged]

theorem World.logged_logged (w : World) (a b : List ClientCall) :
    (w.logged a).logged b = w.logged (a ++ b) := by
  simp [World.logged]

theorem lookupBackup_ok {cli : Client} {ns name : String} {b : Backup}
    (h : cli.lookupBackup ns name = .ok b) : b.Namespace = ns ∧ b.Name = name ∧ b ∈ cli.backups := by
  unfold Client.lookupBackup at h
  split at h
  · cases h
  · split at h
    · rename_i b' hb
      cases h
      have h1 := List.find?_some hb
      have h2 := List.mem_of_find?_eq_some hb
      simp at h1
      exact ⟨h1.1, h1.2, h2⟩
    · cases h

theorem get_of_hasSet (cli : Client) (s : BackupActionSet) (h : cli.HasSet s) (w : World) :
    GetBackupActionSetByNamespaced cli s.Backup.Name s.Backup.Namespace w =
      some (.ok s, w.logged [.get "Backup" s.Backup.Namespace s.Backup.Name,
        .get "ActionSet" "" (match s.Backup.Status.BackupMethod with | some m => m.ActionSetName | none => "")]) := by
  obtain ⟨h1, m, h2, h3, h4, h5, h6⟩ := h
  simp only [GetBackupActionSetByNamespaced, M.bind_def, M.attempt, Client.Get, h1, h2, GetActionSetByName, h3, M.pure_def, World.logged]
  cases s
  simp_all

theorem get_spec (cli : Client) (name ns : String) (w : World) :
    ∃ res cs, GetBackupActionSetByNamespaced cli name ns w = some (res, w.logged cs) ∧
      (∀ c ∈ cs, c.isWrite = false) ∧ (cs.filter ClientCall.isBackupGet).length = 1 ∧
      ∀ s, res = .ok s → cli.HasSet s ∧ s.Backup.Name = name ∧ s.Backup.Namespace = ns := by
  cases hb : cli.lookupBackup ns name with
  | error e =>
    refine ⟨.error (match e with | .notFound _ => .fatal e.Error | _ => e),
      [.get "Backup" ns name], ?_, by simp [ClientCall.isWrite],
      by simp [ClientCall.isBackupGet], by simp⟩
    cases e <;>
      simp [GetBackupActionSetByNamespaced, M.bind_def, M.attempt, Client.Get, hb, M.fail,
        World.logged]
  | ok b =>
    obtain ⟨hns, hname, -⟩ := lookupBackup_ok hb
    cases hm : b.Status.BackupMethod with
    | none =>
      refine ⟨.error (.fatal ("status.backupMethod of backup \"" ++ name ++ "\" is empty")),
        [.get "Backup" ns name], ?_, by simp [ClientCall.isWrite],
        by simp [ClientCall.isBackupGet], by simp⟩
      simp [GetBackupActionSetByNamespaced, M.bind_def, M.attempt, Client.Get, hb, hm, M.fail,
        World.logged]
    | some m =>
      cases ha : cli.actionSetByName m.ActionSetName with
      | error e =>
        refine ⟨.error e, [.get "Backup" ns name, .get "ActionSet" "" m.ActionSetName], ?_,
          by simp [ClientCall.isWrite], by simp [ClientCall.isBackupGet], by simp⟩
        simp [GetBackupActionSetByNamespaced, M.bind_def, M.attempt, Client.Get, hb, hm, ha,
          GetActionSetByName, World.logged]
      | ok a =>
        refine ⟨.ok ⟨b, [], none, a, m.SnapshotVolumes == some true⟩,
          [.get "Backup" ns name, .get "ActionSet" "" m.ActionSetName], ?_,
          by simp [ClientCall.isWrite], by simp [ClientCall.isBackupGet], ?_⟩
        · simp [GetBackupActionSetByNamespaced, M.bind_def, M.attempt, Client.Get, hb, hm, ha,
            GetActionSetByName, World.logged, M.pure_def]
        · intro s hs
          cases hs
          refine ⟨⟨?_, m, hm, ha, rfl, rfl, rfl⟩, hname, hns⟩
          simp [hns, hname, hb]

theorem hasSet_unique {cli : Client} {p q : BackupActionSet} (hp : cli.HasSet p) (hq : cli.HasSet q)
    (hname : p.Backup.Name = q.Backup.Name) (hns : p.Backup.Namespace = q.Backup.Namespace) :
    p = q := by
  obtain ⟨hp1, mp, hp2, hp3, hp4, hp5, hp6⟩ := hp
  obtain ⟨hq1, mq, hq2, hq3, hq4, hq5, hq6⟩ := hq
  rw [hname, hns, hq1] at hp1
  have hb : q.Backup = p.Backup := Except.ok.inj hp1
  rw [← hb, hq2] at hp2
  have hm : mq = mp := Option.some.inj hp2
  subst hm
  rw [hq3] at hp3
  have ha : q.ActionSet = p.ActionSet := Except.ok.inj hp3
  cases p
  cases q
  simp_all

theorem hasSet_fresh {cli : Client} {s : BackupActionSet} (h : cli.HasSet s) :
    s.AncestorIncrementalBackups = [] ∧ s.BaseBackup = none := by
  obtain ⟨-, m, -, -, -, h5, h6⟩ := h
  exact ⟨h5, h6⟩

theorem hasSet_name_mem {cli : Client} {p : BackupActionSet} (h : cli.HasSet p) :
    p.Backup.Name ∈ (cli.backups.map (·.Name)).toFinset := by
  obtain ⟨-, -, hm⟩ := lookupBackup_ok h.1
  simp only [List.mem_toFinset, List.mem_map]
  exact ⟨_, hm, rfl⟩

theorem listCompleted_spec (d : Deps) (cli : Client) (cont : Backup) (backupType : String)
    (w : World) :
    ∃ res cs, listCompletedBackups d cli cont backupType w = some (res, w.logged cs) ∧
      (∀ c ∈ cs, c.isWrite = false) ∧
      (∀ l, res = .ok l → ∀ b ∈ l, b.Status.Phase = BackupPhaseCompleted) := by
  simp only [listCompletedBackups, M.bind_def, Client.List]
  generalize (if (List.length _ == 1) = true then _ else _ : StringMap) = sel
  cases hl : cli.lookupBackups cont.Namespace sel with
  | error e => exact ⟨.error e, [.list "Backup" cont.Namespace sel], rfl, by simp [ClientCall.isWrite], by simp⟩
  | ok l =>
    refine ⟨.ok (l.filter (fun b => b.Status.Phase == BackupPhaseCompleted)),
      [.list "Backup" cont.Namespace sel], rfl, by simp [ClientCall.isWrite], ?_⟩
    intro l' hl' b hb
    cases hl'
    simpa using (List.mem_filter.1 hb).2

/-! ## The loop of `BuildIncrementalBackupActionSet` -/

theorem round_ok (d : Deps) (cli : Client) (s : IncrementalLoop) (p : BackupActionSet)
    (h : s.Accepts d cli p) (w : World) :
    ∃ cs, incrementalRound d cli s w = some (.ok (s.advance p), w.logged cs) ∧
      (∀ c ∈ cs, c.isWrite = false) ∧ (cs.filter ClientCall.isBackupGet).length = 1 := by
  obtain ⟨hp, hname, hns, hnot, hval⟩ := h
  have hget := get_of_hasSet cli p hp w
  rw [hname, hns] at hget
  obtain ⟨res, cs, hget', hw, hcount, -⟩ := get_spec cli
    s.childBackupSet.Backup.Status.ParentBackupName s.childBackupSet.Backup.Namespace w
  have hres : res = .ok p := by
    rw [hget] at hget'
    simp only [Option.some.injEq, Prod.mk.injEq] at hget'
    exact hget'.1.symm
  subst hres
  refine ⟨cs, ?_, hw, hcount⟩
  have hc : (s.childBackupSet.Backup.Name :: s.backupMap).contains p.Backup.Name = false := by
    simpa using hnot
  simp only [incrementalRound, M.bind_def, M.attempt, hget', hc, hval]
  rfl

theorem round_spec (d : Deps) (cli : Client) (s : IncrementalLoop) (w : World) :
    ∃ res cs, incrementalRound d cli s w = some (res, w.logged cs) ∧
      (∀ c ∈ cs, c.isWrite = false) ∧ (cs.filter ClientCall.isBackupGet).length = 1 ∧
      (∀ e, res = .error e → e.isFatal = true) ∧
      (∀ s', res = .ok s' → ∃ p, s.Accepts d cli p ∧ s' = s.advance p) := by
  obtain ⟨res, cs, hget, hw, hcount, hres⟩ := get_spec cli
    s.childBackupSet.Backup.Status.ParentBackupName s.childBackupSet.Backup.Namespace w
  cases res with
  | error e =>
    have h : ∃ msg, incrementalRound d cli s w = some (.error (.fatal msg), w.logged cs) := by
      simp only [incrementalRound, M.bind_def, M.attempt, hget]
      exact ⟨_, rfl⟩
    obtain ⟨msg, h⟩ := h
    exact ⟨_, cs, h, hw, hcount, by simp [Err.isFatal], by simp⟩
  | ok p =>
    obtain ⟨hp, hname, hns⟩ := hres p rfl
    by_cases hc : (s.childBackupSet.Backup.Name :: s.backupMap).contains p.Backup.Name = true
    · have h : ∃ msg, incrementalRound d cli s w = some (.error (.fatal msg), w.logged cs) := by
        simp only [incrementalRound, M.bind_def, M.attempt, hget, hc]
        exact ⟨_, rfl⟩
      obtain ⟨msg, h⟩ := h
      exact ⟨_, cs, h, hw, hcount, by simp [Err.isFatal], by simp⟩
    · cases hv : d.ValidateParentBackupSet p s.childBackupSet with
      | some msg =>
        have h : ∃ msg, incrementalRound d cli s w = some (.error (.fatal msg), w.logged cs) := by
          simp only [incrementalRound, M.bind_def, M.attempt, hget, hc, hv]
          exact ⟨_, rfl⟩
        obtain ⟨msg, h⟩ := h
        exact ⟨_, cs, h, hw, hcount, by simp [Err.isFatal], by simp⟩
      | none =>
        refine ⟨.ok (s.advance p), cs, ?_, hw, hcount, by simp, ?_⟩
        · simp only [incrementalRound, M.bind_def, M.attempt, hget, hc, hv]
          rfl
        · intro s' hs'
          cases hs'
          refine ⟨p, ⟨hp, hname, hns, ?_, hv⟩, rfl⟩
          simpa using hc

theorem loop_exit (d : Deps) (cli : Client) (fuel : Nat) (s : IncrementalLoop) (w : World)
    (h : s.childBackupSet.isIncremental = false) :
    incrementalLoop d cli fuel s w = some (.ok s.sourceBackupSet, w) := by
  cases fuel <;> simp [incrementalLoop, h, M.pure_def]

theorem loop_zero (d : Deps) (cli : Client) (s : IncrementalLoop) (w : World)
    (h : s.childBackupSet.isIncremental = true) :
    incrementalLoop d cli 0 s w = none := by
  simp [incrementalLoop, h, M.outOfFuel]

theorem loop_step_ok (d : Deps) (cli : Client) (fuel : Nat) (s s' : IncrementalLoop) (w w1 : World)
    (h : s.childBackupSet.isIncremental = true)
    (hr : incrementalRound d cli s w = some (.ok s', w1)) :
    incrementalLoop d cli (fuel + 1) s w = incrementalLoop d cli fuel s' w1 := by
  simp [incrementalLoop, h, M.bind_def, hr]

theorem loop_step_error (d : Deps) (cli : Client) (fuel : Nat) (s : IncrementalLoop) (w w1 : World)
    (e : Err) (h : s.childBackupSet.isIncremental = true)
    (hr : incrementalRound d cli s w = some (.error e, w1)) :
    incrementalLoop d cli (fuel + 1) s w = some (.error e, w1) := by
  simp [incrementalLoop, h, M.bind_def, hr]

/-- More fuel does not change a result. -/
theorem loop_mono (d : Deps) (cli : Client) (fuel : Nat) :
    ∀ (s : IncrementalLoop) (w : World) (x : Except Err BackupActionSet × World),
      incrementalLoop d cli fuel s w = some x →
      ∀ k, incrementalLoop d cli (fuel + k) s w = some x := by
  induction fuel with
  | zero =>
    intro s w x h k
    cases hi : s.childBackupSet.isIncremental with
    | false => rw [loop_exit d cli _ s w hi] at h ⊢; exact h
    | true => rw [loop_zero d cli s w hi] at h; cases h
  | succ n ih =>
    intro s w x h k
    cases hi : s.childBackupSet.isIncremental with
    | false => rw [loop_exit d cli _ s w hi] at h ⊢; exact h
    | true =>
      obtain ⟨res, cs, hr, -⟩ := round_spec d cli s w
      have hk : n + 1 + k = (n + k) + 1 := by omega
      rw [hk]
      cases res with
      | error e =>
        rw [loop_step_error d cli _ s w _ e hi hr] at h ⊢
        exact h
      | ok s' =>
        rw [loop_step_ok d cli _ s s' w _ hi hr] at h ⊢
        exact ih s' _ x h k

theorem untraversed_advance {d : Deps} {cli : Client} {s : IncrementalLoop} {p : BackupActionSet}
    (h : s.Accepts d cli p) :
    (untraversed cli (p.Backup.Name :: s.childBackupSet.Backup.Name :: s.backupMap)).card <
      (untraversed cli (s.childBackupSet.Backup.Name :: s.backupMap)).card := by
  apply Finset.card_lt_card
  rw [Finset.ssubset_iff_of_subset]
  · refine ⟨p.Backup.Name, ?_, ?_⟩
    · simp only [untraversed, Finset.mem_sdiff]
      refine ⟨hasSet_name_mem h.1, ?_⟩
      rw [List.mem_toFinset]
      exact h.2.2.2.1
    · simp [untraversed]
  · intro x
    simp only [untraversed, Finset.mem_sdiff, List.mem_toFinset, List.mem_cons, not_or]
    tauto

/-- The loop ends within one round more than there are stored names not yet traversed. -/
theorem loop_total (d : Deps) (cli : Client) (fuel : Nat) :
    ∀ (s : IncrementalLoop) (w : World),
      (untraversed cli (s.childBackupSet.Backup.Name :: s.backupMap)).card + 1 ≤ fuel →
      ∃ x, incrementalLoop d cli fuel s w = some x := by
  induction fuel with
  | zero => intro s w h; omega
  | succ n ih =>
    intro s w h
    cases hi : s.childBackupSet.isIncremental with
    | false => exact ⟨_, loop_exit d cli _ s w hi⟩
    | true =>
      obtain ⟨res, cs, hr, -, -, -, hadv⟩ := round_spec d cli s w
      cases res with
      | error e => exact ⟨_, loop_step_error d cli _ s w _ e hi hr⟩
      | ok s' =>
        obtain ⟨p, hp, rfl⟩ := hadv s' rfl
        rw [loop_step_ok d cli _ s _ w _ hi hr]
        apply ih
        have := untraversed_advance hp
        simp only [IncrementalLoop.advance]
        omega

theorem loop_agree (d : Deps) (cli : Client) (f1 f2 : Nat) (s : IncrementalLoop) (w : World)
    (x y : Except Err BackupActionSet × World)
    (h1 : incrementalLoop d cli f1 s w = some x) (h2 : incrementalLoop d cli f2 s w = some y) :
    x = y := by
  have a := loop_mono d cli f1 s w x h1 f2
  have b := loop_mono d cli f2 s w y h2 f1
  rw [Nat.add_comm] at b
  rw [a] at b
  exact Option.some.inj b

theorem untraversed_card_le (cli : Client) (visited : List String) :
    (untraversed cli visited).card ≤ cli.backups.length := by
  calc (untraversed cli visited).card
      ≤ (cli.backups.map (·.Name)).toFinset.card := Finset.card_le_card Finset.sdiff_subset
    _ ≤ (cli.backups.map (·.Name)).length := List.toFinset_card_le _
    _ = cli.backups.length := by simp

/-- The fuel of `BuildIncrementalBackupActionSet` is enough for whatever the loop does
with some fuel. -/
theorem loop_enough (d : Deps) (cli : Client) (fuel : Nat) (s : IncrementalLoop) (w : World)
    (x : Except Err BackupActionSet × World) (h : incrementalLoop d cli fuel s w = some x) :
    incrementalLoop d cli (cli.backups.length + 1) s w = some x := by
  obtain ⟨y, hy⟩ := loop_total d cli (cli.backups.length + 1) s w
    (by have := untraversed_card_le cli (s.childBackupSet.Backup.Name :: s.backupMap); omega)
  rw [hy, loop_agree d cli _ _ s w y x hy h]

/-- What is known of a finished run of the loop. -/
theorem loop_sound (d : Deps) (cli : Client) (fuel : Nat) :
    ∀ (s : IncrementalLoop) (w : World) (res : Except Err BackupActionSet) (w' : World),
      incrementalLoop d cli fuel s w = some (res, w') →
      ∃ cs, w' = w.logged cs ∧ (∀ c ∈ cs, c.isWrite = false) ∧
        (cs.filter ClientCall.isBackupGet).length ≤ fuel ∧
        (∀ e, res = .error e → e.isFatal = true) ∧
        ∀ final, res = .ok final →
          final.Backup = s.sourceBackupSet.Backup ∧ final.ActionSet = s.sourceBackupSet.ActionSet ∧
          final.UseVolumeSnapshot = s.sourceBackupSet.UseVolumeSnapshot ∧
          (∀ a ∈ final.AncestorIncrementalBackups,
            a ∈ s.sourceBackupSet.AncestorIncrementalBackups ∨ cli.IsIncrementalBackup a) ∧
          (s.childBackupSet.isIncremental = false → final = s.sourceBackupSet) ∧
          (s.childBackupSet.isIncremental = true →
            ∃ base, cli.HasSet base ∧ base.isIncremental = false ∧
              final.BaseBackup = some base.Backup) := by
  induction fuel with
  | zero =>
    intro s w res w' h
    cases hi : s.childBackupSet.isIncremental with
    | true => rw [loop_zero d cli s w hi] at h; cases h
    | false =>
      rw [loop_exit d cli _ s w hi] at h
      cases h
      refine ⟨[], (World.logged_nil w).symm, by simp, by simp, by simp, ?_⟩
      intro final hf
      cases hf
      exact ⟨rfl, rfl, rfl, fun a ha => Or.inl ha, fun _ => rfl, fun h => by cases h⟩
  | succ n ih =>
    intro s w res w' h
    cases hi : s.childBackupSet.isIncremental with
    | false =>
      rw [loop_exit d cli _ s w hi] at h
      cases h
      refine ⟨[], (World.logged_nil w).symm, by simp, by simp, by simp, ?_⟩
      intro final hf
      cases hf
      exact ⟨rfl, rfl, rfl, fun a ha => Or.inl ha, fun _ => rfl, fun h => by cases h⟩
    | true =>
      obtain ⟨r1, cs1, hr, hw1, hc1, hf1, hadv⟩ := round_spec d cli s w
      cases r1 with
      | error e =>
        rw [loop_step_error d cli _ s w _ e hi hr] at h
        cases h
        exact ⟨cs1, rfl, hw1, by omega, by intro e' he'; cases he'; exact hf1 e rfl, by simp⟩
      | ok s' =>
        obtain ⟨p, hp, rfl⟩ := hadv s' rfl
        rw [loop_step_ok d cli _ s _ w _ hi hr] at h
        obtain ⟨cs2, hw', hw2, hc2, hf2, hfin⟩ := ih _ _ res w' h
        refine ⟨cs1 ++ cs2, by rw [hw', World.logged_logged], ?_, ?_, hf2, ?_⟩
        · intro c hc
          rcases List.mem_append.1 hc with h' | h'
          · exact hw1 c h'
          · exact hw2 c h'
        · rw [List.filter_append, List.length_append]; omega
        · intro final hfinal
          obtain ⟨h1, h2, h3, h4, h5, h6⟩ := hfin final hfinal
          simp only [IncrementalLoop.advance] at h1 h2 h3 h4 h5 h6
          cases hpi : p.isIncremental with
          | true =>
            simp only [hpi, if_true] at h1 h2 h3 h4 h5 h6
            refine ⟨h1, h2, h3, ?_, by simp, fun _ => h6 trivial⟩
            intro a ha
            rcases h4 a ha with h' | h'
            · rcases List.mem_cons.1 h' with h'' | h''
              · exact Or.inr ⟨p, hp.1, hpi, h''.symm⟩
              · exact Or.inl h''
            · exact Or.inr h'
          | false =>
            simp only [hpi, Bool.false_eq_true, ↓reduceIte] at h1 h2 h3 h4 h5 h6
            have hfe := h5 trivial
            refine ⟨h1, h2, h3, h4, by simp, fun _ => ⟨p, hp.1, hpi, ?_⟩⟩
            rw [hfe]

theorem build_of_loop_ok (d : Deps) (cli : Client) (T final : BackupActionSet) (fuel : Nat)
    (w w1 : World)
    (h : incrementalLoop d cli fuel (IncrementalLoop.start T) w = some (.ok final, w1)) :
    BuildIncrementalBackupActionSet d cli T w =
      some (.ok (), { w1 with r := w1.r.SetBackupSets [final] }) := by
  have h' := loop_enough d cli fuel _ w _ h
  simp only [IncrementalLoop.start] at h'
  simp [BuildIncrementalBackupActionSet, BuildIncrementalBackupActionSetWithin, M.bind_def, h',
    modifyManager]

theorem build_of_loop_error (d : Deps) (cli : Client) (T : BackupActionSet) (e : Err) (fuel : Nat)
    (w w1 : World)
    (h : incrementalLoop d cli fuel (IncrementalLoop.start T) w = some (.error e, w1)) :
    BuildIncrementalBackupActionSet d cli T w = some (.error e, w1) := by
  have h' := loop_enough d cli fuel _ w _ h
  simp only [IncrementalLoop.start] at h'
  simp [BuildIncrementalBackupActionSet, BuildIncrementalBackupActionSetWithin, M.bind_def, h']

/-- Whatever `BuildIncrementalBackupActionSet` returns comes from a finished run of its loop. -/
theorem build_cases (d : Deps) (cli : Client) (T : BackupActionSet) (w : World) :
    (∃ final w1, incrementalLoop d cli (cli.backups.length + 1) (IncrementalLoop.start T) w =
        some (.ok final, w1) ∧
      BuildIncrementalBackupActionSet d cli T w =
        some (.ok (), { w1 with r := w1.r.SetBackupSets [final] })) ∨
    (∃ e w1, incrementalLoop d cli (cli.backups.length + 1) (IncrementalLoop.start T) w =
        some (.error e, w1) ∧
      BuildIncrementalBackupActionSet d cli T w = some (.error e, w1)) := by
  obtain ⟨⟨res, w1⟩, hx⟩ := loop_total d cli (cli.backups.length + 1) (IncrementalLoop.start T) w
    (by have := untraversed_card_le cli
          ((IncrementalLoop.start T).childBackupSet.Backup.Name :: (IncrementalLoop.start T).backupMap)
        omega)
  cases res with
  | ok final => exact Or.inl ⟨final, w1, hx, build_of_loop_ok d cli T final _ w w1 hx⟩
  | error e => exact Or.inr ⟨e, w1, hx, build_of_loop_error d cli T e _ w w1 hx⟩

/-- The call returns for every store and every target, stored or not. -/
theorem build_total (d : Deps) (cli : Client) (T : BackupActionSet) (w : World) :
    ∃ x, BuildIncrementalBackupActionSet d cli T w = some x := by
  rcases build_cases d cli T w with ⟨_, _, -, h⟩ | ⟨_, _, -, h⟩ <;> exact ⟨_, h⟩

theorem build_error_spec (d : Deps) (cli : Client) (T : BackupActionSet) (w w' : World) (e : Err)
    (h : BuildIncrementalBackupActionSet d cli T w = some (.error e, w')) :
    e.isFatal = true ∧ ∃ cs, w' = w.logged cs ∧ ∀ c ∈ cs, c.isWrite = false := by
  rcases build_cases d cli T w with ⟨final, w1, -, hb⟩ | ⟨e1, w1, hloop, hb⟩
  · rw [hb] at h
    simp at h
  · rw [hb] at h
    simp only [Option.some.injEq, Prod.mk.injEq, Except.error.injEq] at h
    obtain ⟨rfl, rfl⟩ := h
    obtain ⟨cs, hw1, hreads, -, hfatal, -⟩ := loop_sound d cli _ _ w _ w1 hloop
    exact ⟨hfatal e1 rfl, cs, hw1, hreads⟩

theorem within_of_loop_ok (d : Deps) (cli : Client) (T final : BackupActionSet) (fuel : Nat)
    (w w1 : World)
    (h : incrementalLoop d cli fuel (IncrementalLoop.start T) w = some (.ok final, w1)) :
    BuildIncrementalBackupActionSetWithin fuel d cli T w =
      some (.ok (), { w1 with r := w1.r.SetBackupSets [final] }) := by
  simp only [IncrementalLoop.start] at h
  simp [BuildIncrementalBackupActionSetWithin, M.bind_def, h, modifyManager]

theorem within_of_loop_error (d : Deps) (cli : Client) (T : BackupActionSet) (e : Err) (fuel : Nat)
    (w w1 : World)
    (h : incrementalLoop d cli fuel (IncrementalLoop.start T) w = some (.error e, w1)) :
    BuildIncrementalBackupActionSetWithin fuel d cli T w = some (.error e, w1) := by
  simp only [IncrementalLoop.start] at h
  simp [BuildIncrementalBackupActionSetWithin, M.bind_def, h]

theorem untraversed_start_card (cli : Client) (T : BackupActionSet)
    (hT : T.Backup.Name ∈ cli.backups.map (·.Name)) :
    (untraversed cli [T.Backup.Name]).card + 1 = cli.distinctNames := by
  have hsub : ([T.Backup.Name] : List String).toFinset ⊆ (cli.backups.map (·.Name)).toFinset := by
    intro x hx
    simp only [List.toFinset_cons, List.toFinset_nil, insert_emptyc_eq, Finset.mem_singleton] at hx
    rw [hx, List.mem_toFinset]
    exact hT
  have hpos : 0 < (cli.backups.map (·.Name)).toFinset.card :=
    Finset.card_pos.2 ⟨_, List.mem_toFinset.2 hT⟩
  have h1 := Finset.card_sdiff hsub
  simp only [List.toFinset_cons, List.toFinset_nil, insert_emptyc_eq, Finset.card_singleton] at h1
  simp only [untraversed, Client.distinctNames, ← List.card_toFinset, List.toFinset_cons,
    List.toFinset_nil, insert_emptyc_eq]
  omega

theorem loop_chain (d : Deps) (cli : Client) (F : BackupActionSet) (hF : F.isIncremental = false) :
    ∀ (rest : List BackupActionSet) (c src : BackupActionSet) (vis : List String) (w : World),
      List.Chain (fun c p => cli.IsParentOf p c ∧ d.ValidateParentBackupSet p c = none) c (rest ++ [F]) →
      (∀ x ∈ c :: rest, x.isIncremental = true) →
      ((rest ++ [F]).map (·.Backup.Name)).Nodup →
      (∀ x ∈ rest ++ [F], x.Backup.Name ∉ c.Backup.Name :: vis) →
      ∃ w', incrementalLoop d cli (rest.length + 1)
          { sourceBackupSet := src, childBackupSet := c, backupMap := vis } w =
        some (.ok { src with
          BaseBackup := some F.Backup,
          AncestorIncrementalBackups :=
            rest.reverse.map (·.Backup) ++ src.AncestorIncrementalBackups }, w') := by
  intro rest
  induction rest with
  | nil =>
    intro c src vis w hchain hinc _ hfresh
    simp only [List.nil_append, List.chain_cons, List.Chain.nil, and_true] at hchain
    obtain ⟨⟨hp, hname, hns⟩, hval⟩ := hchain
    have hacc : IncrementalLoop.Accepts d cli
        { sourceBackupSet := src, childBackupSet := c, backupMap := vis } F :=
      ⟨hp, hname, hns, hfresh F (by simp), hval⟩
    obtain ⟨cs, hr, -⟩ := round_ok d cli _ F hacc w
    refine ⟨w.logged cs, ?_⟩
    rw [loop_step_ok d cli _ _ _ w _ (hinc c (by simp)) hr]
    rw [loop_exit d cli _ _ _ (by simpa [IncrementalLoop.advance] using hF)]
    simp [IncrementalLoop.advance, hF]
  | cons p rest ih =>
    intro c src vis w hchain hinc hnodup hfresh
    simp only [List.cons_append, List.chain_cons] at hchain
    obtain ⟨⟨⟨hp, hname, hns⟩, hval⟩, hchain'⟩ := hchain
    have hacc : IncrementalLoop.Accepts d cli
        { sourceBackupSet := src, childBackupSet := c, backupMap := vis } p :=
      ⟨hp, hname, hns, hfresh p (by simp), hval⟩
    obtain ⟨cs, hr, -⟩ := round_ok d cli _ p hacc w
    have hpi : p.isIncremental = true := hinc p (by simp)
    simp only [List.cons_append, List.map_cons, List.nodup_cons] at hnodup
    obtain ⟨w', hw'⟩ := ih p { src with
        AncestorIncrementalBackups := p.Backup :: src.AncestorIncrementalBackups }
      (c.Backup.Name :: vis) (w.logged cs) hchain'
      (fun x hx => hinc x (List.mem_cons_of_mem _ hx)) hnodup.2
      (by
        intro x hx
        have h1 := hfresh x (by simp only [List.cons_append]; exact List.mem_cons_of_mem _ hx)
        intro hmem
        rcases List.mem_cons.1 hmem with h2 | h2
        · apply hnodup.1
          rw [← h2]
          exact List.mem_map_of_mem _ hx
        · exact h1 h2)
    refine ⟨w', ?_⟩
    rw [List.length_cons, loop_step_ok d cli _ _ _ w _ (hinc c (by simp)) hr]
    simp only [IncrementalLoop.advance, hpi, if_true]
    rw [hw']
    simp

theorem loop_cycle (d : Deps) (cli : Client) (p : BackupActionSet) :
    ∀ (rest : List BackupActionSet) (c src : BackupActionSet) (vis : List String) (w : World),
      List.Chain (fun c q => cli.IsParentOf q c) c rest →
      (∀ x ∈ c :: rest, x.isIncremental = true) →
      cli.IsParentOf p ((c :: rest).getLast (List.cons_ne_nil c rest)) →
      p.Backup.Name ∈ (c :: rest).map (·.Backup.Name) ++ vis →
      ∃ msg w', incrementalLoop d cli (rest.length + 1)
          { sourceBackupSet := src, childBackupSet := c, backupMap := vis } w =
        some (.error (.fatal msg), w') := by
  intro rest
  induction rest with
  | nil =>
    intro c src vis w _ hinc hp hmem
    obtain ⟨res, cs, hr, -, -, hfatal, hadv⟩ := round_spec d cli
      { sourceBackupSet := src, childBackupSet := c, backupMap := vis } w
    cases res with
    | error e =>
      have he := hfatal e rfl
      cases e <;> simp [Err.isFatal] at he
      exact ⟨_, _, loop_step_error d cli _ _ w _ _ (hinc c (by simp)) hr⟩
    | ok s' =>
      exfalso
      obtain ⟨q, ⟨-, hqn, -, hfresh, -⟩, -⟩ := hadv s' rfl
      simp only [List.getLast_singleton] at hp
      apply hfresh
      rw [hqn, ← hp.2.1]
      simpa using hmem
  | cons q rest ih =>
    intro c src vis w hchain hinc hp hmem
    simp only [List.chain_cons] at hchain
    obtain ⟨hq, hchain'⟩ := hchain
    obtain ⟨res, cs, hr, -, -, hfatal, hadv⟩ := round_spec d cli
      { sourceBackupSet := src, childBackupSet := c, backupMap := vis } w
    cases res with
    | error e =>
      have he := hfatal e rfl
      cases e <;> simp [Err.isFatal] at he
      exact ⟨_, _, loop_step_error d cli _ _ w _ _ (hinc c (by simp)) hr⟩
    | ok s' =>
      obtain ⟨q', hacc, rfl⟩ := hadv s' rfl
      have hqq : q' = q := hasSet_unique hacc.1 hq.1 (by rw [hacc.2.1, hq.2.1])
        (by rw [hacc.2.2.1, hq.2.2])
      subst hqq
      rw [List.length_cons, loop_step_ok d cli _ _ _ w _ (hinc c (by simp)) hr]
      apply ih
      · exact hchain'
      · exact fun x hx => hinc x (List.mem_cons_of_mem _ hx)
      · rw [List.getLast_cons (List.cons_ne_nil _ _)] at hp
        exact hp
      · simp only [List.map_cons, List.cons_append, List.mem_cons, List.mem_append,
          IncrementalLoop.advance] at hmem ⊢
        tauto

/-! ## The examples -/

theorem exStore_hasSet_F : exStore.HasSet (exSet exF "full" BackupTypeFull) :=
  ⟨rfl, _, rfl, rfl, rfl, rfl, rfl⟩

theorem exStore_hasSet_I1 : exStore.HasSet (exSet exI1 "incremental" BackupTypeIncremental) :=
  ⟨rfl, _, rfl, rfl, rfl, rfl, rfl⟩

theorem exStore_hasSet_I2 : exStore.HasSet (exSet exI2 "incremental" BackupTypeIncremental) :=
  ⟨rfl, _, rfl, rfl, rfl, rfl, rfl⟩

theorem exCycleStore_hasSet_A : exCycleStore.HasSet (exSet exA "incremental" BackupTypeIncremental) :=
  ⟨rfl, _, rfl, rfl, rfl, rfl, rfl⟩

theorem exCycleStore_hasSet_B : exCycleStore.HasSet (exSet exB "incremental" BackupTypeIncremental) :=
  ⟨rfl, _, rfl, rfl, rfl, rfl, rfl⟩

theorem exDeps_compare (a b : Backup) (x y : Time) (ha : a.GetEndTime = some x)
    (hb : b.GetEndTime = some y) (hlt : x < y) : exDeps.CompareWithBackupStopTime a b = true := by
  simp [exDeps, ha, hb, hlt]

/-! ## Incremental chains: C1 to C4 -/

/-- C1. A well-formed chain `F ← I_1 ← ... ← I_n`, held by the store, with distinct names,
incremental `I_1 .. I_n`, non-incremental `F` and passing validations: the call on the
target `I_n` succeeds and registers exactly the target's set, with `BaseBackup = F` and
`AncestorIncrementalBackups = [I_1, ..., I_(n-1)]`, oldest first. -/
theorem BuildIncrementalBackupActionSet_resolves_chain (d : Deps) (cli : Client) (w : World)
    (F T : BackupActionSet) (incs : List BackupActionSet)
    (hT : cli.HasSet T)
    (hchain : List.Chain' (fun p c => cli.IsParentOf p c ∧ d.ValidateParentBackupSet p c = none)
      (F :: (incs ++ [T])))
    (hinc : ∀ x ∈ incs ++ [T], x.isIncremental = true) (hF : F.isIncremental = false)
    (hnames : ((F :: (incs ++ [T])).map (·.Backup.Name)).Nodup) :
    ∃ w', BuildIncrementalBackupActionSet d cli T w = some (.ok (), w') ∧
      w'.r = w.r.SetBackupSets [{ T with
        BaseBackup := some F.Backup,
        AncestorIncrementalBackups := incs.map (·.Backup) }] := by
  have hrev : (F :: (incs ++ [T])).reverse = T :: (incs.reverse ++ [F]) := by simp
  have hchain' : List.Chain (fun c p => cli.IsParentOf p c ∧ d.ValidateParentBackupSet p c = none)
      T (incs.reverse ++ [F]) := by
    have h := (List.chain'_reverse
      (R := fun c p => cli.IsParentOf p c ∧ d.ValidateParentBackupSet p c = none)
      (l := F :: (incs ++ [T]))).2 hchain
    rw [hrev] at h
    exact h
  have hnames' : (T.Backup.Name :: (incs.reverse ++ [F]).map (·.Backup.Name)).Nodup := by
    have h := List.nodup_reverse.2 hnames
    rw [← List.map_reverse, hrev] at h
    exact h
  rw [List.nodup_cons] at hnames'
  obtain ⟨w1, hloop⟩ := loop_chain d cli F hF incs.reverse T T [] w hchain'
    (by
      intro x hx
      apply hinc
      rcases List.mem_cons.1 hx with h | h
      · simp [h]
      · simp [List.mem_reverse.1 h])
    hnames'.2
    (by
      intro x hx hmem
      apply hnames'.1
      rw [List.mem_singleton] at hmem
      rw [← hmem]
      exact List.mem_map_of_mem _ hx)
  obtain ⟨cs, hw1, -⟩ := loop_sound d cli _ _ w _ w1 hloop
  refine ⟨_, build_of_loop_ok d cli T _ _ w w1 hloop, ?_⟩
  obtain ⟨hanc, -⟩ := hasSet_fresh hT
  simp [hw1, World.logged, hanc]

theorem BuildIncrementalBackupActionSet_resolves_chain_witness :
    ∃ w', BuildIncrementalBackupActionSet exDeps exStore
        (exSet exI2 "incremental" BackupTypeIncremental) exWorld = some (.ok (), w') ∧
      w'.r = exWorld.r.SetBackupSets [{ exSet exI2 "incremental" BackupTypeIncremental with
        BaseBackup := some exF,
        AncestorIncrementalBackups := [exI1] }] :=
  BuildIncrementalBackupActionSet_resolves_chain exDeps exStore exWorld
    (exSet exF "full" BackupTypeFull) (exSet exI2 "incremental" BackupTypeIncremental)
    [exSet exI1 "incremental" BackupTypeIncremental]
    exStore_hasSet_I2
    (List.chain'_cons.2 ⟨⟨⟨exStore_hasSet_F, rfl, rfl⟩, rfl⟩,
      List.chain'_cons.2 ⟨⟨⟨exStore_hasSet_I1, rfl, rfl⟩, rfl⟩, List.chain'_singleton _⟩⟩)
    (by decide) (by decide) (by decide)

/-- C2. Cycle detection: the target and the backups `rest` reached from it by parent
references are all incremental, and the parent reference of the last of them leads to a
stored backup whose name was already traversed (the target's name included). Then the call
returns a fatal error. -/
theorem BuildIncrementalBackupActionSet_cycle_fatal (d : Deps) (cli : Client) (w : World)
    (T p : BackupActionSet) (rest : List BackupActionSet)
    (hchain : List.Chain (fun c q => cli.IsParentOf q c) T rest)
    (hinc : ∀ x ∈ T :: rest, x.isIncremental = true)
    (hp : cli.IsParentOf p ((T :: rest).getLast (List.cons_ne_nil T rest)))
    (hcycle : p.Backup.Name ∈ (T :: rest).map (·.Backup.Name)) :
    ∃ msg w', BuildIncrementalBackupActionSet d cli T w = some (.error (.fatal msg), w') := by
  obtain ⟨msg, w', h⟩ := loop_cycle d cli p rest T T [] w hchain hinc hp (by simpa using hcycle)
  exact ⟨msg, w', build_of_loop_error d cli T _ _ w w' h⟩

theorem BuildIncrementalBackupActionSet_cycle_fatal_witness :
    ∃ msg w', BuildIncrementalBackupActionSet exDeps exCycleStore
        (exSet exA "incremental" BackupTypeIncremental) exWorld =
      some (.error (.fatal msg), w') :=
  BuildIncrementalBackupActionSet_cycle_fatal exDeps exCycleStore exWorld
    (exSet exA "incremental" BackupTypeIncremental) (exSet exA "incremental" BackupTypeIncremental)
    [exSet exB "incremental" BackupTypeIncremental]
    (List.Chain.cons ⟨exCycleStore_hasSet_B, rfl, rfl⟩ List.Chain.nil)
    (by decide) ⟨exCycleStore_hasSet_A, rfl, rfl⟩ (by decide)

/-- C3. The parent-following loop of `BuildIncrementalBackupActionSet` terminates: the call
returns for every store and target. Every round reads exactly one backup from the store,
and when the target's name is a stored name the number of rounds (the backups read) is at
most the number of distinct backup names in the store: the loop bounded to that many rounds
already gives the result. -/
theorem BuildIncrementalBackupActionSet_terminates (d : Deps) (cli : Client) (T : BackupActionSet)
    (w : World) (hT : T.Backup.Name ∈ cli.backups.map (·.Name)) :
    ∃ res w' cs, BuildIncrementalBackupActionSet d cli T w = some (res, w') ∧
      w'.calls = w.calls ++ cs ∧
      (cs.filter ClientCall.isBackupGet).length ≤ cli.distinctNames ∧
      BuildIncrementalBackupActionSetWithin cli.distinctNames d cli T w = some (res, w') := by
  obtain ⟨⟨res, w1⟩, hx⟩ := loop_total d cli cli.distinctNames (IncrementalLoop.start T) w
    (by rw [← untraversed_start_card cli T hT]; rfl)
  obtain ⟨cs, hw1, -, hcount, -, -⟩ := loop_sound d cli _ _ w res w1 hx
  cases res with
  | ok final =>
    exact ⟨_, _, cs, build_of_loop_ok d cli T final _ w w1 hx, by simp [hw1, World.logged], hcount,
      within_of_loop_ok d cli T final _ w w1 hx⟩
  | error e =>
    exact ⟨_, _, cs, build_of_loop_error d cli T e _ w w1 hx, by simp [hw1, World.logged], hcount,
      within_of_loop_error d cli T e _ w w1 hx⟩

theorem BuildIncrementalBackupActionSet_terminates_witness :
    ∃ res w' cs, BuildIncrementalBackupActionSet exDeps exStore
        (exSet exI2 "incremental" BackupTypeIncremental) exWorld = some (res, w') ∧
      w'.calls = exWorld.calls ++ cs ∧
      (cs.filter ClientCall.isBackupGet).length ≤ exStore.distinctNames ∧
      BuildIncrementalBackupActionSetWithin exStore.distinctNames exDeps exStore
        (exSet exI2 "incremental" BackupTypeIncremental) exWorld = some (res, w') :=
  BuildIncrementalBackupActionSet_terminates exDeps exStore
    (exSet exI2 "incremental" BackupTypeIncremental) exWorld (by decide)

/-- C4. For a target whose action set is incremental and that carries no ancestors yet,
a call that returns without error registered a target set with a base backup; the store
resolves that base to a set that is not incremental, and every element of
`AncestorIncrementalBackups` to an incremental one. -/
theorem BuildIncrementalBackupActionSet_base_not_incremental (d : Deps) (cli : Client)
    (T : BackupActionSet) (w w' : World)
    (hT : T.isIncremental = true) (hfresh : T.AncestorIncrementalBackups = [])
    (hok : BuildIncrementalBackupActionSet d cli T w = some (.ok (), w')) :
    ∃ final base, w'.r = w.r.SetBackupSets [final] ∧
      final.Backup = T.Backup ∧ final.ActionSet = T.ActionSet ∧
      cli.HasSet base ∧ base.isIncremental = false ∧ final.BaseBackup = some base.Backup ∧
      ∀ a ∈ final.AncestorIncrementalBackups, cli.IsIncrementalBackup a := by
  rcases build_cases d cli T w with ⟨final, w1, hloop, hb⟩ | ⟨e, w1, -, hb⟩
  · rw [hb] at hok
    obtain ⟨cs, hw1, -, -, -, hfin⟩ := loop_sound d cli _ _ w _ w1 hloop
    obtain ⟨h1, h2, -, h4, -, h6⟩ := hfin final rfl
    obtain ⟨base, hbase, hbi, hbb⟩ := h6 hT
    refine ⟨final, base, ?_, h1, h2, hbase, hbi, hbb, ?_⟩
    · simp only [Option.some.injEq, Prod.mk.injEq, true_and] at hok
      rw [← hok, hw1]
      rfl
    · intro a ha
      rcases h4 a ha with h | h
      · simp [IncrementalLoop.start, hfresh] at h
      · exact h
  · rw [hb] at hok
    simp at hok

theorem BuildIncrementalBackupActionSet_base_not_incremental_witness :
    ∃ final base, exWorldResolved.r = exWorld.r.SetBackupSets [final] ∧
      final.Backup = exI2 ∧
      final.ActionSet = some (exActionSet "incremental" BackupTypeIncremental) ∧
      exStore.HasSet base ∧ base.isIncremental = false ∧ final.BaseBackup = some base.Backup ∧
      ∀ a ∈ final.AncestorIncrementalBackups, exStore.IsIncrementalBackup a :=
  BuildIncrementalBackupActionSet_base_not_incremental exDeps exStore
    (exSet exI2 "incremental" BackupTypeIncremental) exWorld exWorldResolved rfl rfl rfl

/-! ## Stage classification -/

theorem SetBackupSet_prepareData (r : RestoreManager) (s : BackupActionSet) :
    (SetBackupSet r s).PrepareDataBackupSets =
      r.PrepareDataBackupSets ++ (if s.wantsPrepareData then [s] else []) := by
  unfold SetBackupSet BackupActionSet.wantsPrepareData
  cases hv : s.UseVolumeSnapshot with
  | true => simp
  | false =>
    cases ha : s.ActionSet with
    | none => simp
    | some a =>
      cases hr : a.Spec.Restore with
      | none => simp [hr]
      | some rs =>
        cases hp : rs.PrepareData <;> by_cases hl : 0 < rs.PostReady.length <;>
          simp [hr, hp, hl]

theorem SetBackupSet_postReady (r : RestoreManager) (s : BackupActionSet) :
    (SetBackupSet r s).PostReadyBackupSets =
      r.PostReadyBackupSets ++
        (if !s.UseVolumeSnapshot && s.declaresPostReady then [s] else []) := by
  unfold SetBackupSet BackupActionSet.declaresPostReady
  cases hv : s.UseVolumeSnapshot with
  | true => simp
  | false =>
    cases ha : s.ActionSet with
    | none => simp
    | some a =>
      cases hr : a.Spec.Restore with
      | none => simp [hr]
      | some rs =>
        cases hp : rs.PrepareData <;> by_cases hl : 0 < rs.PostReady.length <;>
          simp [hr, hp, hl]

theorem SetBackupSets_buckets (sets : List BackupActionSet) :
    ∀ r : RestoreManager,
      (r.SetBackupSets sets).PrepareDataBackupSets =
        r.PrepareDataBackupSets ++ sets.filter (·.wantsPrepareData) ∧
      (r.SetBackupSets sets).PostReadyBackupSets =
        r.PostReadyBackupSets ++
          sets.filter (fun s => !s.UseVolumeSnapshot && s.declaresPostReady) ∧
      (r.SetBackupSets sets).Restore = r.Restore := by
  induction sets with
  | nil => intro r; simp [RestoreManager.SetBackupSets]
  | cons s rest ih =>
    intro r
    have h := ih (SetBackupSet r s)
    simp only [RestoreManager.SetBackupSets, List.foldl_cons] at h ⊢
    rw [h.1, h.2.1, h.2.2, SetBackupSet_prepareData, SetBackupSet_postReady]
    refine ⟨?_, ?_, ?_⟩
    · by_cases h1 : s.wantsPrepareData = true <;> simp [List.filter_cons, h1]
    · by_cases h1 : s.UseVolumeSnapshot = true <;> by_cases h2 : s.declaresPostReady = true <;>
        simp [List.filter_cons, h1, h2]
    · unfold SetBackupSet
      repeat' split
      all_goals rfl

/-! ## Continuous restores: C5 to C8 -/

theorem find_first {α : Type} (p : α → Bool) (R : α → α → Prop) :
    ∀ (l : List α) (b : α), l.Pairwise R → l.find? p = some b →
      p b = true ∧ b ∈ l ∧ ∀ c ∈ l, p c = true → c = b ∨ R b c := by
  intro l
  induction l with
  | nil => intro b _ h; simp at h
  | cons x l ih =>
    intro b hpw hfind
    rw [List.pairwise_cons] at hpw
    by_cases hx : p x = true
    · rw [List.find?_cons_of_pos _ hx] at hfind
      cases hfind
      refine ⟨hx, List.mem_cons_self _ _, ?_⟩
      intro c hc _
      rcases List.mem_cons.1 hc with h | h
      · exact Or.inl h
      · exact Or.inr (hpw.1 c h)
    · rw [List.find?_cons_of_neg _ hx] at hfind
      obtain ⟨h1, h2, h3⟩ := ih b hpw.2 hfind
      refine ⟨h1, List.mem_cons_of_mem _ h2, ?_⟩
      intro c hc hpc
      rcases List.mem_cons.1 hc with h | h
      · rw [h] at hpc; exact absurd hpc hx
      · exact h3 c h hpc

theorem isLatestBackupCandidate_iff (cont item : Backup) (rt s0 : Time)
    (hstart : cont.GetStartTime = some s0) :
    isLatestBackupCandidate cont rt item = true ↔ item.endsWithin s0 rt := by
  unfold isLatestBackupCandidate Backup.endsWithin
  rw [hstart]
  cases he : item.GetEndTime with
  | none => simp
  | some e =>
    simp only [Option.isSome_some, metaBefore, timeBefore, Bool.true_and, Bool.and_eq_true,
      Bool.not_eq_true', decide_eq_false_iff_not, not_lt, Option.some.injEq, exists_eq_left']
    tauto

theorem getBase_none (d : Deps) (cli : Client) (cont : Backup) (rt : Time) (w w1 w2 : World)
    (full inc : List Backup) (hzero : metaIsZero cont.GetStartTime = false)
    (hfull : listCompletedBackups d cli cont BackupTypeFull w = some (.ok full, w1))
    (hinc : listCompletedBackups d cli cont BackupTypeIncremental w1 = some (.ok inc, w2))
    (hfind : (d.sortSlice (fun i j => d.CompareWithBackupStopTime j i) (full ++ inc)).find?
      (isLatestBackupCandidate cont rt) = none) :
    ∃ msg, getBaseBackupActionSetForContinuous d cli cont rt w =
      some (.error (.fatal msg), w2) := by
  simp only [getBaseBackupActionSetForContinuous, hzero, Bool.false_eq_true, if_false,
    M.bind_def, hfull, hinc, List.nil_append, hfind]
  exact ⟨_, rfl⟩

theorem getBase_some (d : Deps) (cli : Client) (cont : Backup) (rt : Time) (w w1 w2 : World)
    (full inc : List Backup) (b : Backup) (hzero : metaIsZero cont.GetStartTime = false)
    (hfull : listCompletedBackups d cli cont BackupTypeFull w = some (.ok full, w1))
    (hinc : listCompletedBackups d cli cont BackupTypeIncremental w1 = some (.ok inc, w2))
    (hfind : (d.sortSlice (fun i j => d.CompareWithBackupStopTime j i) (full ++ inc)).find?
      (isLatestBackupCandidate cont rt) = some b) :
    getBaseBackupActionSetForContinuous d cli cont rt w =
      some ((cli.actionSetByName b.actionSetName).map (baseSetOf b),
        w2.logged [.get "ActionSet" "" b.actionSetName]) := by
  simp only [getBaseBackupActionSetForContinuous, hzero, Bool.false_eq_true, if_false,
    M.bind_def, hfull, hinc, List.nil_append, hfind, GetActionSetByName, Backup.actionSetName,
    World.logged]
  cases cli.actionSetByName
      (match b.Status.BackupMethod with
      | some backupMethod => backupMethod.ActionSetName
      | none => "") <;> rfl

theorem getBase_spec (d : Deps) (cli : Client) (cont : Backup) (rt : Time) (w : World) :
    ∃ res cs, getBaseBackupActionSetForContinuous d cli cont rt w = some (res, w.logged cs) ∧
      (∀ c ∈ cs, c.isWrite = false) := by
  cases hzero : metaIsZero cont.GetStartTime with
  | true =>
    have h : ∃ msg, getBaseBackupActionSetForContinuous d cli cont rt w =
        some (.error (.fatal msg), w.logged []) := by
      simp only [getBaseBackupActionSetForContinuous, hzero, if_true, World.logged_nil]
      exact ⟨_, rfl⟩
    obtain ⟨msg, h⟩ := h
    exact ⟨_, [], h, by simp⟩
  | false =>
    obtain ⟨r1, cs1, h1, hw1, -⟩ := listCompleted_spec d cli cont BackupTypeFull w
    cases r1 with
    | error e =>
      refine ⟨.error e, cs1, ?_, hw1⟩
      simp [getBaseBackupActionSetForContinuous, hzero, M.bind_def, h1]
    | ok full =>
      obtain ⟨r2, cs2, h2, hw2, -⟩ :=
        listCompleted_spec d cli cont BackupTypeIncremental (w.logged cs1)
      rw [World.logged_logged] at h2
      cases r2 with
      | error e =>
        refine ⟨.error e, cs1 ++ cs2, ?_, ?_⟩
        · simp [getBaseBackupActionSetForContinuous, hzero, M.bind_def, h1, h2]
        · intro c hc
          rcases List.mem_append.1 hc with h | h
          · exact hw1 c h
          · exact hw2 c h
      | ok inc =>
        have hw12 : ∀ c ∈ cs1 ++ cs2, c.isWrite = false := by
          intro c hc
          rcases List.mem_append.1 hc with h | h
          · exact hw1 c h
          · exact hw2 c h
        cases hfind : (d.sortSlice (fun i j => d.CompareWithBackupStopTime j i)
            (full ++ inc)).find? (isLatestBackupCandidate cont rt) with
        | none =>
          obtain ⟨msg, h⟩ := getBase_none d cli cont rt w _ _ full inc hzero h1 h2 hfind
          exact ⟨_, _, h, hw12⟩
        | some b =>
          have h := getBase_some d cli cont rt w _ _ full inc b hzero h1 h2 hfind
          rw [World.logged_logged] at h
          refine ⟨_, _, h, ?_⟩
          intro c hc
          rcases List.mem_append.1 hc with h | h
          · exact hw12 c h
          · simp only [List.mem_singleton] at h
            rw [h]
            rfl

theorem buildContinuous_error_spec (d : Deps) (cli : Client) (set : BackupActionSet)
    (w w' : World) (e : Err)
    (h : BuildContinuousRestoreManager d cli set w = some (.error e, w')) :
    ∃ cs, w' = w.logged cs ∧ ∀ c ∈ cs, c.isWrite = false := by
  simp only [BuildContinuousRestoreManager, M.bind_def, getManager] at h
  cases hcheck : checkRestoreTime set.Backup ((d.timeParseRFC3339 w.r.Restore.Spec.RestoreTime).getD 0) with
  | error e1 =>
    simp only [hcheck, M.fail, Option.some.injEq, Prod.mk.injEq] at h
    exact ⟨[], by rw [World.logged_nil]; exact h.2.symm, by simp⟩
  | ok u =>
    simp only [hcheck] at h
    cases has : set.ActionSet with
    | none =>
      simp only [has, M.fail, Option.some.injEq, Prod.mk.injEq] at h
      exact ⟨[], by rw [World.logged_nil]; exact h.2.symm, by simp⟩
    | some as =>
      simp only [has] at h
      split at h
      · simp [modifyManager] at h
      · obtain ⟨res, cs, hbase, hreads⟩ := getBase_spec d cli set.Backup
          ((d.timeParseRFC3339 w.r.Restore.Spec.RestoreTime).getD 0) w
        simp only [M.bind_def, hbase] at h
        cases res with
        | error e1 =>
          simp only [Option.some.injEq, Prod.mk.injEq] at h
          exact ⟨cs, h.2.symm, hreads⟩
        | ok base =>
          simp only at h
          split at h
          · split at h
            · simp only [M.fail, Option.some.injEq, Prod.mk.injEq] at h
              exact ⟨cs, h.2.symm, hreads⟩
            · simp only [M.bind_def] at h
              obtain ⟨x, hx⟩ := build_total d cli base (w.logged cs)
              obtain ⟨r1, w1⟩ := x
              rw [hx] at h
              cases r1 with
              | error e1 =>
                simp only [Option.some.injEq, Prod.mk.injEq, Except.error.injEq] at h
                obtain ⟨-, cs2, hw2, hreads2⟩ := build_error_spec d cli base _ _ e1 hx
                refine ⟨cs ++ cs2, ?_, ?_⟩
                · rw [← h.2, hw2, World.logged_logged]
                · intro c hc
                  rcases List.mem_append.1 hc with h' | h'
                  · exact hreads c h'
                  · exact hreads2 c h'
              | ok u1 =>
                simp [modifyManager] at h
          · split at h
            · simp [M.bind_def, recordEvent, modifyManager] at h
            · simp [modifyManager] at h

/-- C5. The window check of `BuildContinuousRestoreManager`, with `t` the parsed restore
time: the call returns a fatal error, leaving the manager as it was, as soon as the start or
the end time of the continuous backup is unset, or `t` is before the start, or `t` is after
the end; and for `start ≤ t ≤ end`, both set, the check passes, so that a set whose action
set declares that no base backup is required is registered. -/
theorem BuildContinuousRestoreManager_window (d : Deps) (cli : Client) (set : BackupActionSet)
    (w : World) :
    ((metaIsZero set.Backup.GetStartTime = true ∨ metaIsZero set.Backup.GetEndTime = true ∨
        (∃ s, set.Backup.GetStartTime = some s ∧ w.r.restoreTime d < s) ∨
        (∃ e, set.Backup.GetEndTime = some e ∧ e < w.r.restoreTime d)) →
      ∃ msg, BuildContinuousRestoreManager d cli set w = some (.error (.fatal msg), w)) ∧
    (∀ s e, set.Backup.GetStartTime = some s → set.Backup.GetEndTime = some e →
      s ≠ 0 → e ≠ 0 → s ≤ w.r.restoreTime d → w.r.restoreTime d ≤ e →
      checkRestoreTime set.Backup (w.r.restoreTime d) = .ok () ∧
      ∀ actionSet restore, set.ActionSet = some actionSet →
        actionSet.Spec.Restore = some restore → restore.BaseBackupRequired = some false →
        BuildContinuousRestoreManager d cli set w =
          some (.ok (), { w with r := w.r.SetBackupSets [set] })) := by
  constructor
  · intro h
    have hc : ∃ msg, checkRestoreTime set.Backup (w.r.restoreTime d) = .error (.fatal msg) := by
      unfold checkRestoreTime
      simp only
      by_cases hz : (metaIsZero set.Backup.GetStartTime || metaIsZero set.Backup.GetEndTime) = true
      · rw [if_pos hz]
        exact ⟨_, rfl⟩
      · rw [if_neg hz]
        simp only [Bool.or_eq_true, not_or, Bool.not_eq_true] at hz
        rcases h with h | h | ⟨s, hs, hlt⟩ | ⟨e, he, hlt⟩
        · rw [hz.1] at h; cases h
        · rw [hz.2] at h; cases h
        · cases hend : set.Backup.GetEndTime with
          | none => rw [hend] at hz; simp [metaIsZero] at hz
          | some e =>
            simp only [hs]
            rw [if_pos (by simp [timeBefore, hlt])]
            exact ⟨_, rfl⟩
        · cases hstart : set.Backup.GetStartTime with
          | none => rw [hstart] at hz; simp [metaIsZero] at hz
          | some s =>
            simp only [he]
            rw [if_pos (by simp [timeAfter, hlt])]
            exact ⟨_, rfl⟩
    obtain ⟨msg, hc⟩ := hc
    refine ⟨msg, ?_⟩
    simp only [RestoreManager.restoreTime] at hc
    simp only [BuildContinuousRestoreManager, M.bind_def, getManager, hc]
    rfl
  · intro s e hs he hs0 he0 hlo hhi
    have hc : checkRestoreTime set.Backup (w.r.restoreTime d) = .ok () := by
      unfold checkRestoreTime
      simp only [hs, he, metaIsZero, timeIsZero, timeBefore, timeAfter]
      have h1 : (s == 0) = false := by simpa using hs0
      have h2 : (e == 0) = false := by simpa using he0
      have h3 : ¬ (w.r.restoreTime d < s) := not_lt.2 hlo
      have h4 : ¬ (e < w.r.restoreTime d) := not_lt.2 hhi
      simp [h1, h2, h3, h4]
    refine ⟨hc, ?_⟩
    intro actionSet restore has hres hreq
    simp only [RestoreManager.restoreTime] at hc
    simp only [BuildContinuousRestoreManager, M.bind_def, getManager, hc, has, hres, hreq,
      IsSetToFalse, if_true]
    rfl

theorem BuildContinuousRestoreManager_window_witness :
    ∃ msg, BuildContinuousRestoreManager exDeps exStoreB
        (exSet exC "continuous" BackupTypeContinuous) exWorldLate =
      some (.error (.fatal msg), exWorldLate) :=
  (BuildContinuousRestoreManager_window exDeps exStoreB
    (exSet exC "continuous" BackupTypeContinuous) exWorldLate).1
    (Or.inr (Or.inr (Or.inr ⟨1030, rfl, by decide⟩)))

/-- C6. Base selection for a continuous restore. The continuous backup has a start time,
the two listings return the completed Full and Incremental candidates, and `sort.Slice`
leaves a permutation of them ordered by a comparator that sorts by end time. When no
candidate has its end time between the continuous start and the restore time (bounds
included) the call returns a fatal error; otherwise it selects a candidate within these
bounds whose end time is the greatest among the candidates within them, and returns its set
as soon as its action set is read without error. -/
theorem getBaseBackupActionSetForContinuous_selects_latest (d : Deps) (cli : Client)
    (cont : Backup) (rt s0 : Time) (w w1 w2 : World) (full inc : List Backup)
    (hstart : cont.GetStartTime = some s0) (hs0 : s0 ≠ 0)
    (hfull : listCompletedBackups d cli cont BackupTypeFull w = some (.ok full, w1))
    (hinc : listCompletedBackups d cli cont BackupTypeIncremental w1 = some (.ok inc, w2))
    (hperm : (d.sortSlice (fun i j => d.CompareWithBackupStopTime j i) (full ++ inc)).Perm
      (full ++ inc))
    (hsorted : (d.sortSlice (fun i j => d.CompareWithBackupStopTime j i) (full ++ inc)).Pairwise
      (fun a b => d.CompareWithBackupStopTime a b = false))
    (hcmp : ∀ a b x y, a.GetEndTime = some x → b.GetEndTime = some y → x < y →
      d.CompareWithBackupStopTime a b = true) :
    ((∀ c ∈ full ++ inc, ¬ c.endsWithin s0 rt) →
      ∃ msg, getBaseBackupActionSetForContinuous d cli cont rt w =
        some (.error (.fatal msg), w2)) ∧
    ((∃ c ∈ full ++ inc, c.endsWithin s0 rt) →
      ∃ b eb, b ∈ full ++ inc ∧ b.GetEndTime = some eb ∧ s0 ≤ eb ∧ eb ≤ rt ∧
        (∀ c ∈ full ++ inc, ∀ ec, c.GetEndTime = some ec → s0 ≤ ec → ec ≤ rt → ec ≤ eb) ∧
        getBaseBackupActionSetForContinuous d cli cont rt w =
          some ((cli.actionSetByName b.actionSetName).map (baseSetOf b),
            w2.logged [.get "ActionSet" "" b.actionSetName])) := by
  have hzero : metaIsZero cont.GetStartTime = false := by
    rw [hstart]
    simpa [metaIsZero, timeIsZero] using hs0
  constructor
  · intro hnone
    apply getBase_none d cli cont rt w w1 w2 full inc hzero hfull hinc
    rw [List.find?_eq_none]
    intro x hx hcand
    exact hnone x (hperm.mem_iff.1 hx) ((isLatestBackupCandidate_iff cont x rt s0 hstart).1 hcand)
  · rintro ⟨c, hc, hcw⟩
    cases hfind : (d.sortSlice (fun i j => d.CompareWithBackupStopTime j i) (full ++ inc)).find?
        (isLatestBackupCandidate cont rt) with
    | none =>
      exfalso
      rw [List.find?_eq_none] at hfind
      exact hfind c (hperm.mem_iff.2 hc)
        ((isLatestBackupCandidate_iff cont c rt s0 hstart).2 hcw)
    | some b =>
      obtain ⟨hb1, hb2, hb3⟩ := find_first _ _ _ b hsorted hfind
      obtain ⟨eb, heb, hlo, hhi⟩ := (isLatestBackupCandidate_iff cont b rt s0 hstart).1 hb1
      refine ⟨b, eb, hperm.mem_iff.1 hb2, heb, hlo, hhi, ?_,
        getBase_some d cli cont rt w w1 w2 full inc b hzero hfull hinc hfind⟩
      intro c' hc' ec hec h1 h2
      rcases hb3 c' (hperm.mem_iff.2 hc')
        ((isLatestBackupCandidate_iff cont c' rt s0 hstart).2 ⟨ec, hec, h1, h2⟩) with h | h
      · rw [h, heb] at hec
        cases hec
        exact le_refl _
      · by_contra hlt
        rw [not_le] at hlt
        rw [hcmp b c' eb ec heb hec hlt] at h
        cases h

theorem getBaseBackupActionSetForContinuous_selects_latest_witness :
    (∃ b eb, b ∈ [exFO, exFB, exFL, exFB2] ++ [exIB] ∧ b.GetEndTime = some eb ∧
      (1000 : Time) ≤ eb ∧ eb ≤ 1020 ∧
      (∀ c ∈ [exFO, exFB, exFL, exFB2] ++ [exIB], ∀ ec, c.GetEndTime = some ec →
        (1000 : Time) ≤ ec → ec ≤ 1020 → ec ≤ eb) ∧
      getBaseBackupActionSetForContinuous exDeps exStoreF exC 1020 exWorld =
        some ((exStoreF.actionSetByName b.actionSetName).map (baseSetOf b),
          exWorldListed.logged [.get "ActionSet" "" b.actionSetName])) ∧
    getBaseBackupActionSetForContinuous exDeps exStoreF exC 1020 exWorld =
      some (.ok (exSet exFB2 "full" BackupTypeFull),
        exWorldListed.logged [.get "ActionSet" "" "full"]) :=
  ⟨(getBaseBackupActionSetForContinuous_selects_latest exDeps exStoreF exC 1020 1000 exWorld
    (exWorld.logged [.list "Backup" "default" (exLabels BackupTypeFull)]) exWorldListed
    [exFO, exFB, exFL, exFB2] [exIB] rfl (by decide) rfl rfl (by decide) (by decide)
    exDeps_compare).2 ⟨exIB, by simp, 1012, rfl, by decide, by decide⟩, rfl⟩

/-- C7. Scenario B generalised: the window check passes, the continuous action set
requires a base backup and carries no skip annotation, and the selected base is not
incremental. Then the call succeeds, sets the `BaseBackup` of the continuous set to the
selected base, and registers the base set before the continuous set: each bucket grows by
the sets among `[base, continuous]` routed to it, in this order. -/
theorem BuildContinuousRestoreManager_base_first (d : Deps) (cli : Client)
    (set base : BackupActionSet) (actionSet : ActionSet) (w w1 : World)
    (hcheck : checkRestoreTime set.Backup (w.r.restoreTime d) = .ok ())
    (has : set.ActionSet = some actionSet)
    (hreq : ∀ restore, actionSet.Spec.Restore = some restore →
      IsSetToFalse restore.BaseBackupRequired = false)
    (hskip : ∀ annotations, actionSet.Annotations = some annotations →
      StringMap.get annotations d.SkipBaseBackupRestoreInPitrAnnotationKey ≠ "true")
    (hbase : getBaseBackupActionSetForContinuous d cli set.Backup (w.r.restoreTime d) w =
      some (.ok base, w1))
    (hni : base.isIncremental = false) :
    ∃ w', BuildContinuousRestoreManager d cli set w = some (.ok (), w') ∧
      w'.r = w.r.SetBackupSets [base, { set with BaseBackup := some base.Backup }] ∧
      w'.r.PrepareDataBackupSets = w.r.PrepareDataBackupSets ++
        [base, { set with BaseBackup := some base.Backup }].filter (·.wantsPrepareData) ∧
      w'.r.PostReadyBackupSets = w.r.PostReadyBackupSets ++
        [base, { set with BaseBackup := some base.Backup }].filter
          (fun s => !s.UseVolumeSnapshot && s.declaresPostReady) := by
  obtain ⟨res, cs, hb, -⟩ := getBase_spec d cli set.Backup (w.r.restoreTime d) w
  rw [hbase] at hb
  simp only [Option.some.injEq, Prod.mk.injEq] at hb
  obtain ⟨-, hw1⟩ := hb
  have hnot : (match actionSet.Spec.Restore with
      | some restore => IsSetToFalse restore.BaseBackupRequired
      | none => false) = false := by
    cases hr : actionSet.Spec.Restore with
    | none => rfl
    | some restore => exact hreq restore hr
  have hsk : (match actionSet.Annotations with
      | some annotations =>
        StringMap.get annotations d.SkipBaseBackupRestoreInPitrAnnotationKey == "true"
      | none => false) = false := by
    cases ha : actionSet.Annotations with
    | none => rfl
    | some annotations => simpa using hskip annotations ha
  simp only [RestoreManager.restoreTime] at hcheck hbase
  refine ⟨{ w1 with r := w1.r.SetBackupSets [base, { set with BaseBackup := some base.Backup }] },
    ?_, ?_⟩
  · simp only [BuildContinuousRestoreManager, M.bind_def, getManager, hcheck, has, hnot,
      Bool.false_eq_true, if_false, hbase, hni, hsk, modifyManager]
  · have hr : w1.r = w.r := by rw [hw1]; rfl
    refine ⟨?_, ?_, ?_⟩
    · show w1.r.SetBackupSets _ = _
      rw [hr]
    · show (w1.r.SetBackupSets _).PrepareDataBackupSets = _
      rw [hr]
      exact (SetBackupSets_buckets _ w.r).1
    · show (w1.r.SetBackupSets _).PostReadyBackupSets = _
      rw [hr]
      exact (SetBackupSets_buckets _ w.r).2.1

theorem BuildContinuousRestoreManager_base_first_witness :
    ∃ w', BuildContinuousRestoreManager exDeps exStoreB
        (exSet exC "continuous" BackupTypeContinuous) exWorld = some (.ok (), w') ∧
      w'.r = exWorld.r.SetBackupSets [baseSetOf exFB (some (exActionSet "full" BackupTypeFull)),
        { exSet exC "continuous" BackupTypeContinuous with BaseBackup := some exFB }] ∧
      w'.r.PrepareDataBackupSets = exWorld.r.PrepareDataBackupSets ++
        [baseSetOf exFB (some (exActionSet "full" BackupTypeFull)),
          { exSet exC "continuous" BackupTypeContinuous with BaseBackup := some exFB }].filter
          (·.wantsPrepareData) ∧
      w'.r.PostReadyBackupSets = exWorld.r.PostReadyBackupSets ++
        [baseSetOf exFB (some (exActionSet "full" BackupTypeFull)),
          { exSet exC "continuous" BackupTypeContinuous with BaseBackup := some exFB }].filter
          (fun s => !s.UseVolumeSnapshot && s.declaresPostReady) :=
  BuildContinuousRestoreManager_base_first exDeps exStoreB
    (exSet exC "continuous" BackupTypeContinuous)
    (baseSetOf exFB (some (exActionSet "full" BackupTypeFull)))
    (exActionSet "continuous" BackupTypeContinuous) exWorld
    (exWorldListed.logged [.get "ActionSet" "" "full"])
    rfl rfl (by intro restore h; cases h; rfl) (by intro annotations h; cases h) rfl rfl

/-- C8. Atomicity of lineage resolution: when `BuildIncrementalBackupActionSet` or
`BuildContinuousRestoreManager` returns an error, the manager, its two buckets included, is
what it was before the call, no event was recorded, and the requests sent to the control
plane during the call are reads only: no create, delete or patch. -/
theorem lineage_resolution_atomic (d : Deps) (cli : Client) (set : BackupActionSet)
    (w w' : World) (e : Err)
    (h : BuildIncrementalBackupActionSet d cli set w = some (.error e, w') ∨
      BuildContinuousRestoreManager d cli set w = some (.error e, w')) :
    w'.r = w.r ∧ w'.r.PrepareDataBackupSets = w.r.PrepareDataBackupSets ∧
      w'.r.PostReadyBackupSets = w.r.PostReadyBackupSets ∧ w'.events = w.events ∧
      ∃ cs, w'.calls = w.calls ++ cs ∧ ∀ c ∈ cs, c.isWrite = false := by
  have key : ∃ cs, w' = w.logged cs ∧ ∀ c ∈ cs, c.isWrite = false := by
    rcases h with h | h
    · exact (build_error_spec d cli set w w' e h).2
    · exact buildContinuous_error_spec d cli set w w' e h
  obtain ⟨cs, hw, hreads⟩ := key
  subst hw
  exact ⟨rfl, rfl, rfl, rfl, cs, rfl, hreads⟩

theorem lineage_resolution_atomic_witness :
    exWorldCycle.r = exWorld.r ∧
      exWorldCycle.r.PrepareDataBackupSets = exWorld.r.PrepareDataBackupSets ∧
      exWorldCycle.r.PostReadyBackupSets = exWorld.r.PostReadyBackupSets ∧
      exWorldCycle.events = exWorld.events ∧
      ∃ cs, exWorldCycle.calls = exWorld.calls ++ cs ∧ ∀ c ∈ cs, c.isWrite = false :=
  lineage_resolution_atomic exDeps exCycleStore (exSet exA "incremental" BackupTypeIncremental)
    exWorld exWorldCycle (.fatal "backup \"B\" relies on child backup \"A\"") (Or.inl rfl)

/-! ## Stage classification: C9 and C10 -/

/-- C9. Prepare-data classification: `SetBackupSets` leaves the existing entries of
`PrepareDataBackupSets` in place and appends after them, once each and in argument order,
exactly the passed sets that use volume-snapshot restore or whose action set declares a
prepare-data action. -/
theorem SetBackupSets_prepareData_iff (r : RestoreManager) (backupSets : List BackupActionSet) :
    (r.SetBackupSets backupSets).PrepareDataBackupSets =
      r.PrepareDataBackupSets ++ backupSets.filter (·.wantsPrepareData) :=
  (SetBackupSets_buckets backupSets r).1

/-- C10, refuted as stated. A set that uses volume-snapshot restore and whose action set
declares a post-ready action is not appended to `PostReadyBackupSets`. -/
theorem SetBackupSets_postReady_snapshot_skipped :
    exSnapshotSet.declaresPostReady = true ∧ exSnapshotSet.UseVolumeSnapshot = true ∧
      (exManager.SetBackupSets [exSnapshotSet]).PostReadyBackupSets = [] ∧
      (exManager.SetBackupSets [exSnapshotSet]).PrepareDataBackupSets = [exSnapshotSet] := by
  decide

/-- C10, amended. `SetBackupSets` appends to `PostReadyBackupSets`, after the existing
entries and in argument order, exactly the passed sets that do not use volume-snapshot
restore and whose action set declares at least one post-ready action, whether or not the
set was also routed to the prepare-data bucket. -/
theorem SetBackupSets_postReady_iff (r : RestoreManager) (backupSets : List BackupActionSet) :
    (r.SetBackupSets backupSets).PostReadyBackupSets =
      r.PostReadyBackupSets ++
        backupSets.filter (fun s => !s.UseVolumeSnapshot && s.declaresPostReady) :=
  (SetBackupSets_buckets backupSets r).2.1

/-! ## Recalculation: C11 and C12 -/

theorem countFold_eq (actions : List RestoreStatusAction) (backupName actionName : String)
    (start : Int) :
    actions.foldl (fun (actionCount : Int) v =>
        if v.Name == actionName && v.BackupName == backupName then actionCount + 1
        else actionCount) start
      = start + ((actions.filter
          (fun v => v.Name == actionName && v.BackupName == backupName)).length : Int) := by
  induction actions generalizing start with
  | nil => simp
  | cons a rest ih =>
    simp only [List.foldl_cons, List.filter_cons]
    by_cases hm : (a.Name == actionName && a.BackupName == backupName) = true
    · rw [if_pos hm, if_pos hm, ih]
      simp only [List.length_cons]
      push_cast
      omega
    · rw [if_neg hm, if_neg hm, ih]

theorem Recalculation_serial (h : Helpers) (r : RestoreManager) (backupName actionName : String)
    (allActionsFinished existFailedAction : Bool)
    (hserial : h.IsSerialPolicy r.Restore.Spec.PrepareDataConfig = true) :
    Recalculation h r backupName actionName allActionsFinished existFailedAction =
      if existFailedAction then true
      else if (recordedCount r backupName actionName : Int) =
          h.GetRestoreActionsCountForPrepareData r.Restore.Spec.PrepareDataConfig then
        allActionsFinished
      else false := by
  unfold Recalculation recordedCount
  simp only [hserial, Bool.not_true, Bool.false_eq_true, ↓reduceIte, countFold_eq, zero_add]
  cases existFailedAction
  · simp only [Bool.false_eq_true, ↓reduceIte, bne_iff_ne, ne_eq, ite_not]
  · simp

/-- C11: under the Serial policy with a failed action, `Recalculation` leaves
`allActionsFinished` true, whatever it was and whatever the recorded actions are. -/
theorem Recalculation_serial_failure_finishes (h : Helpers) (r : RestoreManager)
    (backupName actionName : String) (allActionsFinished : Bool)
    (hserial : h.IsSerialPolicy r.Restore.Spec.PrepareDataConfig = true) :
    Recalculation h r backupName actionName allActionsFinished true = true := by
  rw [Recalculation_serial h r backupName actionName allActionsFinished true hserial]
  rfl

theorem Recalculation_serial_failure_finishes_witness :
    exHelpers.IsSerialPolicy (exCoordinator "Serial" 3 []).Restore.Spec.PrepareDataConfig = true ∧
    Recalculation exHelpers (exCoordinator "Serial" 3 []) "F" "prepareData" false true = true :=
  ⟨by decide, Recalculation_serial_failure_finishes exHelpers (exCoordinator "Serial" 3 [])
    "F" "prepareData" false (by decide)⟩

/-- C12: under the Serial policy with no failed action, `Recalculation` leaves
`allActionsFinished` true only if the number of recorded prepare-data actions of the action
and the backup equals the target count of the configuration; it leaves false whenever the
two differ, and the value it was given when they are equal. -/
theorem Recalculation_serial_static_count (h : Helpers) (r : RestoreManager)
    (backupName actionName : String) (allActionsFinished : Bool)
    (hserial : h.IsSerialPolicy r.Restore.Spec.PrepareDataConfig = true) :
    (Recalculation h r backupName actionName allActionsFinished false = true →
      (recordedCount r backupName actionName : Int) =
        h.GetRestoreActionsCountForPrepareData r.Restore.Spec.PrepareDataConfig) ∧
    ((recordedCount r backupName actionName : Int) ≠
        h.GetRestoreActionsCountForPrepareData r.Restore.Spec.PrepareDataConfig →
      Recalculation h r backupName actionName allActionsFinished false = false) ∧
    ((recordedCount r backupName actionName : Int) =
        h.GetRestoreActionsCountForPrepareData r.Restore.Spec.PrepareDataConfig →
      Recalculation h r backupName actionName allActionsFinished false = allActionsFinished) := by
  rw [Recalculation_serial h r backupName actionName allActionsFinished false hserial]
  simp only [Bool.false_eq_true, ↓reduceIte]
  refine ⟨?_, ?_, ?_⟩
  · intro hres
    by_contra hne
    rw [if_neg hne] at hres
    cases hres
  · intro hne
    rw [if_neg hne]
  · intro heq
    rw [if_pos heq]

theorem Recalculation_serial_static_count_witness :
    exHelpers.IsSerialPolicy (exCoordinator "Serial" 2
      [{ Name := "prepareData", BackupName := "F", ObjectKey := "Job/j0",
         Status := RestoreActionCompleted }]).Restore.Spec.PrepareDataConfig = true ∧
    Recalculation exHelpers (exCoordinator "Serial" 2
      [{ Name := "prepareData", BackupName := "F", ObjectKey := "Job/j0",
         Status := RestoreActionCompleted }]) "F" "prepareData" true false = false :=
  ⟨by decide, (Recalculation_serial_static_count exHelpers (exCoordinator "Serial" 2
      [{ Name := "prepareData", BackupName := "F", ObjectKey := "Job/j0",
         Status := RestoreActionCompleted }]) "F" "prepareData" true (by decide)).2.1 (by decide)⟩

/-! ## Annotations -/

theorem StringMap.get_set (m : StringMap) (k v : String) : StringMap.get (StringMap.set m k v) k = v := by
  induction m with
  | nil => simp [StringMap.set, StringMap.get]
  | cons a rest ih =>
    by_cases ha : a.1 = k
    · simp [StringMap.set, StringMap.get, ha]
    · have hne : (a.1 == k) = false := by simpa using ha
      by_cases hr : rest.any (fun kv => kv.1 == k) = true
      · have ih2 : StringMap.get (rest.map (fun kv => if kv.1 == k then (k, v) else kv)) k = v := by
          simpa [StringMap.set, hr] using ih
        have h1 : StringMap.set (a :: rest) k v =
            a :: rest.map (fun kv => if kv.1 == k then (k, v) else kv) := by
          simp only [StringMap.set, List.any_cons, hne, Bool.false_or, hr, ↓reduceIte, List.map_cons,
            Bool.false_eq_true]
        rw [h1]
        simp only [StringMap.get, List.find?_cons, hne] at ih2 ⊢
        exact ih2
      · have ih2 : StringMap.get (rest ++ [(k, v)]) k = v := by
          simpa [StringMap.set, hr] using ih
        have h1 : StringMap.set (a :: rest) k v = a :: (rest ++ [(k, v)]) := by
          simp only [StringMap.set, List.any_cons, hne, Bool.false_or, hr, ↓reduceIte,
            List.cons_append, Bool.false_eq_true]
        rw [h1]
        simp only [StringMap.get, List.find?_cons, hne] at ih2 ⊢
        exact ih2

theorem StringMap.has_set (m : StringMap) (k v : String) : StringMap.has (StringMap.set m k v) k = true := by
  unfold StringMap.has StringMap.set
  split
  · rename_i hany
    simp only [List.any_eq_true, List.mem_map] at hany ⊢
    obtain ⟨x, hx, hk⟩ := hany
    exact ⟨(k, v), ⟨x, hx, by simp [hk]⟩, by simp⟩
  · simp

theorem StringMap.find_set_other (m : StringMap) (k v k' : String) (hne : k' ≠ k) :
    (StringMap.set m k v).find? (fun kv => kv.1 == k') = m.find? (fun kv => kv.1 == k') := by
  have hkk : (k == k') = false := by simpa using (Ne.symm hne)
  unfold StringMap.set
  split
  · clear * - hkk
    induction m with
    | nil => simp
    | cons a rest ih =>
      simp only [List.map_cons, List.find?_cons]
      by_cases ha : a.1 = k
      · have h1 : (a.1 == k') = false := by rw [ha]; exact hkk
        simp only [ha, beq_self_eq_true, ↓reduceIte, hkk, h1]
        exact ih
      · have h1 : (a.1 == k) = false := by simpa using ha
        simp only [h1, Bool.false_eq_true, ↓reduceIte]
        rw [ih]
  · rw [List.find?_append]
    simp [hkk]

theorem StringMap.get_set_other (m : StringMap) (k v k' : String) (hne : k' ≠ k) :
    StringMap.get (StringMap.set m k v) k' = StringMap.get m k' := by
  unfold StringMap.get
  rw [StringMap.find_set_other m k v k' hne]

theorem StringMap.has_set_other (m : StringMap) (k v k' : String) (hne : k' ≠ k) :
    StringMap.has (StringMap.set m k v) k' = StringMap.has m k' := by
  have h := StringMap.find_set_other m k v k' hne
  unfold StringMap.has
  have h1 : ∀ l : StringMap, l.any (fun kv => kv.1 == k') = (l.find? (fun kv => kv.1 == k')).isSome := by
    intro l
    induction l with
    | nil => rfl
    | cons a rest ih =>
      simp only [List.any_cons, List.find?_cons]
      cases ha : a.1 == k' <;> simp [ih]
  rw [h1, h1, h]

theorem StringMap.set_set (m : StringMap) (k v : String) :
    StringMap.set (StringMap.set m k v) k v = StringMap.set m k v := by
  have hhas : (StringMap.set m k v).any (fun kv => kv.1 == k) = true := StringMap.has_set m k v
  have hall : ∀ kv ∈ StringMap.set m k v, kv.1 = k → kv = (k, v) := by
    intro kv hkv hk
    unfold StringMap.set at hkv
    split at hkv
    · simp only [List.mem_map] at hkv
      obtain ⟨x, -, hx⟩ := hkv
      by_cases hxk : x.1 = k
      · simp only [hxk, beq_self_eq_true, ↓reduceIte] at hx
        exact hx.symm
      · have h1 : (x.1 == k) = false := by simpa using hxk
        simp only [h1, Bool.false_eq_true, ↓reduceIte] at hx
        subst hx
        exact absurd hk hxk
    · rename_i hany
      simp only [List.mem_append, List.mem_singleton] at hkv
      rcases hkv with hkv | hkv
      · exfalso
        apply hany
        simp only [List.any_eq_true]
        exact ⟨kv, hkv, by simp [hk]⟩
      · exact hkv
  generalize StringMap.set m k v = m' at hhas hall
  unfold StringMap.set
  rw [if_pos hhas]
  conv_rhs => rw [← List.map_id m']
  apply List.map_congr_left
  intro kv hkv
  by_cases hk : kv.1 = k
  · simp only [hk, beq_self_eq_true, ↓reduceIte, id]
    exact (hall kv hkv hk).symm
  · have h1 : (kv.1 == k) = false := by simpa using hk
    simp only [h1, Bool.false_eq_true, ↓reduceIte, id]

theorem Pod.stopped_annotate (key : String) (p : Pod) :
    Pod.stopped key (p.annotate key "true") = true := by
  simp [Pod.stopped, Pod.annotate, StringMap.get_set, StringMap.has_set]

theorem Pod.annotate_annotate (key : String) (p : Pod) :
    (p.annotate key "true").annotate key "true" = p.annotate key "true" := by
  simp [Pod.annotate, StringMap.set_set]

theorem stopWhere_fields (key : String) (sel : String → String → Bool) (p : Pod) :
    (stopWhere key sel p).Namespace = p.Namespace ∧ (stopWhere key sel p).Name = p.Name ∧
    (stopWhere key sel p).Labels = p.Labels ∧
    (stopWhere key sel p).ContainerStatuses = p.ContainerStatuses := by
  unfold stopWhere
  split <;> simp [Pod.annotate]

theorem stopWhere_stopped (key : String) (sel : String → String → Bool) (p : Pod) :
    Pod.stopped key (stopWhere key sel p) = (Pod.stopped key p || sel p.Namespace p.Name) := by
  unfold stopWhere
  cases hs : sel p.Namespace p.Name
  · simp
  · simp [Pod.stopped_annotate]

theorem stopWhere_stopWhere (key : String) (s1 s2 : String → String → Bool) (p : Pod) :
    stopWhere key s2 (stopWhere key s1 p) = stopWhere key (fun ns name => s1 ns name || s2 ns name) p := by
  have hf := stopWhere_fields key s1 p
  unfold stopWhere at hf ⊢
  cases h1 : s1 p.Namespace p.Name <;> cases h2 : s2 p.Namespace p.Name <;>
    simp [h1, h2, Pod.annotate, StringMap.set_set]

theorem stopWhere_none (key : String) (p : Pod) : stopWhere key (fun _ _ => false) p = p := by
  simp [stopWhere]

theorem StopsTo.refl (key : String) (w : World) : StopsTo key (fun _ _ => false) w w := by
  refine ⟨?_, rfl, rfl, rfl⟩
  conv_lhs => rw [← List.map_id w.pods]
  apply List.map_congr_left
  intro p _
  simp [stopWhere]

theorem StopsTo.trans {key : String} {s1 s2 : String → String → Bool} {w w1 w2 : World}
    (h1 : StopsTo key s1 w w1) (h2 : StopsTo key s2 w1 w2) :
    StopsTo key (fun ns name => s1 ns name || s2 ns name) w w2 := by
  obtain ⟨a1, b1, c1, d1⟩ := h1
  obtain ⟨a2, b2, c2, d2⟩ := h2
  refine ⟨?_, b2.trans b1, c2.trans c1, d2.trans d1⟩
  rw [a2, a1, List.map_map]
  apply List.map_congr_left
  intro p _
  exact stopWhere_stopWhere key s1 s2 p

theorem StopsTo.mem {key : String} {sel : String → String → Bool} {w w' : World}
    (h : StopsTo key sel w w') {p' : Pod} (hp : p' ∈ w'.pods) :
    ∃ p ∈ w.pods, p' = stopWhere key sel p := by
  rw [h.1, List.mem_map] at hp
  obtain ⟨p, hp, rfl⟩ := hp
  exact ⟨p, hp, rfl⟩

theorem isPodOf_stopWhere (h : Helpers) (job : Job) (key : String) (sel : String → String → Bool)
    (p : Pod) : isPodOf h job (stopWhere key sel p) = isPodOf h job p := by
  obtain ⟨h1, -, h3, -⟩ := stopWhere_fields key sel p
  simp [isPodOf, h1, h3]
/-! ## Writing the stop marker -/

theorem PatchPodAnnotation_run (cli : Client) (ns name key : String) (w : World)
    (hf : cli.patchPodFault ns name = none) :
    ∃ res w', cli.PatchPodAnnotation ns name key "true" w = some (res, w') ∧
      (res = .ok () ∨ ∃ msg, res = .error (.notFound msg)) ∧
      StopsTo key (fun ns' name' => ns' == ns && name' == name) w w' ∧ w'.r = w.r ∧
      w'.calls = w.calls ++ [.patch "Pod" ns name] := by
  unfold Client.PatchPodAnnotation
  simp only [hf]
  by_cases hany : w.pods.any (fun p => p.Namespace == ns && p.Name == name) = true
  · simp only [hany, ↓reduceIte]
    exact ⟨_, _, rfl, Or.inl rfl, ⟨rfl, rfl, rfl, rfl⟩, rfl, rfl⟩
  · simp only [hany, Bool.false_eq_true, ↓reduceIte]
    refine ⟨_, _, rfl, Or.inr ⟨_, rfl⟩, ⟨?_, rfl, rfl, rfl⟩, rfl, rfl⟩
    show w.pods = w.pods.map _
    conv_lhs => rw [← List.map_id w.pods]
    apply List.map_congr_left
    intro p hp
    have hp2 : (p.Namespace == ns && p.Name == name) = false := by
      cases hq : (p.Namespace == ns && p.Name == name)
      · rfl
      · exact absurd (List.any_eq_true.mpr ⟨p, hp, hq⟩) hany
    simp [stopWhere, hp2]

theorem StopManagerContainer_stopped (h : Helpers) (cli : Client) (pod : Pod) (w : World)
    (hs : Pod.stopped h.DataProtectionStopRestoreManagerAnnotationKey pod = true) :
    StopManagerContainer h cli pod w = some (.ok (), w) := by
  unfold Pod.stopped at hs
  unfold StopManagerContainer
  simp only [hs, ↓reduceIte]
  rfl

theorem StopManagerContainer_patch (h : Helpers) (cli : Client) (pod : Pod) (w : World)
    (hs : Pod.stopped h.DataProtectionStopRestoreManagerAnnotationKey pod = false)
    (hf : cli.patchPodFault pod.Namespace pod.Name = none) :
    ∃ w', StopManagerContainer h cli pod w = some (.ok (), w') ∧
      StopsTo h.DataProtectionStopRestoreManagerAnnotationKey
        (fun ns name => ns == pod.Namespace && name == pod.Name) w w' ∧ w'.r = w.r ∧
      w'.calls = w.calls ++ [.patch "Pod" pod.Namespace pod.Name] := by
  obtain ⟨res, w', hrun, hres, hst, hr, hc⟩ := PatchPodAnnotation_run cli pod.Namespace pod.Name
    h.DataProtectionStopRestoreManagerAnnotationKey w hf
  unfold Pod.stopped at hs
  refine ⟨w', ?_, hst, hr, hc⟩
  unfold StopManagerContainer
  simp only [hs, Bool.false_eq_true, ↓reduceIte, M.bind_def, M.attempt, hrun]
  rcases hres with rfl | ⟨msg, rfl⟩ <;> rfl

/-- What `StopManagerContainer` does when no patch fails. -/
theorem StopManagerContainer_run (h : Helpers) (cli : Client) (pod : Pod) (w : World)
    (hf : ∀ ns name, cli.patchPodFault ns name = none) :
    ∃ sel w', StopManagerContainer h cli pod w = some (.ok (), w') ∧
      StopsTo h.DataProtectionStopRestoreManagerAnnotationKey sel w w' ∧
      ∀ ns name, sel ns name = true ↔
        (Pod.stopped h.DataProtectionStopRestoreManagerAnnotationKey pod = false ∧
          ns = pod.Namespace ∧ name = pod.Name) := by
  cases hs : Pod.stopped h.DataProtectionStopRestoreManagerAnnotationKey pod
  · obtain ⟨w', hrun, hst, -, -⟩ := StopManagerContainer_patch h cli pod w hs (hf _ _)
    exact ⟨_, w', hrun, hst, by simp⟩
  · exact ⟨_, w, StopManagerContainer_stopped h cli pod w hs, StopsTo.refl _ w, by simp⟩

theorem StopManagerContainers_run (h : Helpers) (cli : Client) (pods : List Pod) (w : World)
    (hf : ∀ ns name, cli.patchPodFault ns name = none) :
    ∃ sel w', StopManagerContainers h cli pods w = some (.ok (), w') ∧
      StopsTo h.DataProtectionStopRestoreManagerAnnotationKey sel w w' ∧
      ∀ ns name, sel ns name = true ↔
        ∃ pod ∈ pods, Pod.stopped h.DataProtectionStopRestoreManagerAnnotationKey pod = false ∧
          ns = pod.Namespace ∧ name = pod.Name := by
  induction pods generalizing w with
  | nil => exact ⟨_, w, rfl, StopsTo.refl _ w, by simp⟩
  | cons pod rest ih =>
    obtain ⟨s1, w1, hrun1, hst1, hs1⟩ := StopManagerContainer_run h cli pod w hf
    obtain ⟨s2, w2, hrun2, hst2, hs2⟩ := ih w1
    refine ⟨_, w2, ?_, hst1.trans hst2, ?_⟩
    · simp only [StopManagerContainers, M.bind_def, hrun1, hrun2]
    · intro ns name
      simp only [Bool.or_eq_true, hs1, hs2, List.mem_cons, exists_eq_or_imp]

theorem StopsTo.of_eq (key : String) {w w' : World} (hp : w'.pods = w.pods) (hj : w'.jobs = w.jobs)
    (hc : w'.pvcs = w.pvcs) (he : w'.events = w.events) : StopsTo key (fun _ _ => false) w w' := by
  refine ⟨?_, hj, hc, he⟩
  rw [hp]
  conv_lhs => rw [← List.map_id w.pods]
  apply List.map_congr_left
  intro p _
  simp [stopWhere]

theorem GetAssociatedPodsOfJob_run (h : Helpers) (cli : Client) (job : Job) (w : World)
    (hl : ∀ ns name, cli.listPodsFault ns name = none) :
    ∃ w', GetAssociatedPodsOfJob h cli job.Namespace job.Name w =
        some (.ok (w.pods.filter (isPodOf h job)), w') ∧
      StopsTo h.DataProtectionStopRestoreManagerAnnotationKey (fun _ _ => false) w w' ∧
      w'.r = w.r := by
  refine ⟨{ w with calls := w.calls ++ [.list "Pod" job.Namespace [("job-name", job.Name)]] }, ?_,
    StopsTo.of_eq _ rfl rfl rfl rfl, rfl⟩
  unfold GetAssociatedPodsOfJob
  simp only [hl]
  rfl

theorem StopManagerContainerByJob_run (h : Helpers) (cli : Client) (job : Job) (w : World)
    (hl : ∀ ns name, cli.listPodsFault ns name = none)
    (hf : ∀ ns name, cli.patchPodFault ns name = none) :
    ∃ sel w', StopManagerContainerByJob h cli job w = some (.ok (), w') ∧
      StopsTo h.DataProtectionStopRestoreManagerAnnotationKey sel w w' ∧
      ∀ pod ∈ w.pods, isPodOf h job pod = true →
        Pod.stopped h.DataProtectionStopRestoreManagerAnnotationKey pod = true ∨
          sel pod.Namespace pod.Name = true := by
  obtain ⟨w1, hrun1, hst1, -⟩ := GetAssociatedPodsOfJob_run h cli job w hl
  obtain ⟨s2, w2, hrun2, hst2, hs2⟩ := StopManagerContainers_run h cli (w.pods.filter (isPodOf h job)) w1 hf
  refine ⟨_, w2, ?_, hst1.trans hst2, ?_⟩
  · simp only [StopManagerContainerByJob, M.bind_def, hrun1, hrun2]
  · intro pod hpod hof
    cases hs : Pod.stopped h.DataProtectionStopRestoreManagerAnnotationKey pod
    · right
      simp only [Bool.false_or]
      exact (hs2 _ _).mpr ⟨pod, List.mem_filter.mpr ⟨hpod, hof⟩, hs, rfl, rfl⟩
    · exact Or.inl rfl

theorem stopManagerContainersByJobs_run (h : Helpers) (cli : Client) (jobs : List Job) (w : World)
    (hl : ∀ ns name, cli.listPodsFault ns name = none)
    (hf : ∀ ns name, cli.patchPodFault ns name = none) :
    ∃ sel w', stopManagerContainersByJobs h cli jobs w = some (.ok (), w') ∧
      StopsTo h.DataProtectionStopRestoreManagerAnnotationKey sel w w' ∧
      ∀ job ∈ jobs, ∀ pod ∈ w.pods, isPodOf h job pod = true →
        Pod.stopped h.DataProtectionStopRestoreManagerAnnotationKey pod = true ∨
          sel pod.Namespace pod.Name = true := by
  induction jobs generalizing w with
  | nil => exact ⟨_, w, rfl, StopsTo.refl _ w, by simp⟩
  | cons job rest ih =>
    obtain ⟨s1, w1, hrun1, hst1, hs1⟩ := StopManagerContainerByJob_run h cli job w hl hf
    obtain ⟨s2, w2, hrun2, hst2, hs2⟩ := ih w1
    refine ⟨_, w2, ?_, hst1.trans hst2, ?_⟩
    · simp only [stopManagerContainersByJobs, M.bind_def, hrun1, hrun2]
    · intro j hj pod hpod hof
      simp only [Bool.or_eq_true]
      rcases List.mem_cons.mp hj with rfl | hj
      · rcases hs1 pod hpod hof with h1 | h1
        · exact Or.inl h1
        · exact Or.inr (Or.inl h1)
      · have hmem : stopWhere h.DataProtectionStopRestoreManagerAnnotationKey s1 pod ∈ w1.pods := by
          rw [hst1.1]
          exact List.mem_map_of_mem _ hpod
        have hof2 : isPodOf h j (stopWhere h.DataProtectionStopRestoreManagerAnnotationKey s1 pod) = true := by
          rw [isPodOf_stopWhere]; exact hof
        have hf1 := stopWhere_fields h.DataProtectionStopRestoreManagerAnnotationKey s1 pod
        rcases hs2 j hj _ hmem hof2 with h2 | h2
        · rw [stopWhere_stopped, Bool.or_eq_true] at h2
          rcases h2 with h2 | h2
          · exact Or.inl h2
          · exact Or.inr (Or.inl h2)
        · rw [hf1.1, hf1.2.1] at h2
          exact Or.inr (Or.inr h2)
/-! ## The first loop of `CheckJobsDone` -/

theorem checkContainerStatuses_run (h : Helpers) (cli : Client) (pod : Pod)
    (statuses : List ContainerStatus) (normalTerminated : Bool) (w : World)
    (hf : ∀ ns name, cli.patchPodFault ns name = none) :
    ∃ sel w', checkContainerStatuses h cli pod statuses normalTerminated w =
        some (.ok (normalTerminated || statuses.any ContainerStatus.normal), w') ∧
      StopsTo h.DataProtectionStopRestoreManagerAnnotationKey sel w w' ∧
      ∀ ns name, sel ns name = true ↔
        (Pod.stopped h.DataProtectionStopRestoreManagerAnnotationKey pod = false ∧
          statuses.any ContainerStatus.abnormal = true ∧ ns = pod.Namespace ∧ name = pod.Name) := by
  induction statuses generalizing w normalTerminated with
  | nil => exact ⟨_, w, by simp [checkContainerStatuses, M.pure_def], StopsTo.refl _ w, by simp⟩
  | cons cs rest ih =>
    by_cases hname : cs.Name = RestoreContainer
    · cases hterm : cs.Terminated with
      | none =>
        obtain ⟨s, w', hrun, hst, hs⟩ := ih normalTerminated w
        refine ⟨s, w', ?_, hst, ?_⟩
        · simp only [checkContainerStatuses, hname, bne_self_eq_false, Bool.false_eq_true,
            ↓reduceIte, hterm, hrun, List.any_cons, ContainerStatus.normal]
          simp
        · intro ns name
          rw [hs]
          simp [ContainerStatus.abnormal, hterm]
      | some exitCode =>
        by_cases hcode : exitCode = 0
        · obtain ⟨s, w', hrun, hst, hs⟩ := ih true w
          refine ⟨s, w', ?_, hst, ?_⟩
          · simp only [checkContainerStatuses, hname, bne_self_eq_false, Bool.false_eq_true,
              ↓reduceIte, hterm, hcode, hrun, List.any_cons, ContainerStatus.normal]
            simp
          · intro ns name
            rw [hs]
            simp [ContainerStatus.abnormal, hterm, hcode]
        · obtain ⟨s1, w1, hrun1, hst1, hs1⟩ := StopManagerContainer_run h cli pod w hf
          obtain ⟨s2, w2, hrun2, hst2, hs2⟩ := ih normalTerminated w1
          have hne : (exitCode != 0) = true := by simpa using hcode
          have hb : (exitCode == 0) = false := by simpa using hcode
          refine ⟨_, w2, ?_, hst1.trans hst2, ?_⟩
          · simp only [checkContainerStatuses, hname, bne_self_eq_false, Bool.false_eq_true,
              ↓reduceIte, hterm, hne, M.bind_def, hrun1, hrun2, List.any_cons,
              ContainerStatus.normal]
            simp [hb]
          · intro ns name
            simp only [Bool.or_eq_true, hs1, hs2, List.any_cons, ContainerStatus.abnormal, hname,
              hterm, hne, beq_self_eq_true, Bool.and_self, Bool.true_or, true_and]
            tauto
    · have hne : (cs.Name != RestoreContainer) = true := by simpa using hname
      have hne2 : (cs.Name == RestoreContainer) = false := by simpa using hname
      obtain ⟨s, w', hrun, hst, hs⟩ := ih normalTerminated w
      refine ⟨s, w', ?_, hst, ?_⟩
      · simp only [checkContainerStatuses, hne, ↓reduceIte, hrun, List.any_cons,
          ContainerStatus.normal, hne2, Bool.false_and, Bool.false_or]
      · intro ns name
        rw [hs]
        simp [ContainerStatus.abnormal, hne2]

theorem checkPods_run (h : Helpers) (cli : Client) (pods : List Pod) (normalTerminated : Bool)
    (w : World) (hf : ∀ ns name, cli.patchPodFault ns name = none) :
    ∃ sel w', checkPods h cli pods normalTerminated w =
        some (.ok (normalTerminated ||
          pods.any (fun p => p.ContainerStatuses.any ContainerStatus.normal)), w') ∧
      StopsTo h.DataProtectionStopRestoreManagerAnnotationKey sel w w' ∧
      ∀ ns name, sel ns name = true ↔
        ∃ pod ∈ pods, Pod.stopped h.DataProtectionStopRestoreManagerAnnotationKey pod = false ∧
          pod.ContainerStatuses.any ContainerStatus.abnormal = true ∧
          ns = pod.Namespace ∧ name = pod.Name := by
  induction pods generalizing w normalTerminated with
  | nil => exact ⟨_, w, by simp [checkPods, M.pure_def], StopsTo.refl _ w, by simp⟩
  | cons pod rest ih =>
    obtain ⟨s1, w1, hrun1, hst1, hs1⟩ :=
      checkContainerStatuses_run h cli pod pod.ContainerStatuses normalTerminated w hf
    obtain ⟨s2, w2, hrun2, hst2, hs2⟩ :=
      ih (normalTerminated || pod.ContainerStatuses.any ContainerStatus.normal) w1
    refine ⟨_, w2, ?_, hst1.trans hst2, ?_⟩
    · simp only [checkPods, M.bind_def, hrun1, hrun2, List.any_cons, Bool.or_assoc]
    · intro ns name
      simp only [Bool.or_eq_true, hs1, hs2, List.mem_cons, exists_eq_or_imp]

theorem CheckIfRestoreContainerTerminated_run (h : Helpers) (cli : Client) (job : Job) (w : World)
    (hl : ∀ ns name, cli.listPodsFault ns name = none)
    (hf : ∀ ns name, cli.patchPodFault ns name = none) :
    ∃ sel w', CheckIfRestoreContainerTerminated h cli job w =
        some (.ok (restoreTerminatedNormally h w.pods job), w') ∧
      StopsTo h.DataProtectionStopRestoreManagerAnnotationKey sel w w' ∧
      ∀ ns name, sel ns name = true ↔
        ∃ pod ∈ w.pods, isPodOf h job pod = true ∧
          Pod.stopped h.DataProtectionStopRestoreManagerAnnotationKey pod = false ∧
          pod.ContainerStatuses.any ContainerStatus.abnormal = true ∧
          ns = pod.Namespace ∧ name = pod.Name := by
  obtain ⟨w1, hrun1, hst1, hr1⟩ := GetAssociatedPodsOfJob_run h cli job w hl
  by_cases hlen : (w.pods.filter (isPodOf h job)).length = 0
  · have hnil : w.pods.filter (isPodOf h job) = [] := List.length_eq_zero.mp hlen
    refine ⟨_, w1, ?_, hst1, ?_⟩
    · simp only [CheckIfRestoreContainerTerminated, M.bind_def, hrun1, hnil, List.length_nil,
        beq_self_eq_true, ↓reduceIte, M.pure_def, restoreTerminatedNormally, List.any_nil]
    · intro ns name
      simp only [Bool.false_eq_true, false_iff, not_exists, not_and]
      intro pod hpod hof
      have : pod ∈ w.pods.filter (isPodOf h job) := List.mem_filter.mpr ⟨hpod, hof⟩
      rw [hnil] at this
      cases this
  · obtain ⟨s2, w2, hrun2, hst2, hs2⟩ := checkPods_run h cli (w.pods.filter (isPodOf h job)) false w1 hf
    have hlen2 : ((w.pods.filter (isPodOf h job)).length == 0) = false := by simpa using hlen
    refine ⟨_, w2, ?_, hst1.trans hst2, ?_⟩
    · simp only [CheckIfRestoreContainerTerminated, M.bind_def, hrun1, hlen2, Bool.false_eq_true,
        ↓reduceIte, hrun2, Bool.false_or, restoreTerminatedNormally]
    · intro ns name
      simp only [Bool.false_or, hs2, List.mem_filter, and_assoc]

theorem restoreTerminatedNormally_stable (h : Helpers) (job : Job) {key : String}
    {sel : String → String → Bool} {w w' : World} (hst : StopsTo key sel w w') :
    restoreTerminatedNormally h w'.pods job = restoreTerminatedNormally h w.pods job := by
  unfold restoreTerminatedNormally
  rw [hst.1, List.filter_map, List.any_map]
  have h1 : (isPodOf h job ∘ stopWhere key sel) = isPodOf h job := by
    funext p
    exact isPodOf_stopWhere h job key sel p
  rw [h1]
  congr 1
  funext p
  simp only [Function.comp, (stopWhere_fields key sel p).2.2.2]

theorem jobCounted_stable (h : Helpers) (job : Job) {key : String}
    {sel : String → String → Bool} {w w' : World} (hst : StopsTo key sel w w') :
    jobCounted h w'.pods job = jobCounted h w.pods job := by
  unfold jobCounted
  rw [restoreTerminatedNormally_stable h job hst]

theorem StopsTo.pods_none {key : String} {w w' : World}
    (hst : StopsTo key (fun _ _ => false) w w') : w'.pods = w.pods := by
  rw [hst.1]
  conv_rhs => rw [← List.map_id w.pods]
  apply List.map_congr_left
  intro p _
  simp [stopWhere]

theorem setStatusAction_run (h : Helpers) (stage : String) (statusAction : RestoreStatusAction)
    (w : World) :
    ∃ w', setStatusAction h stage statusAction w = some (.ok (), w') ∧
      StopsTo h.DataProtectionStopRestoreManagerAnnotationKey (fun _ _ => false) w w' :=
  ⟨_, rfl, StopsTo.of_eq _ rfl rfl rfl rfl⟩

/-- One round of the first loop of `CheckJobsDone` when no request fails: what it counts and
the pods it writes the stop marker on. -/
theorem checkJob_run (h : Helpers) (cli : Client) (stage actionName : String)
    (backupSet : BackupActionSet) (job : Job) (p : JobsProgress) (w : World)
    (hl : ∀ ns name, cli.listPodsFault ns name = none)
    (hf : ∀ ns name, cli.patchPodFault ns name = none) :
    ∃ sel w' p', checkJob h cli stage actionName backupSet job p w = some (.ok p', w') ∧
      StopsTo h.DataProtectionStopRestoreManagerAnnotationKey sel w w' ∧
      p'.finishedCount = p.finishedCount + (if jobCounted h w.pods job then 1 else 0) ∧
      p'.allJobFinished = (p.allJobFinished && !jobUnfinished h job) ∧
      p'.existFailedJob = (p.existFailedJob || (h.IsJobFinished job).2 != "") ∧
      ∀ ns name, sel ns name = true ↔
        (jobUnfinished h job = true ∧
          ∃ pod ∈ w.pods, isPodOf h job pod = true ∧
            Pod.stopped h.DataProtectionStopRestoreManagerAnnotationKey pod = false ∧
            pod.ContainerStatuses.any ContainerStatus.abnormal = true ∧
            ns = pod.Namespace ∧ name = pod.Name) := by
  by_cases herr : (h.IsJobFinished job).2 = ""
  · have herr2 : ((h.IsJobFinished job).2 != "") = false := by simpa using herr
    cases hdone : (h.IsJobFinished job).1
    · obtain ⟨w1, hrun1, hst1⟩ := setStatusAction_run h stage
        { Name := actionName, ObjectKey := h.BuildJobKeyForActionStatus job.Name,
          BackupName := backupSet.Backup.Name, Status := RestoreActionProcessing } w
      obtain ⟨s2, w2, hrun2, hst2, hs2⟩ := CheckIfRestoreContainerTerminated_run h cli job w1 hl hf
      have hnt := restoreTerminatedNormally_stable h job hst1
      cases hn : restoreTerminatedNormally h w.pods job
      · refine ⟨_, w2, { p with allJobFinished := false }, ?_, hst1.trans hst2, ?_, ?_, ?_, ?_⟩
        · simp only [checkJob, herr2, Bool.false_eq_true, ↓reduceIte, hdone, M.bind_def, hrun1,
            hrun2, hnt, hn, M.pure_def]
        · simp [jobCounted, herr2, hdone, hn]
        · simp [jobUnfinished, herr, hdone]
        · simp [herr2]
        · intro ns name
          simp only [Bool.false_or, hs2, hst1.pods_none, jobUnfinished, herr, hdone,
            beq_self_eq_true, Bool.not_false, Bool.and_self, true_and]
      · refine ⟨_, w2, { p with allJobFinished := false, finishedCount := p.finishedCount + 1 },
          ?_, hst1.trans hst2, ?_, ?_, ?_, ?_⟩
        · simp only [checkJob, herr2, Bool.false_eq_true, ↓reduceIte, hdone, M.bind_def, hrun1,
            hrun2, hnt, hn, M.pure_def]
        · simp [jobCounted, herr2, hdone, hn]
        · simp [jobUnfinished, herr, hdone]
        · simp [herr2]
        · intro ns name
          simp only [Bool.false_or, hs2, hst1.pods_none, jobUnfinished, herr, hdone,
            beq_self_eq_true, Bool.not_false, Bool.and_self, true_and]
    · obtain ⟨w1, hrun1, hst1⟩ := setStatusAction_run h stage
        { Name := actionName, ObjectKey := h.BuildJobKeyForActionStatus job.Name,
          BackupName := backupSet.Backup.Name, Status := RestoreActionCompleted } w
      refine ⟨_, w1, { p with finishedCount := p.finishedCount + 1 }, ?_, hst1, ?_, ?_, ?_, ?_⟩
      · simp only [checkJob, herr2, Bool.false_eq_true, ↓reduceIte, hdone, M.bind_def, hrun1,
          M.pure_def]
      · simp [jobCounted, herr2, hdone]
      · simp [jobUnfinished, herr, hdone]
      · simp [herr2]
      · simp [jobUnfinished, herr, hdone]
  · have herr2 : ((h.IsJobFinished job).2 != "") = true := by simpa using herr
    obtain ⟨w1, hrun1, hst1⟩ := setStatusAction_run h stage
      { Name := actionName, ObjectKey := h.BuildJobKeyForActionStatus job.Name,
        BackupName := backupSet.Backup.Name, Status := RestoreActionFailed,
        Message := (h.IsJobFinished job).2 } w
    refine ⟨_, w1, { p with existFailedJob := true, finishedCount := p.finishedCount + 1 }, ?_,
      hst1, ?_, ?_, ?_, ?_⟩
    · simp only [checkJob, herr2, ↓reduceIte, M.bind_def, hrun1, M.pure_def]
    · simp [jobCounted, herr2]
    · simp [jobUnfinished, herr]
    · simp [herr2]
    · simp [jobUnfinished, herr]

theorem StopsTo.mem_map {key : String} {sel : String → String → Bool} {w w' : World}
    (hst : StopsTo key sel w w') {p : Pod} (hp : p ∈ w.pods) : stopWhere key sel p ∈ w'.pods := by
  rw [hst.1]
  exact List.mem_map_of_mem _ hp

/-- The first loop of `CheckJobsDone` when no request fails: what it counts and the pods it
writes the stop marker on. -/
theorem checkJobs_run (h : Helpers) (cli : Client) (stage actionName : String)
    (backupSet : BackupActionSet) (jobs : List Job) (p : JobsProgress) (w : World)
    (hl : ∀ ns name, cli.listPodsFault ns name = none)
    (hf : ∀ ns name, cli.patchPodFault ns name = none) :
    ∃ sel w' p', checkJobs h cli stage actionName backupSet jobs p w = some (.ok p', w') ∧
      StopsTo h.DataProtectionStopRestoreManagerAnnotationKey sel w w' ∧
      p'.finishedCount = p.finishedCount + (jobs.filter (jobCounted h w.pods)).length ∧
      p'.allJobFinished = (p.allJobFinished && jobs.all (fun j => !jobUnfinished h j)) ∧
      p'.existFailedJob = (p.existFailedJob || jobs.any (fun j => (h.IsJobFinished j).2 != "")) ∧
      (∀ ns name, sel ns name = true →
        ∃ job ∈ jobs, jobUnfinished h job = true ∧
          ∃ pod ∈ w.pods, isPodOf h job pod = true ∧
            pod.ContainerStatuses.any ContainerStatus.abnormal = true ∧
            ns = pod.Namespace ∧ name = pod.Name) ∧
      (∀ job ∈ jobs, jobUnfinished h job = true → ∀ pod ∈ w.pods, isPodOf h job pod = true →
        pod.ContainerStatuses.any ContainerStatus.abnormal = true →
        Pod.stopped h.DataProtectionStopRestoreManagerAnnotationKey pod = true ∨
          sel pod.Namespace pod.Name = true) := by
  induction jobs generalizing w p with
  | nil => exact ⟨_, w, p, rfl, StopsTo.refl _ w, by simp, by simp, by simp, by simp, by simp⟩
  | cons job rest ih =>
    obtain ⟨s1, w1, p1, hrun1, hst1, hc1, ha1, he1, hs1⟩ :=
      checkJob_run h cli stage actionName backupSet job p w hl hf
    obtain ⟨s2, w2, p2, hrun2, hst2, hc2, ha2, he2, hsound2, hcomp2⟩ := ih p1 w1
    refine ⟨_, w2, p2, ?_, hst1.trans hst2, ?_, ?_, ?_, ?_, ?_⟩
    · simp only [checkJobs, M.bind_def, hrun1, hrun2]
    · have hfilter : rest.filter (jobCounted h w1.pods) = rest.filter (jobCounted h w.pods) := by
        apply List.filter_congr
        intro j _
        exact jobCounted_stable h j hst1
      rw [hc2, hc1, hfilter, List.filter_cons]
      cases jobCounted h w.pods job
      · simp only [Bool.false_eq_true, ↓reduceIte]
        omega
      · simp only [↓reduceIte, List.length_cons]
        omega
    · rw [ha2, ha1, List.all_cons, Bool.and_assoc]
    · rw [he2, he1, List.any_cons, Bool.or_assoc]
    · intro ns name hsel
      simp only [Bool.or_eq_true] at hsel
      rcases hsel with hsel | hsel
      · obtain ⟨hu, pod, hpod, hof, -, hab, hns, hname⟩ := (hs1 ns name).mp hsel
        exact ⟨job, List.mem_cons_self _ _, hu, pod, hpod, hof, hab, hns, hname⟩
      · obtain ⟨j, hj, hu, pod1, hpod1, hof, hab, hns, hname⟩ := hsound2 ns name hsel
        obtain ⟨pod, hpod, rfl⟩ := hst1.mem hpod1
        have hfs := stopWhere_fields h.DataProtectionStopRestoreManagerAnnotationKey s1 pod
        refine ⟨j, List.mem_cons_of_mem _ hj, hu, pod, hpod, ?_, ?_, ?_, ?_⟩
        · rw [isPodOf_stopWhere] at hof; exact hof
        · rw [hfs.2.2.2] at hab; exact hab
        · rw [hns, hfs.1]
        · rw [hname, hfs.2.1]
    · intro j hj hu pod hpod hof hab
      simp only [Bool.or_eq_true]
      rcases List.mem_cons.mp hj with rfl | hj
      · cases hs : Pod.stopped h.DataProtectionStopRestoreManagerAnnotationKey pod
        · exact Or.inr (Or.inl ((hs1 _ _).mpr ⟨hu, pod, hpod, hof, hs, hab, rfl, rfl⟩))
        · exact Or.inl rfl
      · have hfs := stopWhere_fields h.DataProtectionStopRestoreManagerAnnotationKey s1 pod
        have hof2 : isPodOf h j (stopWhere h.DataProtectionStopRestoreManagerAnnotationKey s1 pod)
            = true := by rw [isPodOf_stopWhere]; exact hof
        have hab2 : (stopWhere h.DataProtectionStopRestoreManagerAnnotationKey s1
            pod).ContainerStatuses.any ContainerStatus.abnormal = true := by
          rw [hfs.2.2.2]; exact hab
        rcases hcomp2 j hj hu _ (hst1.mem_map hpod) hof2 hab2 with h2 | h2
        · rw [stopWhere_stopped, Bool.or_eq_true] at h2
          rcases h2 with h2 | h2
          · exact Or.inl h2
          · exact Or.inr (Or.inl h2)
        · rw [hfs.1, hfs.2.1] at h2
          exact Or.inr (Or.inr h2)

/-- The function `CheckJobsDone` when no request fails: it releases the barrier exactly when
every job is counted. -/
theorem CheckJobsDone_run (h : Helpers) (cli : Client) (stage actionName : String)
    (backupSet : BackupActionSet) (fetchedJobs : List Job) (w : World)
    (hl : ∀ ns name, cli.listPodsFault ns name = none)
    (hf : ∀ ns name, cli.patchPodFault ns name = none) :
    ∃ sel w', CheckJobsDone h cli stage actionName backupSet fetchedJobs w =
        some (.ok (fetchedJobs.all (fun j => !jobUnfinished h j),
          fetchedJobs.any (fun j => (h.IsJobFinished j).2 != "")), w') ∧
      StopsTo h.DataProtectionStopRestoreManagerAnnotationKey sel w w' ∧
      (∀ job ∈ fetchedJobs, jobUnfinished h job = true → ∀ pod ∈ w.pods, isPodOf h job pod = true →
        pod.ContainerStatuses.any ContainerStatus.abnormal = true →
        Pod.stopped h.DataProtectionStopRestoreManagerAnnotationKey pod = true ∨
          sel pod.Namespace pod.Name = true) ∧
      ((∀ job ∈ fetchedJobs, jobCounted h w.pods job = true) →
        ∀ job ∈ fetchedJobs, ∀ pod ∈ w.pods, isPodOf h job pod = true →
          Pod.stopped h.DataProtectionStopRestoreManagerAnnotationKey pod = true ∨
            sel pod.Namespace pod.Name = true) ∧
      ((∃ job ∈ fetchedJobs, jobCounted h w.pods job = false) →
        ∀ ns name, sel ns name = true →
          ∃ job ∈ fetchedJobs, jobUnfinished h job = true ∧
            ∃ pod ∈ w.pods, isPodOf h job pod = true ∧
              pod.ContainerStatuses.any ContainerStatus.abnormal = true ∧
              ns = pod.Namespace ∧ name = pod.Name) := by
  obtain ⟨s1, w1, p1, hrun1, hst1, hc1, ha1, he1, hsound1, hcomp1⟩ :=
    checkJobs_run h cli stage actionName backupSet fetchedJobs {} w hl hf
  have ha : p1.allJobFinished = fetchedJobs.all (fun j => !jobUnfinished h j) := by
    rw [ha1]; rfl
  have he : p1.existFailedJob = fetchedJobs.any (fun j => (h.IsJobFinished j).2 != "") := by
    rw [he1]; rfl
  have hc : p1.finishedCount = (fetchedJobs.filter (jobCounted h w.pods)).length := by
    rw [hc1]; show 0 + _ = _; omega
  by_cases hall : ∀ job ∈ fetchedJobs, jobCounted h w.pods job = true
  · have hlen : p1.finishedCount = fetchedJobs.length := by
      rw [hc, List.filter_eq_self.mpr hall]
    obtain ⟨s2, w2, hrun2, hst2, hs2⟩ := stopManagerContainersByJobs_run h cli fetchedJobs w1 hl hf
    refine ⟨_, w2, ?_, hst1.trans hst2, ?_, ?_, ?_⟩
    · simp only [CheckJobsDone, M.bind_def, hrun1, hlen, beq_self_eq_true, ↓reduceIte, hrun2,
        M.pure_def, ha, he]
    · intro j hj hu pod hpod hof hab
      rcases hcomp1 j hj hu pod hpod hof hab with h1 | h1
      · exact Or.inl h1
      · exact Or.inr (by simp [h1])
    · intro _ j hj pod hpod hof
      have hfs := stopWhere_fields h.DataProtectionStopRestoreManagerAnnotationKey s1 pod
      have hof2 : isPodOf h j (stopWhere h.DataProtectionStopRestoreManagerAnnotationKey s1 pod)
          = true := by rw [isPodOf_stopWhere]; exact hof
      simp only [Bool.or_eq_true]
      rcases hs2 j hj _ (hst1.mem_map hpod) hof2 with h2 | h2
      · rw [stopWhere_stopped, Bool.or_eq_true] at h2
        rcases h2 with h2 | h2
        · exact Or.inl h2
        · exact Or.inr (Or.inl h2)
      · rw [hfs.1, hfs.2.1] at h2
        exact Or.inr (Or.inr h2)
    · rintro ⟨j, hj, hjc⟩
      rw [hall j hj] at hjc
      cases hjc
  · have hlen : (p1.finishedCount == fetchedJobs.length) = false := by
      rw [hc]
      have hlt : (fetchedJobs.filter (jobCounted h w.pods)).length < fetchedJobs.length := by
        rcases Nat.lt_or_ge (fetchedJobs.filter (jobCounted h w.pods)).length fetchedJobs.length
          with hlt | hge
        · exact hlt
        · exfalso
          apply hall
          exact List.filter_length_eq_length.mp
            (Nat.le_antisymm (List.length_filter_le _ _) hge)
      simp only [beq_eq_false_iff_ne, ne_eq]
      omega
    refine ⟨s1, w1, ?_, hst1, hcomp1, ?_, ?_⟩
    · simp only [CheckJobsDone, M.bind_def, hrun1, hlen, Bool.false_eq_true, ↓reduceIte,
        M.pure_def, ha, he]
    · intro hall2
      exact absurd hall2 hall
    · intro _
      exact hsound1
/-! ## The barrier and the stop marker: C15 to C17 -/

theorem storedPod_map_stopWhere (key : String) (sel : String → String → Bool) (pods : List Pod)
    (ns name : String) :
    storedPod (pods.map (stopWhere key sel)) ns name =
      (storedPod pods ns name).map (stopWhere key sel) := by
  unfold storedPod
  induction pods with
  | nil => rfl
  | cons p rest ih =>
    have hfs := stopWhere_fields key sel p
    simp only [List.map_cons, List.find?_cons, hfs.1, hfs.2.1]
    cases (p.Namespace == ns && p.Name == name)
    · exact ih
    · rfl

theorem storedPod_of_mem (pods : List Pod) (hnodup : (pods.map (fun p => (p.Namespace, p.Name))).Nodup)
    (q : Pod) (hq : q ∈ pods) : storedPod pods q.Namespace q.Name = some q := by
  unfold storedPod
  induction pods with
  | nil => cases hq
  | cons p rest ih =>
    simp only [List.map_cons, List.nodup_cons, List.mem_map, not_exists, not_and] at hnodup
    rcases List.mem_cons.mp hq with rfl | hq
    · simp
    · have hne : (p.Namespace == q.Namespace && p.Name == q.Name) = false := by
        cases hb : (p.Namespace == q.Namespace && p.Name == q.Name)
        · rfl
        · exfalso
          simp only [Bool.and_eq_true, beq_iff_eq] at hb
          exact hnodup.1 q hq (by rw [hb.1, hb.2])
      simp only [List.find?_cons, hne]
      exact ih hnodup.2 hq

theorem key_unique (pods : List Pod) (hnodup : (pods.map (fun p => (p.Namespace, p.Name))).Nodup)
    (p q : Pod) (hp : p ∈ pods) (hq : q ∈ pods) (hns : q.Namespace = p.Namespace)
    (hname : q.Name = p.Name) : p = q := by
  have h1 := storedPod_of_mem pods hnodup p hp
  have h2 := storedPod_of_mem pods hnodup q hq
  rw [hns, hname, h1] at h2
  exact Option.some.inj h2

/-- C15, as the code has it: with no failing request, when every fetched job is failed, is
completed, or has a pod whose `restore` container terminated with exit code 0,
`CheckJobsDone` returns and every stored pod of every fetched job carries the stop marker
afterwards. -/
theorem CheckJobsDone_barrier_release (h : Helpers) (cli : Client) (stage actionName : String)
    (backupSet : BackupActionSet) (fetchedJobs : List Job) (w : World)
    (hl : ∀ ns name, cli.listPodsFault ns name = none)
    (hf : ∀ ns name, cli.patchPodFault ns name = none)
    (hall : ∀ job ∈ fetchedJobs, jobCounted h w.pods job = true) :
    ∃ res w', CheckJobsDone h cli stage actionName backupSet fetchedJobs w = some (.ok res, w') ∧
      w'.pods.length = w.pods.length ∧
      ∀ job ∈ fetchedJobs, ∀ pod ∈ w'.pods, isPodOf h job pod = true →
        Pod.stopped h.DataProtectionStopRestoreManagerAnnotationKey pod = true := by
  obtain ⟨sel, w', hrun, hst, -, hrel, -⟩ :=
    CheckJobsDone_run h cli stage actionName backupSet fetchedJobs w hl hf
  refine ⟨_, w', hrun, ?_, ?_⟩
  · rw [hst.1, List.length_map]
  · intro job hjob pod' hpod' hof
    obtain ⟨pod, hpod, rfl⟩ := hst.mem hpod'
    rw [isPodOf_stopWhere] at hof
    rw [stopWhere_stopped, Bool.or_eq_true]
    exact hrel hall job hjob pod hpod hof

theorem CheckJobsDone_barrier_release_witness :
    ∃ res w', CheckJobsDone exHelpers exStore PrepareData "prepareData" (exSet exF "full" BackupTypeFull)
        [exJob "jA" true, exJob "jB" false]
        (exPodWorld [exPod "pA" "jA" (some 0), exPod "pB" "jB" (some 0)]) = some (.ok res, w') ∧
      w'.pods.length = (exPodWorld [exPod "pA" "jA" (some 0), exPod "pB" "jB" (some 0)]).pods.length ∧
      ∀ job ∈ [exJob "jA" true, exJob "jB" false], ∀ pod ∈ w'.pods, isPodOf exHelpers job pod = true →
        Pod.stopped exHelpers.DataProtectionStopRestoreManagerAnnotationKey pod = true :=
  CheckJobsDone_barrier_release exHelpers exStore PrepareData "prepareData"
    (exSet exF "full" BackupTypeFull) [exJob "jA" true, exJob "jB" false]
    (exPodWorld [exPod "pA" "jA" (some 0), exPod "pB" "jB" (some 0)])
    (fun _ _ => rfl) (fun _ _ => rfl) (by decide)

/-- C15, as the claim has it, fails: job `jA` is completed and the `restore` container of the
pod of job `jB` has terminated with exit code 1, so the primary work of every job has
terminated; `CheckJobsDone` writes the stop marker on the pod of `jB` only and leaves the pod
of `jA` without it. -/
theorem CheckJobsDone_abnormal_termination_not_counted :
    (exHelpers.IsJobFinished (exJob "jA" true)).1 = true ∧
    isPodOf exHelpers (exJob "jB" false) (exPod "pB" "jB" (some 1)) = true ∧
    (exPod "pB" "jB" (some 1)).ContainerStatuses.any ContainerStatus.restoreTerminated = true ∧
    isPodOf exHelpers (exJob "jA" true) (exPod "pA" "jA" (some 0)) = true ∧
    ∃ w', CheckJobsDone exHelpers exStore PrepareData "prepareData" (exSet exF "full" BackupTypeFull)
        [exJob "jA" true, exJob "jB" false]
        (exPodWorld [exPod "pA" "jA" (some 0), exPod "pB" "jB" (some 1)]) = some (.ok (false, false), w') ∧
      w'.pods = [exPod "pA" "jA" (some 0),
        (exPod "pB" "jB" (some 1)).annotate exHelpers.DataProtectionStopRestoreManagerAnnotationKey "true"] ∧
      Pod.stopped exHelpers.DataProtectionStopRestoreManagerAnnotationKey (exPod "pA" "jA" (some 0)) = false := by
  refine ⟨by decide, by decide, by decide, by decide, _, rfl, by decide, by decide⟩

/-- C16: with no failing request and pods stored under distinct names, for a fetched job that
is neither completed nor failed and a pod of it whose `restore` container terminated with a
non-zero exit code, `CheckJobsDone` returns and the stored pod carries the stop marker
afterwards, whatever the other fetched jobs are; and the pods of a fetched sibling that is
neither completed nor failed and has no terminated `restore` container are stored as they
were. -/
theorem CheckJobsDone_proactive_teardown (h : Helpers) (cli : Client) (stage actionName : String)
    (backupSet : BackupActionSet) (fetchedJobs : List Job) (w : World) (job : Job) (pod : Pod)
    (hl : ∀ ns name, cli.listPodsFault ns name = none)
    (hf : ∀ ns name, cli.patchPodFault ns name = none)
    (hnodup : (w.pods.map (fun p => (p.Namespace, p.Name))).Nodup)
    (hjob : job ∈ fetchedJobs) (hunfinished : jobUnfinished h job = true)
    (hpod : pod ∈ w.pods) (hof : isPodOf h job pod = true)
    (habnormal : pod.ContainerStatuses.any ContainerStatus.abnormal = true) :
    ∃ res w', CheckJobsDone h cli stage actionName backupSet fetchedJobs w = some (.ok res, w') ∧
      (∃ pod', storedPod w'.pods pod.Namespace pod.Name = some pod' ∧
        Pod.stopped h.DataProtectionStopRestoreManagerAnnotationKey pod' = true ∧
        (pod' = pod ∨ pod' = pod.annotate h.DataProtectionStopRestoreManagerAnnotationKey "true")) ∧
      ∀ sibling ∈ fetchedJobs, jobUnfinished h sibling = true →
        (∀ q ∈ w.pods, isPodOf h sibling q = true →
          q.ContainerStatuses.any ContainerStatus.restoreTerminated = false) →
        ∀ q ∈ w.pods, isPodOf h sibling q = true → storedPod w'.pods q.Namespace q.Name = some q := by
  obtain ⟨sel, w', hrun, hst, hcomp, -, hsound⟩ :=
    CheckJobsDone_run h cli stage actionName backupSet fetchedJobs w hl hf
  refine ⟨_, w', hrun, ?_, ?_⟩
  · refine ⟨stopWhere h.DataProtectionStopRestoreManagerAnnotationKey sel pod, ?_, ?_, ?_⟩
    · rw [hst.1, storedPod_map_stopWhere, storedPod_of_mem w.pods hnodup pod hpod]
      rfl
    · rw [stopWhere_stopped, Bool.or_eq_true]
      exact hcomp job hjob hunfinished pod hpod hof habnormal
    · unfold stopWhere
      split
      · exact Or.inr rfl
      · exact Or.inl rfl
  · intro sibling hsibling hsu hrunning q hq hqof
    have hnotCounted : jobCounted h w.pods sibling = false := by
      simp only [jobUnfinished, Bool.and_eq_true, beq_iff_eq, Bool.not_eq_true'] at hsu
      have hn : restoreTerminatedNormally h w.pods sibling = false := by
        unfold restoreTerminatedNormally
        rw [Bool.eq_false_iff]
        intro hany
        obtain ⟨p, hp, hpn⟩ := List.any_eq_true.mp hany
        obtain ⟨hp1, hp2⟩ := List.mem_filter.mp hp
        obtain ⟨cs, hcs, hcsn⟩ := List.any_eq_true.mp hpn
        have hrt := hrunning p hp1 hp2
        rw [Bool.eq_false_iff] at hrt
        apply hrt
        refine List.any_eq_true.mpr ⟨cs, hcs, ?_⟩
        simp only [ContainerStatus.normal, Bool.and_eq_true, beq_iff_eq] at hcsn
        simp [ContainerStatus.restoreTerminated, hcsn.1, hcsn.2]
      simp [jobCounted, hsu.1, hsu.2, hn]
    have hsel : sel q.Namespace q.Name = false := by
      rw [Bool.eq_false_iff]
      intro hs
      obtain ⟨j, -, -, p, hp, -, hab, hns, hname⟩ := hsound ⟨sibling, hsibling, hnotCounted⟩ _ _ hs
      have hpq : p = q := key_unique w.pods hnodup p q hp hq hns hname
      subst hpq
      have hrt := hrunning p hq hqof
      rw [Bool.eq_false_iff] at hrt
      apply hrt
      obtain ⟨cs, hcs, hcsa⟩ := List.any_eq_true.mp hab
      refine List.any_eq_true.mpr ⟨cs, hcs, ?_⟩
      simp only [ContainerStatus.abnormal, Bool.and_eq_true, beq_iff_eq] at hcsa
      cases hterm : cs.Terminated with
      | none => rw [hterm] at hcsa; exact absurd hcsa.2 (by simp)
      | some c => simp [ContainerStatus.restoreTerminated, hcsa.1, hterm]
    rw [hst.1, storedPod_map_stopWhere, storedPod_of_mem w.pods hnodup q hq]
    simp [stopWhere, hsel]

theorem CheckJobsDone_proactive_teardown_witness :
    ∃ res w', CheckJobsDone exHelpers exStore PrepareData "prepareData" (exSet exF "full" BackupTypeFull)
        [exJob "jA" false, exJob "jB" false]
        (exPodWorld [exPod "pA" "jA" none, exPod "pB" "jB" (some 1)]) = some (.ok res, w') ∧
      (∃ pod', storedPod w'.pods (exPod "pB" "jB" (some 1)).Namespace (exPod "pB" "jB" (some 1)).Name
          = some pod' ∧
        Pod.stopped exHelpers.DataProtectionStopRestoreManagerAnnotationKey pod' = true ∧
        (pod' = exPod "pB" "jB" (some 1) ∨ pod' = (exPod "pB" "jB" (some 1)).annotate
          exHelpers.DataProtectionStopRestoreManagerAnnotationKey "true")) ∧
      ∀ sibling ∈ [exJob "jA" false, exJob "jB" false], jobUnfinished exHelpers sibling = true →
        (∀ q ∈ (exPodWorld [exPod "pA" "jA" none, exPod "pB" "jB" (some 1)]).pods,
          isPodOf exHelpers sibling q = true →
          q.ContainerStatuses.any ContainerStatus.restoreTerminated = false) →
        ∀ q ∈ (exPodWorld [exPod "pA" "jA" none, exPod "pB" "jB" (some 1)]).pods,
          isPodOf exHelpers sibling q = true → storedPod w'.pods q.Namespace q.Name = some q :=
  CheckJobsDone_proactive_teardown exHelpers exStore PrepareData "prepareData"
    (exSet exF "full" BackupTypeFull) [exJob "jA" false, exJob "jB" false]
    (exPodWorld [exPod "pA" "jA" none, exPod "pB" "jB" (some 1)]) (exJob "jB" false)
    (exPod "pB" "jB" (some 1)) (fun _ _ => rfl) (fun _ _ => rfl) (by decide) (by decide)
    (by decide) (by decide) (by decide) (by decide)

/-- C17: `StopManagerContainer` on a pod that carries the stop marker returns and leaves the
world as it is, with no request made. On a pod that does not, when the patch does not fail,
it returns after one patch; the stored pods of that namespace and name have the annotation
set to "true" and every other pod and everything else in the store is as before; running it
again, on the patched pod or on the same pod, leaves the stored pods as the first run left
them. The pod with the annotation set differs from the pod in that annotation only. -/
theorem StopManagerContainer_idempotent (h : Helpers) (cli : Client) (pod : Pod) (w : World)
    (hf : cli.patchPodFault pod.Namespace pod.Name = none) :
    (Pod.stopped h.DataProtectionStopRestoreManagerAnnotationKey pod = true →
      StopManagerContainer h cli pod w = some (.ok (), w)) ∧
    (Pod.stopped h.DataProtectionStopRestoreManagerAnnotationKey pod = false →
      ∃ w', StopManagerContainer h cli pod w = some (.ok (), w') ∧
        w'.calls = w.calls ++ [.patch "Pod" pod.Namespace pod.Name] ∧
        w'.pods = w.pods.map (fun p =>
          if p.Namespace == pod.Namespace && p.Name == pod.Name then
            p.annotate h.DataProtectionStopRestoreManagerAnnotationKey "true"
          else p) ∧
        w'.r = w.r ∧ w'.jobs = w.jobs ∧ w'.pvcs = w.pvcs ∧ w'.events = w.events ∧
        StopManagerContainer h cli
          (pod.annotate h.DataProtectionStopRestoreManagerAnnotationKey "true") w' = some (.ok (), w') ∧
        ∃ w'', StopManagerContainer h cli pod w' = some (.ok (), w'') ∧ w''.pods = w'.pods) ∧
    (∀ p : Pod,
      (p.annotate h.DataProtectionStopRestoreManagerAnnotationKey "true").Name = p.Name ∧
      (p.annotate h.DataProtectionStopRestoreManagerAnnotationKey "true").Namespace = p.Namespace ∧
      (p.annotate h.DataProtectionStopRestoreManagerAnnotationKey "true").Labels = p.Labels ∧
      (p.annotate h.DataProtectionStopRestoreManagerAnnotationKey "true").ContainerStatuses =
        p.ContainerStatuses ∧
      StringMap.get ((p.annotate h.DataProtectionStopRestoreManagerAnnotationKey "true").Annotations.getD [])
        h.DataProtectionStopRestoreManagerAnnotationKey = "true" ∧
      (∀ k, k ≠ h.DataProtectionStopRestoreManagerAnnotationKey →
        StringMap.get ((p.annotate h.DataProtectionStopRestoreManagerAnnotationKey "true").Annotations.getD []) k
          = StringMap.get (p.Annotations.getD []) k ∧
        StringMap.has ((p.annotate h.DataProtectionStopRestoreManagerAnnotationKey "true").Annotations.getD []) k
          = StringMap.has (p.Annotations.getD []) k) ∧
      (p.annotate h.DataProtectionStopRestoreManagerAnnotationKey "true").annotate
        h.DataProtectionStopRestoreManagerAnnotationKey "true" =
          p.annotate h.DataProtectionStopRestoreManagerAnnotationKey "true") := by
  refine ⟨StopManagerContainer_stopped h cli pod w, ?_, ?_⟩
  · intro hs
    obtain ⟨w', hrun, hst, hr, hc⟩ := StopManagerContainer_patch h cli pod w hs hf
    obtain ⟨w'', hrun2, hst2, -, -⟩ := StopManagerContainer_patch h cli pod w' hs hf
    refine ⟨w', hrun, hc, hst.1, hr, hst.2.1, hst.2.2.1, hst.2.2.2, ?_, w'', hrun2, ?_⟩
    · exact StopManagerContainer_stopped h cli _ w' (Pod.stopped_annotate _ pod)
    · rw [hst2.1]
      conv_rhs => rw [← List.map_id w'.pods]
      apply List.map_congr_left
      intro p' hp'
      obtain ⟨p, -, rfl⟩ := hst.mem hp'
      rw [stopWhere_stopWhere]
      simp only [Bool.or_self, id]
  · intro p
    refine ⟨rfl, rfl, rfl, rfl, ?_, ?_, Pod.annotate_annotate _ p⟩
    · simp [Pod.annotate, StringMap.get_set]
    · intro k hk
      simp [Pod.annotate, StringMap.get_set_other _ _ _ _ hk, StringMap.has_set_other _ _ _ _ hk]

theorem StopManagerContainer_idempotent_witness :
    Pod.stopped exHelpers.DataProtectionStopRestoreManagerAnnotationKey (exPod "pB" "jB" (some 1)) = false ∧
    ∃ w', StopManagerContainer exHelpers exStore (exPod "pB" "jB" (some 1))
          (exPodWorld [exPod "pA" "jA" none, exPod "pB" "jB" (some 1)]) = some (.ok (), w') ∧
      w'.pods = [exPod "pA" "jA" none, (exPod "pB" "jB" (some 1)).annotate
        exHelpers.DataProtectionStopRestoreManagerAnnotationKey "true"] :=
  ⟨by decide, by
    obtain ⟨w', hrun, -, hpods, -⟩ := (StopManagerContainer_idempotent exHelpers exStore
      (exPod "pB" "jB" (some 1)) (exPodWorld [exPod "pA" "jA" none, exPod "pB" "jB" (some 1)])
      rfl).2.1 (by decide)
    exact ⟨w', hrun, by rw [hpods]; decide⟩⟩

/-! ## Submission: C13 and C14 -/

theorem GetJob_stored (cli : Client) (ns name : String) (w : World) (stored : Job)
    (hget : cli.getJobFault ns name = none) (hs : storedJob w.jobs ns name = some stored) :
    cli.GetJob ns name w = some (.ok stored, w.logged [.get "Job" ns name]) := by
  unfold storedJob at hs
  simp only [Client.GetJob, hget, hs, World.logged]

theorem GetJob_absent (cli : Client) (ns name : String) (w : World)
    (hget : cli.getJobFault ns name = none) (hs : storedJob w.jobs ns name = none) :
    ∃ msg, cli.GetJob ns name w = some (.error (.notFound msg), w.logged [.get "Job" ns name]) := by
  unfold storedJob at hs
  simp only [Client.GetJob, hget, hs, World.logged]
  exact ⟨_, rfl⟩

theorem createJobIfNotExist_stored (h : Helpers) (cli : Client) (ownerObj : OwnerObject)
    (obj stored : Job) (w : World) (hget : cli.getJobFault obj.Namespace obj.Name = none)
    (hs : storedJob w.jobs obj.Namespace obj.Name = some stored) :
    createJobIfNotExist h cli ownerObj obj w =
      some (.ok stored, w.logged [.get "Job" obj.Namespace obj.Name]) := by
  simp only [createJobIfNotExist, M.bind_def, M.attempt, GetJob_stored cli _ _ w stored hget hs,
    M.pure_def]

theorem storedJob_isSome_iff (jobs : List Job) (ns name : String) :
    (storedJob jobs ns name).isSome = jobs.any (fun j => j.Namespace == ns && j.Name == name) := by
  unfold storedJob
  induction jobs with
  | nil => rfl
  | cons j rest ih =>
    simp only [List.find?_cons, List.any_cons]
    cases (j.Namespace == ns && j.Name == name)
    · simpa using ih
    · rfl

theorem SetControllerReference_key (owner : OwnerObject) (job job' : Job)
    (hok : SetControllerReference owner job = .ok job') :
    job'.Namespace = job.Namespace ∧ job'.Name = job.Name := by
  unfold SetControllerReference at hok
  split at hok
  · cases hok
  · split at hok
    · cases hok
    · split at hok
      · cases hok
      · split at hok
        · dsimp only at hok
          split at hok
          · cases hok
          · cases hok; exact ⟨rfl, rfl⟩
        · cases hok; exact ⟨rfl, rfl⟩

/-- A round of `CreateJobsIfNotExist` that returns a job leaves the planned job stored and
removes no stored job. -/
theorem createJobIfNotExist_ok (h : Helpers) (cli : Client) (ownerObj : OwnerObject)
    (obj fetched : Job) (w w' : World) (hget : cli.getJobFault obj.Namespace obj.Name = none)
    (hrun : createJobIfNotExist h cli ownerObj obj w = some (.ok fetched, w')) :
    (storedJob w'.jobs obj.Namespace obj.Name).isSome = true ∧
    ∀ ns name, (storedJob w.jobs ns name).isSome = true → (storedJob w'.jobs ns name).isSome = true := by
  cases hs : storedJob w.jobs obj.Namespace obj.Name with
  | some stored =>
    rw [createJobIfNotExist_stored h cli ownerObj obj stored w hget hs] at hrun
    cases hrun
    exact ⟨by simp [World.logged, hs], fun _ _ hx => hx⟩
  | none =>
    obtain ⟨msg, hg⟩ := GetJob_absent cli _ _ w hget hs
    simp only [createJobIfNotExist, M.bind_def, M.attempt, hg] at hrun
    cases howned : (if ownerObj.Namespace == obj.Namespace then SetControllerReference ownerObj obj
        else Except.ok obj) with
    | error err =>
      rw [howned] at hrun
      cases hrun
    | ok obj' =>
      have hkey : obj'.Namespace = obj.Namespace ∧ obj'.Name = obj.Name := by
        split at howned
        · exact SetControllerReference_key _ _ _ howned
        · cases howned; exact ⟨rfl, rfl⟩
      rw [howned] at hrun
      simp only [M.bind_def, Client.CreateJob] at hrun
      cases hfault : cli.createJobFault obj' with
      | some err =>
        simp only [hfault, M.fail] at hrun
        cases hrun
      | none =>
        simp only [hfault, World.logged] at hrun
        by_cases hany : w.jobs.any (fun j => j.Namespace == obj'.Namespace && j.Name == obj'.Name) = true
        · simp only [hany, ↓reduceIte, recordEvent, M.pure_def] at hrun
          cases hrun
          refine ⟨?_, fun _ _ hx => hx⟩
          rw [storedJob_isSome_iff, ← hkey.1, ← hkey.2]
          exact hany
        · simp only [hany, Bool.false_eq_true, ↓reduceIte, recordEvent, M.pure_def] at hrun
          cases hrun
          refine ⟨?_, ?_⟩
          · rw [storedJob_isSome_iff]
            simp [hkey.1, hkey.2]
          · intro ns name hx
            rw [storedJob_isSome_iff] at hx ⊢
            simp only [List.any_append, hx, Bool.true_or]

/-- A run of `CreateJobsIfNotExist` that returns leaves every planned job stored. -/
theorem CreateJobsIfNotExist_ok (h : Helpers) (cli : Client) (ownerObj : OwnerObject)
    (objs : List (Option Job)) (fetched : List Job) (w w' : World)
    (hget : ∀ obj, some obj ∈ objs → cli.getJobFault obj.Namespace obj.Name = none)
    (hrun : CreateJobsIfNotExist h cli ownerObj objs w = some (.ok fetched, w')) :
    (∀ obj, some obj ∈ objs → (storedJob w'.jobs obj.Namespace obj.Name).isSome = true) ∧
    ∀ ns name, (storedJob w.jobs ns name).isSome = true → (storedJob w'.jobs ns name).isSome = true := by
  induction objs generalizing w fetched with
  | nil =>
    cases hrun
    exact ⟨by simp, fun _ _ hx => hx⟩
  | cons o rest ih =>
    cases o with
    | none =>
      obtain ⟨h1, h2⟩ := ih fetched w (fun obj hobj => hget obj (List.mem_cons_of_mem _ hobj)) hrun
      refine ⟨?_, h2⟩
      intro obj hobj
      rcases List.mem_cons.mp hobj with hobj | hobj
      · cases hobj
      · exact h1 obj hobj
    | some obj =>
      simp only [CreateJobsIfNotExist, M.bind_def] at hrun
      cases hone : createJobIfNotExist h cli ownerObj obj w with
      | none => rw [hone] at hrun; cases hrun
      | some x =>
        obtain ⟨res, w1⟩ := x
        cases res with
        | error err => rw [hone] at hrun; cases hrun
        | ok fetchedJob =>
          rw [hone] at hrun
          simp only at hrun
          cases hrest : CreateJobsIfNotExist h cli ownerObj rest w1 with
          | none => rw [hrest] at hrun; cases hrun
          | some y =>
            obtain ⟨res2, w2⟩ := y
            cases res2 with
            | error err => rw [hrest] at hrun; cases hrun
            | ok fetchedJobs =>
              rw [hrest] at hrun
              simp only [M.pure_def, Option.some.injEq, Prod.mk.injEq, Except.ok.injEq] at hrun
              obtain ⟨-, rfl⟩ := hrun
              obtain ⟨a1, a2⟩ := createJobIfNotExist_ok h cli ownerObj obj fetchedJob w w1
                (hget obj (List.mem_cons_self _ _)) hone
              obtain ⟨b1, b2⟩ := ih fetchedJobs w1
                (fun obj hobj => hget obj (List.mem_cons_of_mem _ hobj)) hrest
              refine ⟨?_, fun ns name hx => b2 ns name (a2 ns name hx)⟩
              intro o ho
              rcases List.mem_cons.mp ho with ho | ho
              · cases ho
                exact b2 _ _ a1
              · exact b1 o ho

/-- A run of `CreateJobsIfNotExist` on planned jobs that are all stored returns the stored
jobs after reading each. -/
theorem CreateJobsIfNotExist_stored (h : Helpers) (cli : Client) (ownerObj : OwnerObject)
    (objs : List (Option Job)) (w : World)
    (hget : ∀ obj, some obj ∈ objs → cli.getJobFault obj.Namespace obj.Name = none)
    (hs : ∀ obj, some obj ∈ objs → (storedJob w.jobs obj.Namespace obj.Name).isSome = true) :
    CreateJobsIfNotExist h cli ownerObj objs w =
      some (.ok (objs.filterMap (fun o => o.bind (fun obj => storedJob w.jobs obj.Namespace obj.Name))),
        w.logged (objs.filterMap (fun o => o.map (fun obj => .get "Job" obj.Namespace obj.Name)))) := by
  induction objs generalizing w with
  | nil => simp [CreateJobsIfNotExist, M.pure_def, World.logged]
  | cons o rest ih =>
    cases o with
    | none =>
      simp only [CreateJobsIfNotExist, List.filterMap_cons, Option.bind_none, Option.map_none']
      exact ih w (fun obj hobj => hget obj (List.mem_cons_of_mem _ hobj))
        (fun obj hobj => hs obj (List.mem_cons_of_mem _ hobj))
    | some obj =>
      obtain ⟨stored, hstored⟩ := Option.isSome_iff_exists.mp (hs obj (List.mem_cons_self _ _))
      have h1 := createJobIfNotExist_stored h cli ownerObj obj stored w
        (hget obj (List.mem_cons_self _ _)) hstored
      have h2 := ih (w.logged [.get "Job" obj.Namespace obj.Name])
        (fun obj hobj => hget obj (List.mem_cons_of_mem _ hobj))
        (fun obj hobj => hs obj (List.mem_cons_of_mem _ hobj))
      have hj : (w.logged [.get "Job" obj.Namespace obj.Name]).jobs = w.jobs := rfl
      rw [hj] at h2
      have hb : ((some obj).bind fun obj => storedJob w.jobs obj.Namespace obj.Name) = some stored :=
        hstored
      simp only [CreateJobsIfNotExist, M.bind_def, h1, h2, M.pure_def, List.filterMap_cons,
        Option.map_some', World.logged_logged, List.singleton_append]
      rw [hb]

/-- C13: a planned job whose namespace and name are stored, when the read does not fail,
makes the round of `CreateJobsIfNotExist` return the stored job after the one read: no
create request, no owner reference assigned, no event. Hence, when the reads do not fail, a
run of `CreateJobsIfNotExist` that returned is followed by a second run on the same planned
jobs that returns, sends reads only and leaves the store, the events and the manager as the
first run left them. -/
theorem CreateJobsIfNotExist_idempotent (h : Helpers) (cli : Client) (ownerObj : OwnerObject)
    (objs : List (Option Job)) (fetched : List Job) (w w1 : World)
    (hget : ∀ obj, some obj ∈ objs → cli.getJobFault obj.Namespace obj.Name = none)
    (hfirst : CreateJobsIfNotExist h cli ownerObj objs w = some (.ok fetched, w1)) :
    (∀ obj, some obj ∈ objs → ∀ (w0 : World) (stored : Job),
      storedJob w0.jobs obj.Namespace obj.Name = some stored →
      createJobIfNotExist h cli ownerObj obj w0 =
        some (.ok stored, w0.logged [.get "Job" obj.Namespace obj.Name])) ∧
    ∃ fetched' cs, CreateJobsIfNotExist h cli ownerObj objs w1 = some (.ok fetched', w1.logged cs) ∧
      (∀ c ∈ cs, c.isWrite = false) ∧
      fetched' = objs.filterMap (fun o => o.bind (fun obj => storedJob w1.jobs obj.Namespace obj.Name)) := by
  refine ⟨fun obj hobj w0 stored hs =>
    createJobIfNotExist_stored h cli ownerObj obj stored w0 (hget obj hobj) hs, ?_⟩
  obtain ⟨hall, -⟩ := CreateJobsIfNotExist_ok h cli ownerObj objs fetched w w1 hget hfirst
  refine ⟨_, _, CreateJobsIfNotExist_stored h cli ownerObj objs w1 hget hall, ?_, rfl⟩
  intro c hc
  simp only [List.mem_filterMap] at hc
  obtain ⟨o, -, ho⟩ := hc
  cases o with
  | none => cases ho
  | some obj =>
    simp only [Option.map_some', Option.some.injEq] at ho
    subst ho
    rfl

theorem CreateJobsIfNotExist_idempotent_witness :
    ∃ fetched' cs, CreateJobsIfNotExist exHelpers exStore exOwner
        [some (exJob "j0" false), none, some (exJob "j1" false)] exSubmitted
        = some (.ok fetched', exSubmitted.logged cs) ∧
      (∀ c ∈ cs, c.isWrite = false) ∧
      fetched' = [some (exJob "j0" false), none, some (exJob "j1" false)].filterMap
        (fun o => o.bind (fun obj => storedJob exSubmitted.jobs obj.Namespace obj.Name)) :=
  (CreateJobsIfNotExist_idempotent exHelpers exStore exOwner
    [some (exJob "j0" false), none, some (exJob "j1" false)]
    [{ exJob "j0" false with OwnerReferences := [controllerRef exOwner "Restore"] }, exJob "j1" true]
    (exJobWorld [exJob "j1" true]) exSubmitted (fun _ _ => rfl) rfl).2

theorem upsertOwnerRef_mem (ref : OwnerReference) (refs : List OwnerReference) :
    ref ∈ upsertOwnerRef ref refs := by
  unfold upsertOwnerRef
  split
  · rename_i hany
    obtain ⟨x, hx, hsame⟩ := List.any_eq_true.mp hany
    refine List.mem_map.mpr ⟨x, hx, ?_⟩
    have hsym : referSameObject x ref = true := by
      simp only [referSameObject, Bool.and_eq_true, beq_iff_eq] at hsame ⊢
      exact ⟨hsame.1.symm, hsame.2.symm⟩
    simp [hsym]
  · simp

theorem SetControllerReference_ok (owner : OwnerObject) (job : Job) (kind : String)
    (hns : owner.Namespace = job.Namespace) (hkind : owner.Kind = some kind)
    (hfree : ∀ existing, job.OwnerReferences.find? (·.Controller) = some existing →
      referSameObject existing (controllerRef owner kind) = true) :
    SetControllerReference owner job =
      .ok { job with
        OwnerReferences := upsertOwnerRef (controllerRef owner kind) job.OwnerReferences } := by
  unfold SetControllerReference
  have h1 : (owner.Namespace != "" && job.Namespace == "") = false := by
    rw [hns]
    by_cases hj : job.Namespace = "" <;> simp [hj]
  have h2 : (owner.Namespace != "" && owner.Namespace != job.Namespace) = false := by
    rw [hns]
    simp
  simp only [h1, h2, Bool.false_eq_true, ↓reduceIte, hkind]
  cases hfind : job.OwnerReferences.find? (·.Controller) with
  | none => rfl
  | some existing =>
    have := hfree existing hfind
    unfold controllerRef at this
    simp only [this, Bool.not_true, Bool.false_eq_true, ↓reduceIte]
    rfl

/-- The round of `CreateJobsIfNotExist` for a planned job that is not stored, when the read
and the create request do not fail and the owner reference, if one is due, can be set. -/
theorem createJobIfNotExist_absent (h : Helpers) (cli : Client) (ownerObj : OwnerObject)
    (obj created : Job) (w : World)
    (hget : cli.getJobFault obj.Namespace obj.Name = none)
    (habsent : storedJob w.jobs obj.Namespace obj.Name = none)
    (hcreate : cli.createJobFault created = none)
    (hkey : created.Namespace = obj.Namespace ∧ created.Name = obj.Name)
    (howned : (if ownerObj.Namespace == obj.Namespace then SetControllerReference ownerObj obj
      else Except.ok obj) = .ok created) :
    createJobIfNotExist h cli ownerObj obj w =
      some (.ok created,
        { w with
          calls := w.calls ++ [.get "Job" obj.Namespace obj.Name, .create "Job" obj.Namespace obj.Name],
          jobs := w.jobs ++ [created],
          events := w.events ++
            [{ eventtype := "Normal", reason := h.reasonCreateRestoreJob,
               message := "created job " ++ obj.Namespace ++ "/" ++ obj.Name }] }) := by
  obtain ⟨msg, hg⟩ := GetJob_absent cli _ _ w hget habsent
  have hany : (w.jobs.any fun j => j.Namespace == obj.Namespace && j.Name == obj.Name)
      = false := by
    rw [← storedJob_isSome_iff, habsent]
    rfl
  simp only [createJobIfNotExist, M.bind_def, M.attempt, hg]
  rw [howned]
  simp only [M.bind_def, Client.CreateJob, hcreate, World.logged, hany, Bool.false_eq_true,
    ↓reduceIte, recordEvent, M.pure_def, hkey.1, hkey.2, List.append_assoc, List.singleton_append]

/-- C14: for a planned job that is not stored, when the read and the create request do not
fail, the kind of the owner is known and the job has no other controller: if the owner is of
the namespace of the job, `CreateJobsIfNotExist` creates the planned job with the controller
reference of the owner put among its owner references and every other field as planned;
otherwise it creates the planned job as it is. -/
theorem createJobIfNotExist_owner_link (h : Helpers) (cli : Client) (ownerObj : OwnerObject)
    (obj : Job) (kind : String) (w : World)
    (hget : cli.getJobFault obj.Namespace obj.Name = none)
    (habsent : storedJob w.jobs obj.Namespace obj.Name = none)
    (hcreate : ∀ job, cli.createJobFault job = none)
    (hkind : ownerObj.Kind = some kind)
    (hfree : ∀ existing, obj.OwnerReferences.find? (·.Controller) = some existing →
      referSameObject existing (controllerRef ownerObj kind) = true) :
    (ownerObj.Namespace = obj.Namespace →
      (∃ w', createJobIfNotExist h cli ownerObj obj w =
          some (.ok { obj with
            OwnerReferences := upsertOwnerRef (controllerRef ownerObj kind) obj.OwnerReferences }, w') ∧
        w'.jobs = w.jobs ++ [{ obj with
            OwnerReferences := upsertOwnerRef (controllerRef ownerObj kind) obj.OwnerReferences }] ∧
        w'.calls = w.calls ++
          [.get "Job" obj.Namespace obj.Name, .create "Job" obj.Namespace obj.Name]) ∧
      controllerRef ownerObj kind ∈
        upsertOwnerRef (controllerRef ownerObj kind) obj.OwnerReferences) ∧
    (ownerObj.Namespace ≠ obj.Namespace →
      ∃ w', createJobIfNotExist h cli ownerObj obj w = some (.ok obj, w') ∧
        w'.jobs = w.jobs ++ [obj] ∧
        w'.calls = w.calls ++
          [.get "Job" obj.Namespace obj.Name, .create "Job" obj.Namespace obj.Name]) := by
  refine ⟨fun hns => ⟨⟨_, createJobIfNotExist_absent h cli ownerObj obj _ w hget habsent
      (hcreate _) ⟨rfl, rfl⟩ ?_, rfl, rfl⟩, upsertOwnerRef_mem _ _⟩,
    fun hns => ⟨_, createJobIfNotExist_absent h cli ownerObj obj obj w hget habsent
      (hcreate _) ⟨rfl, rfl⟩ ?_, rfl, rfl⟩⟩
  · have hb : (ownerObj.Namespace == obj.Namespace) = true := by simpa using hns
    simp only [hb, ↓reduceIte]
    exact SetControllerReference_ok ownerObj obj kind hns hkind hfree
  · have hb : (ownerObj.Namespace == obj.Namespace) = false := by simpa using hns
    simp only [hb, Bool.false_eq_true, ↓reduceIte]

theorem createJobIfNotExist_owner_link_witness :
    (∃ w', createJobIfNotExist exHelpers exStore exOwner (exJob "j0" false)
        (exJobWorld [exJob "j1" true]) =
        some (.ok { exJob "j0" false with
          OwnerReferences :=
            upsertOwnerRef (controllerRef exOwner "Restore") (exJob "j0" false).OwnerReferences }, w') ∧
      w'.jobs = (exJobWorld [exJob "j1" true]).jobs ++ [{ exJob "j0" false with
          OwnerReferences :=
            upsertOwnerRef (controllerRef exOwner "Restore") (exJob "j0" false).OwnerReferences }] ∧
      w'.calls = (exJobWorld [exJob "j1" true]).calls ++
        [.get "Job" (exJob "j0" false).Namespace (exJob "j0" false).Name,
         .create "Job" (exJob "j0" false).Namespace (exJob "j0" false).Name]) ∧
    controllerRef exOwner "Restore" ∈
      upsertOwnerRef (controllerRef exOwner "Restore") (exJob "j0" false).OwnerReferences :=
  (createJobIfNotExist_owner_link exHelpers exStore exOwner (exJob "j0" false) "Restore"
    (exJobWorld [exJob "j1" true]) rfl rfl (fun _ => rfl) rfl (by decide)).1 rfl

/-! ## Calls that return -/

theorem M.Yields.pure {α : Type} {a : α} {w : World} {P : α → Prop} (hp : P a) :
    M.Yields (Pure.pure a : M α) w P :=
  ⟨.ok a, w, rfl, rfl, fun v hv => by cases hv; exact hp⟩

theorem M.Yields.fail {α : Type} {e : Err} {w : World} {P : α → Prop} :
    M.Yields (M.fail e : M α) w P :=
  ⟨.error e, w, rfl, rfl, fun v hv => by cases hv⟩

theorem M.Yields.ofExcept {α : Type} {x : Except Err α} {w : World} {P : α → Prop}
    (hp : ∀ v, x = .ok v → P v) : M.Yields (M.ofExcept x) w P :=
  ⟨x, w, rfl, rfl, hp⟩

theorem M.Yields.bind {α β : Type} {x : M α} {f : α → M β} {w : World} {P : α → Prop}
    {Q : β → Prop} (hx : M.Yields x w P)
    (hf : ∀ v w1, w1.r = w.r → P v → M.Yields (f v) w1 Q) : M.Yields (x >>= f) w Q := by
  obtain ⟨res, w1, hrun, hr, hp⟩ := hx
  cases res with
  | error e => exact ⟨.error e, w1, by simp only [M.bind_def, hrun], hr, fun v hv => by cases hv⟩
  | ok v =>
    obtain ⟨res2, w2, hrun2, hr2, hq⟩ := hf v w1 hr (hp v rfl)
    exact ⟨res2, w2, by simp only [M.bind_def, hrun, hrun2], hr2.trans hr, hq⟩

theorem M.Yields.mono {α : Type} {x : M α} {w : World} {P Q : α → Prop} (hx : M.Yields x w P)
    (hpq : ∀ v, P v → Q v) : M.Yields x w Q := by
  obtain ⟨res, w1, hrun, hr, hp⟩ := hx
  exact ⟨res, w1, hrun, hr, fun v hv => hpq v (hp v hv)⟩

theorem M.Yields.attempt {α : Type} {x : M α} {w : World} {P : α → Prop} (hx : M.Yields x w P) :
    M.Yields x.attempt w (fun res => ∀ v, res = .ok v → P v) := by
  obtain ⟨res, w1, hrun, hr, hp⟩ := hx
  exact ⟨.ok res, w1, by simp only [M.attempt, hrun], hr, fun v hv => by cases hv; exact hp⟩

theorem M.Yields.of_frame {α : Type} {x : M α} {w : World}
    (hx : ∃ res w', x w = some (res, w') ∧ w'.r = w.r) : M.Yields x w (fun _ => True) := by
  obtain ⟨res, w1, hrun, hr⟩ := hx
  exact ⟨res, w1, hrun, hr, fun _ _ => trivial⟩

theorem getManager_yields (w : World) : M.Yields getManager w (fun r => r = w.r) :=
  ⟨.ok w.r, w, rfl, rfl, fun v hv => by cases hv; rfl⟩

theorem recordEvent_yields (e : Event) (w : World) : M.Yields (recordEvent e) w (fun _ => True) :=
  M.Yields.of_frame ⟨_, _, rfl, rfl⟩

theorem GetPVC_yields (cli : Client) (ns name : String) (w : World) :
    M.Yields (cli.GetPVC ns name) w (fun _ => True) := by
  apply M.Yields.of_frame
  unfold Client.GetPVC
  dsimp only
  split
  · exact ⟨_, _, rfl, rfl⟩
  · split
    · exact ⟨_, _, rfl, rfl⟩
    · exact ⟨_, _, rfl, rfl⟩

theorem CreatePVC_yields (cli : Client) (pvc : PersistentVolumeClaim) (w : World) :
    M.Yields (cli.CreatePVC pvc) w (fun _ => True) := by
  apply M.Yields.of_frame
  unfold Client.CreatePVC
  dsimp only
  split
  · exact ⟨_, _, rfl, rfl⟩
  · split
    · exact ⟨_, _, rfl, rfl⟩
    · exact ⟨_, _, rfl, rfl⟩

theorem GetBackupRepo_yields (cli : Client) (name : String) (w : World) :
    M.Yields (cli.GetBackupRepo name) w (fun _ => True) :=
  M.Yields.of_frame ⟨_, _, rfl, rfl⟩

theorem deleteRestoreJob_yields (h : Helpers) (cli : Client) (objectKey ns : String) (w : World) :
    M.Yields (deleteRestoreJob h cli objectKey ns) w (fun _ => True) := by
  apply M.Yields.of_frame
  unfold deleteRestoreJob
  dsimp only
  split
  · exact ⟨_, _, rfl, rfl⟩
  · exact ⟨_, _, rfl, rfl⟩

theorem createPVCIfNotExist_yields (h : Helpers) (cli : Client) (reqNamespace name : String)
    (labels : StringMap) (claimSpec : String) (w : World) :
    M.Yields (createPVCIfNotExist h cli reqNamespace name labels claimSpec) w (fun _ => True) := by
  unfold createPVCIfNotExist
  refine M.Yields.bind (GetPVC_yields cli reqNamespace name w).attempt ?_
  intro res w1 _ _
  cases res with
  | ok _ => exact M.Yields.pure trivial
  | error err =>
    cases err with
    | notFound msg =>
      refine M.Yields.bind (recordEvent_yields _ w1) ?_
      intro _ w2 _ _
      refine M.Yields.bind (CreatePVC_yields cli _ w2) ?_
      intro outcome w3 _ _
      cases outcome with
      | failed err => exact M.Yields.fail
      | created => exact M.Yields.pure trivial
      | alreadyExists => exact M.Yields.pure trivial
    | fatal msg => exact M.Yields.fail
    | api msg => exact M.Yields.fail
    | nilDereference => exact M.Yields.fail

/-! ## The builder and the planning loops -/

/-- The format of `builderRestoreJobName` joins its four operands by dashes behind
`restore-`. -/
theorem Sprintf_restoreJobName (stage uid backupName : String) (jobIndex : Int) :
    Sprintf "restore-%s-%s-%s-%d" [.str stage, .str uid, .str backupName, .int jobIndex] =
      "restore-" ++ stage ++ "-" ++ uid ++ "-" ++ backupName ++ "-" ++ formatInt jobIndex := by
  apply String.ext
  simp [Sprintf, sprintfBytes]

theorem builderRestoreJobName_eq (h : Helpers) (r : restoreJobBuilder) (jobIndex : Int) :
    r.builderRestoreJobName h jobIndex =
      if r.restore.UID.length < 8 then .error .nilDereference
      else
        .ok (h.cutJobName ("restore-" ++ toLower r.stage ++ "-" ++ prefixOf r.restore.UID 8 ++ "-"
          ++ r.backupSet.Backup.Name ++ "-" ++ formatInt jobIndex)) := by
  unfold restoreJobBuilder.builderRestoreJobName
  simp only [Sprintf_restoreJobName]

theorem IsFor_addToCommon {b : restoreJobBuilder} {restore : Restore} {stage : String}
    {backupSet : BackupActionSet} (hb : b.IsFor restore stage backupSet)
    (volume : Option Volume) (volumeMount : Option VolumeMount) :
    (b.addToCommonVolumesAndMounts volume volumeMount).IsFor restore stage backupSet := by
  unfold restoreJobBuilder.addToCommonVolumesAndMounts
  cases volume <;> cases volumeMount <;> exact hb

theorem IsFor_addToSpecific {b : restoreJobBuilder} {restore : Restore} {stage : String}
    {backupSet : BackupActionSet} (hb : b.IsFor restore stage backupSet)
    (volume : Option Volume) (volumeMount : Option VolumeMount) :
    (b.addToSpecificVolumesAndMounts volume volumeMount).IsFor restore stage backupSet := by
  unfold restoreJobBuilder.addToSpecificVolumesAndMounts
  cases volume <;> cases volumeMount <;> exact hb

theorem IsFor_addLabel {b : restoreJobBuilder} {restore : Restore} {stage : String}
    {backupSet : BackupActionSet} (hb : b.IsFor restore stage backupSet) (key value : String) :
    (b.addLabel key value).IsFor restore stage backupSet := by
  unfold restoreJobBuilder.addLabel
  split <;> exact hb

theorem IsFor_addLabels {restore : Restore} {stage : String} {backupSet : BackupActionSet}
    (labels : StringMap) (b : restoreJobBuilder) (hb : b.IsFor restore stage backupSet) :
    (labels.foldl (fun b kv => b.addLabel kv.1 kv.2) b).IsFor restore stage backupSet := by
  induction labels generalizing b with
  | nil => exact hb
  | cons kv rest ih => exact ih _ (IsFor_addLabel hb kv.1 kv.2)

theorem AddFinalizer_name (job : Job) (finalizer : String) :
    (AddFinalizer job finalizer).Name = job.Name := by
  unfold AddFinalizer
  split <;> rfl

theorem build_ok (h : Helpers) (b b' : restoreJobBuilder) (job : Job) (restore : Restore)
    (backupSet : BackupActionSet) (hb : b.IsFor restore PrepareData backupSet)
    (hbuild : b.build h = .ok (b', job)) :
    b'.IsFor restore PrepareData backupSet ∧
    job.Name = if b.jobName == "" then restoreJobNameOf h restore backupSet 0 else b.jobName := by
  obtain ⟨h1, h2, h3⟩ := hb
  unfold restoreJobBuilder.build at hbuild
  by_cases hname : b.jobName = ""
  · by_cases huid : b.restore.UID.length < 8
    · simp [hname, builderRestoreJobName_eq, huid, bind, Except.bind] at hbuild
    · cases hcfg : b.restore.Spec.PrepareDataConfig with
      | none =>
        simp [hname, h2, builderRestoreJobName_eq, huid, bind, Except.bind, hcfg,
          pure, Except.pure] at hbuild
      | some cfg =>
        simp only [hname, h2, builderRestoreJobName_eq, huid, bind, Except.bind,
          hcfg, pure, Except.pure, beq_self_eq_true, ↓reduceIte, Except.ok.injEq,
          Prod.mk.injEq] at hbuild
        obtain ⟨hb', hjob⟩ := hbuild
        subst hb' hjob
        refine ⟨⟨h1, rfl, h3⟩, ?_⟩
        rw [AddFinalizer_name]
        simp [restoreJobNameOf, h1, h3, hname]
  · have hne : (b.jobName == "") = false := by simpa using hname
    cases hcfg : b.restore.Spec.PrepareDataConfig with
    | none => simp [hne, h2, bind, Except.bind, hcfg, pure, Except.pure] at hbuild
    | some cfg =>
      simp only [hne, h2, bind, Except.bind, hcfg, pure, Except.pure, Bool.false_eq_true,
        ↓reduceIte, beq_self_eq_true, Except.ok.injEq, Prod.mk.injEq] at hbuild
      obtain ⟨hb', hjob⟩ := hbuild
      subst hb' hjob
      refine ⟨⟨h1, rfl, h3⟩, ?_⟩
      rw [AddFinalizer_name]
      show b.jobName = _
      rw [hne]
      rfl

theorem createPVCIfNotExistsAndBuildVolume_yields (h : Helpers) (cli : Client)
    (reqNamespace : String) (jobBuilder : restoreJobBuilder) (claim : RestoreVolumeClaim)
    (identifier : String) (w : World) :
    M.Yields (createPVCIfNotExistsAndBuildVolume h cli reqNamespace jobBuilder claim identifier) w
      (fun _ => True) := by
  unfold createPVCIfNotExistsAndBuildVolume
  refine M.Yields.bind (createPVCIfNotExist_yields h cli _ _ _ _ w) ?_
  intro _ w1 _ _
  exact M.Yields.ofExcept (fun _ _ => trivial)

theorem addVolumeClaims_yields (h : Helpers) (cli : Client) (reqNamespace : String)
    (claims : List RestoreVolumeClaim) (b : restoreJobBuilder) (w : World) (restore : Restore)
    (stage : String) (backupSet : BackupActionSet) (hb : b.IsFor restore stage backupSet) :
    M.Yields (addVolumeClaims h cli reqNamespace claims b) w
      (fun b' => b'.IsFor restore stage backupSet) := by
  induction claims generalizing b w with
  | nil => exact M.Yields.pure hb
  | cons claim rest ih =>
    unfold addVolumeClaims
    refine M.Yields.bind (createPVCIfNotExistsAndBuildVolume_yields h cli _ b claim _ w) ?_
    intro vm w1 _ _
    exact ih _ w1 (IsFor_addToCommon hb vm.1 vm.2)

theorem addTemplateClaims_yields (d : Deps) (h : Helpers) (cli : Client) (reqNamespace : String)
    (startingIndex i : Int) (templates : List RestoreVolumeClaim) (b : restoreJobBuilder)
    (w : World) (restore : Restore) (stage : String) (backupSet : BackupActionSet)
    (hb : b.IsFor restore stage backupSet) :
    M.Yields (addTemplateClaims d h cli reqNamespace startingIndex i templates b) w
      (fun b' => b'.IsFor restore stage backupSet) := by
  induction templates generalizing b w with
  | nil => exact M.Yields.pure hb
  | cons c rest ih =>
    unfold addTemplateClaims
    refine M.Yields.bind (createPVCIfNotExistsAndBuildVolume_yields h cli _ b _ _ w) ?_
    intro vm w1 _ _
    exact ih _ w1 (IsFor_addToSpecific (IsFor_addLabels _ b hb) vm.1 vm.2)

theorem serialOrder_yields (h : Helpers) (cli : Client)
    (restoreNamespace backupName actionName : String) (serial : Bool) (restoreJobReplicas : Int)
    (actions : List RestoreStatusAction) (currentOrder : Int) (w : World) :
    M.Yields (serialOrder h cli restoreNamespace backupName actionName serial restoreJobReplicas
        actions currentOrder) w
      (fun order => order = serialOrderOf backupName actionName restoreJobReplicas actions
        currentOrder) := by
  induction actions generalizing currentOrder w with
  | nil => exact M.Yields.pure rfl
  | cons action rest ih =>
    unfold serialOrder serialOrderOf
    split
    · exact ih currentOrder w
    · split
      · cases serial
        · refine M.Yields.bind (P := fun _ => True) (M.Yields.pure trivial) ?_
          intro _ w1 _ _
          exact ih _ w1
        · refine M.Yields.bind (deleteRestoreJob_yields h cli _ _ w) ?_
          intro _ w1 _ _
          exact ih _ w1
      · exact ih currentOrder w

theorem prepareDataJob_yields (d : Deps) (h : Helpers) (cli : Client) (reqNamespace : String)
    (prepareDataConfig : PrepareDataConfig) (target : BackupStatusTarget) (i : Int)
    (b : restoreJobBuilder) (w : World) (r : RestoreManager) (backupSet : BackupActionSet)
    (hr : w.r = r) (hb : b.IsFor r.Restore PrepareData backupSet) :
    M.Yields (prepareDataJob d h cli reqNamespace prepareDataConfig target i b) w
      (fun round => round.1.IsFor r.Restore PrepareData backupSet ∧
        round.2.map (·.Name) =
          (if appendsJob h r prepareDataConfig backupSet target i then
            some (prepareDataJobName h r.Restore backupSet i)
          else none) ∧
        ∃ name, h.GetSourcePodNameFromTarget target
          prepareDataConfig.RequiredPolicyForAllPodSelection i = .ok name) := by
  have tail : ∀ (b1 : restoreJobBuilder) (w1 : World), w1.r = r →
      b1.IsFor r.Restore PrepareData backupSet →
      M.Yields (do
        let sourceTargetPodName ← M.ofExcept
          (h.GetSourcePodNameFromTarget target prepareDataConfig.RequiredPolicyForAllPodSelection i)
        if target.Strategy == PodSelectionStrategyAll && sourceTargetPodName == "" then
          pure (b1, none)
        else do
          let jobName ← M.ofExcept (b1.builderRestoreJobName h i)
          let built ← M.ofExcept (((b1.setJobName jobName).addCommonEnv h sourceTargetPodName).build h)
          let r ← getManager
          if h.IsSerialPolicy (some prepareDataConfig) &&
              restoreJobHasCompleted h r.Restore.Status.Actions.PrepareData built.2.Name then
            pure (built.1, none)
          else pure (built.1, some built.2)) w1
        (fun round => round.1.IsFor r.Restore PrepareData backupSet ∧
          round.2.map (·.Name) =
            (if appendsJob h r prepareDataConfig backupSet target i then
              some (prepareDataJobName h r.Restore backupSet i)
            else none) ∧
          ∃ name, h.GetSourcePodNameFromTarget target
            prepareDataConfig.RequiredPolicyForAllPodSelection i = .ok name) := by
    intro b1 w1 hr1 hb1
    refine M.Yields.bind (M.Yields.ofExcept (P := fun name =>
      h.GetSourcePodNameFromTarget target prepareDataConfig.RequiredPolicyForAllPodSelection i
        = .ok name) (fun _ hv => hv)) ?_
    intro name w2 hr2 hsource
    by_cases hall : (target.Strategy == PodSelectionStrategyAll && name == "") = true
    · simp only [hall, ↓reduceIte]
      refine M.Yields.pure ⟨hb1, ?_, name, hsource⟩
      simp [appendsJob, hsource, hall]
    · have hall2 : (target.Strategy == PodSelectionStrategyAll && name == "") = false := by
        simpa using hall
      simp only [hall2, Bool.false_eq_true, ↓reduceIte]
      refine M.Yields.bind (M.Yields.ofExcept (P := fun jobName =>
        jobName = restoreJobNameOf h r.Restore backupSet i) ?_) ?_
      · intro jobName hjob
        rw [builderRestoreJobName_eq] at hjob
        split at hjob
        · cases hjob
        · cases hjob
          simp [restoreJobNameOf, hb1.1, hb1.2.1, hb1.2.2]
      intro jobName w3 hr3 hjobName
      refine M.Yields.bind (M.Yields.ofExcept (P := fun built =>
        built.1.IsFor r.Restore PrepareData backupSet ∧
          built.2.Name = prepareDataJobName h r.Restore backupSet i) ?_) ?_
      · intro built hbuilt
        obtain ⟨b', job⟩ := built
        have := build_ok h _ b' job r.Restore backupSet
          (show ((b1.setJobName jobName).addCommonEnv h name).IsFor r.Restore PrepareData backupSet
            from hb1) hbuilt
        refine ⟨this.1, ?_⟩
        rw [this.2]
        show (if (jobName == "") = true then _ else jobName) = _
        rw [hjobName]
        rfl
      intro built w4 hr4 hbuilt
      refine M.Yields.bind (getManager_yields w4) ?_
      intro r' w5 hr5 hr'
      have hrr : r' = r := by
        rw [hr', hr4, hr3, hr2, hr1]
      subst hrr
      have happ : appendsJob h r' prepareDataConfig backupSet target i =
          !(h.IsSerialPolicy (some prepareDataConfig) &&
            restoreJobHasCompleted h r'.Restore.Status.Actions.PrepareData built.2.Name) := by
        simp [appendsJob, hsource, hall2, hbuilt.2]
      rw [happ]
      split
      · rename_i hc
        exact M.Yields.pure ⟨hbuilt.1, by simp [hc], name, hsource⟩
      · rename_i hc
        have hc2 : (h.IsSerialPolicy (some prepareDataConfig) &&
            restoreJobHasCompleted h r'.Restore.Status.Actions.PrepareData built.2.Name) = false := by
          simpa using hc
        exact M.Yields.pure ⟨hbuilt.1, by rw [hc2]; simp [hbuilt.2], name, hsource⟩
  have hb0 : ((b.resetSpecificVolumesAndMounts).resetSpecificLabels h).IsFor r.Restore PrepareData
      backupSet := hb
  unfold prepareDataJob
  dsimp only
  split
  · refine M.Yields.bind (addTemplateClaims_yields d h cli _ _ _ _ _ w _ _ _ hb0) ?_
    intro b1 w1 hr1 hb1
    exact tail b1 w1 (hr1.trans hr) hb1
  · refine M.Yields.bind (P := fun b' => b'.IsFor r.Restore PrepareData backupSet)
      (M.Yields.pure hb0) ?_
    intro b1 w1 hr1 hb1
    exact tail b1 w1 (hr1.trans hr) hb1

theorem prepareDataJobs_yields (d : Deps) (h : Helpers) (cli : Client) (reqNamespace : String)
    (prepareDataConfig : PrepareDataConfig) (target : BackupStatusTarget) (indices : List Int)
    (b : restoreJobBuilder) (w : World) (r : RestoreManager) (backupSet : BackupActionSet)
    (hr : w.r = r) (hb : b.IsFor r.Restore PrepareData backupSet) :
    M.Yields (prepareDataJobs d h cli reqNamespace prepareDataConfig target indices b) w
      (fun jobs => jobs.map (·.Name) =
        (indices.filter (appendsJob h r prepareDataConfig backupSet target)).map
          (prepareDataJobName h r.Restore backupSet) ∧
        ∀ i ∈ indices, ∃ name, h.GetSourcePodNameFromTarget target
          prepareDataConfig.RequiredPolicyForAllPodSelection i = .ok name) := by
  induction indices generalizing b w with
  | nil => exact M.Yields.pure ⟨rfl, by simp⟩
  | cons i rest ih =>
    unfold prepareDataJobs
    refine M.Yields.bind
      (prepareDataJob_yields d h cli reqNamespace prepareDataConfig target i b w r backupSet hr hb) ?_
    intro round w1 hr1 hround
    refine M.Yields.bind (ih round.1 w1 (hr1.trans hr) hround.1) ?_
    intro jobs w2 _ hjobs
    have hname := hround.2.1
    have hsrc : ∀ j ∈ i :: rest, ∃ name, h.GetSourcePodNameFromTarget target
        prepareDataConfig.RequiredPolicyForAllPodSelection j = .ok name := by
      intro j hj
      rcases List.mem_cons.mp hj with rfl | hj
      · exact hround.2.2
      · exact hjobs.2 j hj
    cases hjob : round.2 with
    | some job =>
      refine M.Yields.pure ⟨?_, hsrc⟩
      rw [hjob] at hname
      cases happ : appendsJob h r prepareDataConfig backupSet target i
      · rw [happ] at hname
        simp at hname
      · rw [happ] at hname
        simp only [Option.map_some', ↓reduceIte, Option.some.injEq] at hname
        simp [List.filter_cons, happ, hname, hjobs.1]
    | none =>
      refine M.Yields.pure ⟨?_, hsrc⟩
      rw [hjob] at hname
      cases happ : appendsJob h r prepareDataConfig backupSet target i
      · simp [List.filter_cons, happ, hjobs.1]
      · rw [happ] at hname
        simp at hname

theorem prepareBackupRepo_yields (cli : Client) (backupSet : BackupActionSet) (w : World) :
    M.Yields (prepareBackupRepo cli backupSet) w (fun _ => True) := by
  unfold prepareBackupRepo
  split
  · refine M.Yields.bind (GetBackupRepo_yields cli _ w).attempt ?_
    intro res w1 _ _
    cases res with
    | ok repo => exact M.Yields.pure trivial
    | error err => cases err <;> exact M.Yields.fail
  · exact M.Yields.pure trivial

/-- The function `BuildPrepareDataJobs` returns, and the jobs it returns are those of the
indices below the number of rounds that the loop appends, in that order. -/
theorem BuildPrepareDataJobs_yields (d : Deps) (h : Helpers) (cli : Client) (reqNamespace : String)
    (backupSet : BackupActionSet) (target : BackupStatusTarget) (actionName : String) (w : World)
    (prepareDataConfig : PrepareDataConfig)
    (hcfg : w.r.Restore.Spec.PrepareDataConfig = some prepareDataConfig)
    (hstage : HasPrepareDataStage backupSet.ActionSet = true) :
    M.Yields (BuildPrepareDataJobs d h cli reqNamespace backupSet target actionName) w
      (fun jobs => jobs.map (·.Name) =
        ((indicesBelow (jobRounds h w.r prepareDataConfig backupSet actionName)).filter
          (appendsJob h w.r prepareDataConfig backupSet target)).map
          (prepareDataJobName h w.r.Restore backupSet) ∧
        ∀ i ∈ indicesBelow (jobRounds h w.r prepareDataConfig backupSet actionName),
          ∃ name, h.GetSourcePodNameFromTarget target
            prepareDataConfig.RequiredPolicyForAllPodSelection i = .ok name) := by
  unfold BuildPrepareDataJobs
  refine M.Yields.bind (getManager_yields w) ?_
  intro r w1 hr1 hr
  subst hr
  simp only [hcfg, hstage, Bool.not_true, Bool.false_eq_true, ↓reduceIte]
  refine M.Yields.bind (prepareBackupRepo_yields cli backupSet w1) ?_
  intro backupRepo w2 hr2 _
  refine M.Yields.bind (M.Yields.ofExcept (P := fun _ => True) (fun _ _ => trivial)) ?_
  intro prepareData w3 hr3 _
  refine M.Yields.bind (addVolumeClaims_yields h cli reqNamespace _ _ w3 w.r.Restore PrepareData
    backupSet ⟨rfl, rfl, rfl⟩) ?_
  intro b w4 hr4 hb
  have hr04 : w4.r = w.r := by rw [hr4, hr3, hr2, hr1]
  unfold jobRounds
  split
  · refine M.Yields.bind (serialOrder_yields h cli _ _ _ _ _ _ _ w4) ?_
    intro n w5 hr5 hn
    subst hn
    exact prepareDataJobs_yields d h cli reqNamespace prepareDataConfig target _ b w5 w.r backupSet
      (hr5.trans hr04) hb
  · refine M.Yields.bind (P := fun n => n = h.GetRestoreActionsCountForPrepareData
      (some prepareDataConfig)) (M.Yields.pure rfl) ?_
    intro n w5 hr5 hn
    subst hn
    exact prepareDataJobs_yields d h cli reqNamespace prepareDataConfig target _ b w5 w.r backupSet
      (hr5.trans hr04) hb

theorem BuildPrepareDataJobs_nothing (d : Deps) (h : Helpers) (cli : Client) (reqNamespace : String)
    (backupSet : BackupActionSet) (target : BackupStatusTarget) (actionName : String) (w : World)
    (hnone : w.r.Restore.Spec.PrepareDataConfig = none ∨
      HasPrepareDataStage backupSet.ActionSet = false) :
    BuildPrepareDataJobs d h cli reqNamespace backupSet target actionName w = some (.ok [], w) := by
  unfold BuildPrepareDataJobs
  simp only [M.bind_def, getManager]
  rcases hnone with hnone | hnone
  · simp only [hnone, M.pure_def]
  · cases hcfg : w.r.Restore.Spec.PrepareDataConfig with
    | none => simp only [M.pure_def]
    | some cfg => simp only [hnone, Bool.not_false, ↓reduceIte, M.pure_def]

/-! ## Planning the prepare-data jobs: C18 to C20 -/

theorem serialOrderOf_completed (backupName actionName : String) (restoreJobReplicas : Int)
    (actions : List RestoreStatusAction) (currentOrder : Int)
    (hle : currentOrder ≤ restoreJobReplicas)
    (hall : ∀ a ∈ actions, a.BackupName = backupName → a.Name = actionName →
      a.Status = RestoreActionCompleted) :
    serialOrderOf backupName actionName restoreJobReplicas actions currentOrder =
      min (currentOrder + ((actions.filter
        (fun v => v.Name == actionName && v.BackupName == backupName)).length : Int))
        restoreJobReplicas := by
  induction actions generalizing currentOrder with
  | nil => simp [serialOrderOf, hle]
  | cons a rest ih =>
    have hrest : ∀ a ∈ rest, a.BackupName = backupName → a.Name = actionName →
        a.Status = RestoreActionCompleted := fun x hx => hall x (List.mem_cons_of_mem _ hx)
    unfold serialOrderOf
    by_cases hm : a.BackupName = backupName ∧ a.Name = actionName
    · have hskip : (a.BackupName != backupName || a.Name != actionName) = false := by
        simp [hm.1, hm.2]
      have hsel : (a.Name == actionName && a.BackupName == backupName) = true := by
        simp [hm.1, hm.2]
      have hdone : (a.Status == RestoreActionCompleted) = true := by
        simp [hall a (List.mem_cons_self _ _) hm.1 hm.2]
      simp only [hskip, Bool.false_eq_true, ↓reduceIte, hdone, Bool.true_and, decide_eq_true_eq,
        List.filter_cons, hsel, List.length_cons]
      by_cases hlt : currentOrder < restoreJobReplicas
      · rw [if_pos hlt, ih (currentOrder + 1) (by omega) hrest]
        push_cast
        congr 1
        omega
      · rw [if_neg hlt, ih currentOrder hle hrest]
        push_cast
        have : currentOrder = restoreJobReplicas := by omega
        subst this
        rw [min_eq_right (by omega), min_eq_right (by omega)]
    · have hskip : (a.BackupName != backupName || a.Name != actionName) = true := by
        simp only [Bool.or_eq_true, bne_iff_ne, ne_eq]
        by_contra hcon
        push_neg at hcon
        exact hm hcon
      have hsel : (a.Name == actionName && a.BackupName == backupName) = false := by
        rw [Bool.eq_false_iff]
        intro hcon
        simp only [Bool.and_eq_true, beq_iff_eq] at hcon
        exact hm ⟨hcon.2, hcon.1⟩
      simp only [hskip, ↓reduceIte, List.filter_cons, hsel, Bool.false_eq_true]
      exact ih currentOrder hle hrest

theorem filter_range_below (p : Nat → Bool) (k : Nat)
    (hbelow : ∀ i, i < k → p i = false) (hk : p k = true) :
    (List.range (k + 1)).filter p = [k] := by
  rw [List.range_succ, List.filter_append]
  have h1 : (List.range k).filter p = [] := by
    rw [List.filter_eq_nil_iff]
    intro i hi
    rw [List.mem_range] at hi
    simp [hbelow i hi]
  simp [h1, hk]

/-- C19: under the Serial policy `BuildPrepareDataJobs` returns, leaves the manager as it
is, and no job it returns has a name recorded Completed among the prepare-data actions of
the status of the restore. -/
theorem BuildPrepareDataJobs_no_completed_job (d : Deps) (h : Helpers) (cli : Client)
    (reqNamespace : String) (backupSet : BackupActionSet) (target : BackupStatusTarget)
    (actionName : String) (w : World)
    (hserial : h.IsSerialPolicy w.r.Restore.Spec.PrepareDataConfig = true) :
    ∃ res w', BuildPrepareDataJobs d h cli reqNamespace backupSet target actionName w =
        some (res, w') ∧ w'.r = w.r ∧
      ∀ jobs, res = .ok jobs → ∀ job ∈ jobs,
        restoreJobHasCompleted h w.r.Restore.Status.Actions.PrepareData job.Name = false := by
  cases hcfg : w.r.Restore.Spec.PrepareDataConfig with
  | none =>
    refine ⟨_, _, BuildPrepareDataJobs_nothing d h cli reqNamespace backupSet target actionName w
      (Or.inl hcfg), rfl, ?_⟩
    intro jobs hjobs job hjob
    cases hjobs
    cases hjob
  | some cfg =>
    cases hstage : HasPrepareDataStage backupSet.ActionSet with
    | false =>
      refine ⟨_, _, BuildPrepareDataJobs_nothing d h cli reqNamespace backupSet target actionName w
        (Or.inr hstage), rfl, ?_⟩
      intro jobs hjobs job hjob
      cases hjobs
      cases hjob
    | true =>
      obtain ⟨res, w', hrun, hr, hp⟩ := BuildPrepareDataJobs_yields d h cli reqNamespace backupSet
        target actionName w cfg hcfg hstage
      refine ⟨res, w', hrun, hr, ?_⟩
      intro jobs hjobs job hjob
      have hnames := (hp jobs hjobs).1
      have hmem : job.Name ∈ jobs.map (·.Name) := List.mem_map_of_mem _ hjob
      rw [hnames, List.mem_map] at hmem
      obtain ⟨i, hi, hname⟩ := hmem
      have happ := (List.mem_filter.mp hi).2
      rw [hcfg] at hserial
      unfold appendsJob at happ
      split at happ
      · cases happ
      · simp only [hserial, Bool.true_and, Bool.and_eq_true, Bool.not_eq_true',
          Bool.and_eq_false_imp] at happ
        rw [← hname]
        exact happ.2

theorem BuildPrepareDataJobs_no_completed_job_witness :
    ∃ jobs w', BuildPrepareDataJobs exDeps exHelpers exStore "default"
        (exSet exF "full" BackupTypeFull) {} "prepareData"
        (exPlanWorld "Serial" 2 [exCompleted 0]) = some (.ok jobs, w') ∧
      ∀ job ∈ jobs, restoreJobHasCompleted exHelpers
        (exPlanWorld "Serial" 2 [exCompleted 0]).r.Restore.Status.Actions.PrepareData job.Name
          = false := by
  obtain ⟨res, w', hrun, -, hp⟩ := BuildPrepareDataJobs_no_completed_job exDeps exHelpers exStore
    "default" (exSet exF "full" BackupTypeFull) {} "prepareData"
    (exPlanWorld "Serial" 2 [exCompleted 0]) (by decide)
  have hok : (returnedJobNames (BuildPrepareDataJobs exDeps exHelpers exStore "default"
      (exSet exF "full" BackupTypeFull) {} "prepareData"
      (exPlanWorld "Serial" 2 [exCompleted 0]))).isSome = true := by decide!
  rw [hrun] at hok
  cases res with
  | error e => simp [returnedJobNames] at hok
  | ok jobs => exact ⟨jobs, w', hrun, hp jobs rfl⟩

/-- C20: under a policy that is not Serial, when the strategy of the target is not `All` or
no index below the target count has an empty source pod name, `BuildPrepareDataJobs`
returns and leaves the manager as it is; if it returns jobs, a source pod name was found
for every index, and the jobs are those of the indices from 0 to the target count, in
increasing order, as many as the target count, whatever actions are recorded. -/
theorem BuildPrepareDataJobs_parallel (d : Deps) (h : Helpers) (cli : Client)
    (reqNamespace : String) (backupSet : BackupActionSet) (target : BackupStatusTarget)
    (actionName : String) (w : World) (prepareDataConfig : PrepareDataConfig)
    (hcfg : w.r.Restore.Spec.PrepareDataConfig = some prepareDataConfig)
    (hstage : HasPrepareDataStage backupSet.ActionSet = true)
    (hparallel : h.IsSerialPolicy (some prepareDataConfig) = false)
    (hsource : target.Strategy ≠ PodSelectionStrategyAll ∨
      ∀ i ∈ indicesBelow (h.GetRestoreActionsCountForPrepareData (some prepareDataConfig)),
        h.GetSourcePodNameFromTarget target prepareDataConfig.RequiredPolicyForAllPodSelection i
          ≠ .ok "") :
    ∃ res w', BuildPrepareDataJobs d h cli reqNamespace backupSet target actionName w =
        some (res, w') ∧ w'.r = w.r ∧
      ∀ jobs, res = .ok jobs →
        jobs.map (·.Name) =
          (indicesBelow (h.GetRestoreActionsCountForPrepareData (some prepareDataConfig))).map
            (prepareDataJobName h w.r.Restore backupSet) ∧
        jobs.length = (h.GetRestoreActionsCountForPrepareData (some prepareDataConfig)).toNat ∧
        ∀ i ∈ indicesBelow (h.GetRestoreActionsCountForPrepareData (some prepareDataConfig)),
          ∃ name, h.GetSourcePodNameFromTarget target
            prepareDataConfig.RequiredPolicyForAllPodSelection i = .ok name := by
  obtain ⟨res, w', hrun, hr, hp⟩ := BuildPrepareDataJobs_yields d h cli reqNamespace backupSet
    target actionName w prepareDataConfig hcfg hstage
  refine ⟨res, w', hrun, hr, ?_⟩
  intro jobs hjobs
  obtain ⟨hnames, hresolved⟩ := hp jobs hjobs
  have hrounds : jobRounds h w.r prepareDataConfig backupSet actionName =
      h.GetRestoreActionsCountForPrepareData (some prepareDataConfig) := by
    simp [jobRounds, hparallel]
  rw [hrounds] at hnames hresolved
  have hfilter : (indicesBelow (h.GetRestoreActionsCountForPrepareData (some prepareDataConfig))).filter
      (appendsJob h w.r prepareDataConfig backupSet target) =
      indicesBelow (h.GetRestoreActionsCountForPrepareData (some prepareDataConfig)) := by
    rw [List.filter_eq_self]
    intro i hi
    obtain ⟨name, hname⟩ := hresolved i hi
    unfold appendsJob
    rw [hname]
    simp only [hparallel, Bool.false_and, Bool.not_false, Bool.and_true, Bool.not_eq_true',
      Bool.and_eq_false_imp, beq_iff_eq]
    intro hall
    rcases hsource with hsource | hsource
    · exact absurd hall hsource
    · have := hsource i hi
      rw [hname] at this
      simpa using this
  rw [hfilter] at hnames
  refine ⟨hnames, ?_, hresolved⟩
  have hlen := congrArg List.length hnames
  simpa [indicesBelow] using hlen

theorem BuildPrepareDataJobs_parallel_witness :
    returnedJobNames (BuildPrepareDataJobs exDeps exHelpers exStore "default"
      (exSet exF "full" BackupTypeFull) {} "prepareData"
      (exPlanWorld "Parallel" 2 [exCompleted 0]))
      = some ["restore-preparedata-01234567-F-0", "restore-preparedata-01234567-F-1"] := by
  obtain ⟨res, w', hrun, -, hp⟩ := BuildPrepareDataJobs_parallel exDeps exHelpers exStore "default"
    (exSet exF "full" BackupTypeFull) {} "prepareData" (exPlanWorld "Parallel" 2 [exCompleted 0])
    (exConfig "Parallel" 2) rfl (by decide) (by decide) (Or.inl (by decide))
  have hok : (returnedJobNames (BuildPrepareDataJobs exDeps exHelpers exStore "default"
      (exSet exF "full" BackupTypeFull) {} "prepareData"
      (exPlanWorld "Parallel" 2 [exCompleted 0]))).isSome = true := by decide!
  rw [hrun] at hok ⊢
  cases res with
  | error e => simp [returnedJobNames] at hok
  | ok jobs =>
    simp only [returnedJobNames]
    rw [(hp jobs rfl).1]
    decide

/-- C18, for a target count of at least 1: under the Serial policy, when
the `k` recorded prepare-data actions of the backup and the action are all Completed, the
jobs recorded Completed among those of the indices below the target count are those of the
indices below `k`, and the strategy of the target is not `All` or no index has an empty
source pod name, `BuildPrepareDataJobs` returns and leaves the manager as it is; if it
returns jobs, they are the one job of index `k` when `k` is below the target count, and
none when `k` is the target count. -/
theorem BuildPrepareDataJobs_serial_progression (d : Deps) (h : Helpers) (cli : Client)
    (reqNamespace : String) (backupSet : BackupActionSet) (target : BackupStatusTarget)
    (actionName : String) (w : World) (prepareDataConfig : PrepareDataConfig) (k : Nat)
    (hcfg : w.r.Restore.Spec.PrepareDataConfig = some prepareDataConfig)
    (hstage : HasPrepareDataStage backupSet.ActionSet = true)
    (hserial : h.IsSerialPolicy (some prepareDataConfig) = true)
    (hpositive : 0 < h.GetRestoreActionsCountForPrepareData (some prepareDataConfig))
    (hk : (k : Int) ≤ h.GetRestoreActionsCountForPrepareData (some prepareDataConfig))
    (hcount : recordedCount w.r backupSet.Backup.Name actionName = k)
    (hdone : ∀ a ∈ w.r.Restore.Status.Actions.PrepareData,
      a.BackupName = backupSet.Backup.Name → a.Name = actionName →
      a.Status = RestoreActionCompleted)
    (hrecorded : ∀ i : Nat,
      (i : Int) < h.GetRestoreActionsCountForPrepareData (some prepareDataConfig) →
      (restoreJobHasCompleted h w.r.Restore.Status.Actions.PrepareData
        (prepareDataJobName h w.r.Restore backupSet i) = true ↔ i < k))
    (hsource : target.Strategy ≠ PodSelectionStrategyAll ∨
      ∀ i ∈ indicesBelow (h.GetRestoreActionsCountForPrepareData (some prepareDataConfig)),
        h.GetSourcePodNameFromTarget target prepareDataConfig.RequiredPolicyForAllPodSelection i
          ≠ .ok "") :
    ∃ res w', BuildPrepareDataJobs d h cli reqNamespace backupSet target actionName w =
        some (res, w') ∧ w'.r = w.r ∧
      ∀ jobs, res = .ok jobs →
        jobs.map (·.Name) =
          if (k : Int) < h.GetRestoreActionsCountForPrepareData (some prepareDataConfig) then
            [prepareDataJobName h w.r.Restore backupSet k]
          else [] := by
  obtain ⟨res, w', hrun, hr, hp⟩ := BuildPrepareDataJobs_yields d h cli reqNamespace backupSet
    target actionName w prepareDataConfig hcfg hstage
  refine ⟨res, w', hrun, hr, ?_⟩
  intro jobs hjobs
  obtain ⟨hnames, hresolved⟩ := hp jobs hjobs
  have hrounds : jobRounds h w.r prepareDataConfig backupSet actionName =
      min (1 + (k : Int)) (h.GetRestoreActionsCountForPrepareData (some prepareDataConfig)) := by
    unfold jobRounds
    rw [if_pos hserial, serialOrderOf_completed _ _ _ _ 1 (by omega) hdone]
    unfold recordedCount at hcount
    rw [hcount]
  rw [hrounds] at hnames hresolved
  have hbelow : ∀ i : Nat, i < k →
      appendsJob h w.r prepareDataConfig backupSet target (Int.ofNat i) = false := by
    intro i hi
    have hc := (hrecorded i (by omega)).mpr hi
    unfold appendsJob
    split
    · rfl
    · simp only [hserial, Bool.true_and, Int.ofNat_eq_coe, hc, Bool.not_true, Bool.and_false]
  by_cases hlt : (k : Int) < h.GetRestoreActionsCountForPrepareData (some prepareDataConfig)
  · rw [if_pos hlt]
    have hmin : min (1 + (k : Int))
        (h.GetRestoreActionsCountForPrepareData (some prepareDataConfig)) = ((k + 1 : Nat) : Int) := by
      rw [min_eq_left (by omega)]
      push_cast
      omega
    rw [hmin] at hnames hresolved
    have hindices : indicesBelow ((k + 1 : Nat) : Int) = (List.range (k + 1)).map Int.ofNat := by
      simp [indicesBelow]
    rw [hindices] at hnames hresolved
    have hkmem : Int.ofNat k ∈ (List.range (k + 1)).map Int.ofNat :=
      List.mem_map_of_mem _ (List.mem_range.mpr (by omega))
    obtain ⟨name, hname⟩ := hresolved _ hkmem
    have hkin : Int.ofNat k ∈
        indicesBelow (h.GetRestoreActionsCountForPrepareData (some prepareDataConfig)) := by
      unfold indicesBelow
      exact List.mem_map_of_mem _ (List.mem_range.mpr (by omega))
    have hat : appendsJob h w.r prepareDataConfig backupSet target (Int.ofNat k) = true := by
      have hc : restoreJobHasCompleted h w.r.Restore.Status.Actions.PrepareData
          (prepareDataJobName h w.r.Restore backupSet k) = false := by
        rw [Bool.eq_false_iff]
        intro hcon
        exact absurd ((hrecorded k hlt).mp hcon) (by omega)
      unfold appendsJob
      rw [hname]
      simp only [hserial, Bool.true_and, Int.ofNat_eq_coe, hc, Bool.not_false, Bool.and_true,
        Bool.not_eq_true', Bool.and_eq_false_imp, beq_iff_eq]
      intro hall
      rcases hsource with hsource | hsource
      · exact absurd hall hsource
      · have := hsource _ hkin
        rw [hname] at this
        simpa using this
    rw [List.filter_map, filter_range_below
      (appendsJob h w.r prepareDataConfig backupSet target ∘ Int.ofNat) k hbelow hat] at hnames
    rw [hnames]
    rfl
  · rw [if_neg hlt]
    have hkeq : (k : Int) = h.GetRestoreActionsCountForPrepareData (some prepareDataConfig) := by
      omega
    have hmin : min (1 + (k : Int))
        (h.GetRestoreActionsCountForPrepareData (some prepareDataConfig)) = (k : Int) := by
      rw [← hkeq]
      exact min_eq_right (by omega)
    rw [hmin] at hnames
    have hfilter : (indicesBelow (k : Int)).filter
        (appendsJob h w.r prepareDataConfig backupSet target) = [] := by
      rw [List.filter_eq_nil_iff]
      intro i hi
      unfold indicesBelow at hi
      simp only [Int.toNat_ofNat, List.mem_map, List.mem_range] at hi
      obtain ⟨j, hj, rfl⟩ := hi
      rw [hbelow j hj]
      simp
    rw [hfilter] at hnames
    simpa using hnames

theorem BuildPrepareDataJobs_serial_progression_witness :
    returnedJobNames (BuildPrepareDataJobs exDeps exHelpers exStore "default"
      (exSet exF "full" BackupTypeFull) {} "prepareData" (exPlanWorld "Serial" 2 [exCompleted 0]))
      = some ["restore-preparedata-01234567-F-1"] := by
  obtain ⟨res, w', hrun, -, hp⟩ := BuildPrepareDataJobs_serial_progression exDeps exHelpers
    exStore "default" (exSet exF "full" BackupTypeFull) {} "prepareData"
    (exPlanWorld "Serial" 2 [exCompleted 0]) (exConfig "Serial" 2) 1 rfl (by decide) (by decide)
    (by decide) (by decide) (by decide) (by decide)
    (by
      intro i hi
      have hi2 : i < 2 := by
        have : exHelpers.GetRestoreActionsCountForPrepareData (some (exConfig "Serial" 2)) = 2 := by
          decide
        omega
      interval_cases i <;> decide)
    (Or.inl (by decide))
  have hok : (returnedJobNames (BuildPrepareDataJobs exDeps exHelpers exStore "default"
      (exSet exF "full" BackupTypeFull) {} "prepareData"
      (exPlanWorld "Serial" 2 [exCompleted 0]))).isSome = true := by decide!
  rw [hrun] at hok ⊢
  cases res with
  | error e => simp [returnedJobNames] at hok
  | ok jobs =>
    simp only [returnedJobNames]
    rw [hp jobs rfl]
    decide

/-- C18 fails for the code at the target count 0: under the Serial policy with nothing
recorded, the recorded actions are those of the indices below 0 and 0 is the target count,
yet `BuildPrepareDataJobs` returns the job of index 0, where it returns no job under the
Parallel policy. -/
theorem BuildPrepareDataJobs_serial_zero_target :
    exHelpers.IsSerialPolicy (some (exConfig "Serial" 0)) = true ∧
    exHelpers.GetRestoreActionsCountForPrepareData (some (exConfig "Serial" 0)) = 0 ∧
    (exPlanWorld "Serial" 0 []).r.Restore.Status.Actions.PrepareData = [] ∧
    returnedJobNames (BuildPrepareDataJobs exDeps exHelpers exStore "default"
      (exSet exF "full" BackupTypeFull) {} "prepareData" (exPlanWorld "Serial" 0 []))
      = some ["restore-preparedata-01234567-F-0"] ∧
    returnedJobNames (BuildPrepareDataJobs exDeps exHelpers exStore "default"
      (exSet exF "full" BackupTypeFull) {} "prepareData" (exPlanWorld "Parallel" 0 []))
      = some [] :=
  ⟨by decide, by decide, by decide, by decide!, by decide!⟩

/-! ## Progress analysis and the empty list: C27 and C29 -/

/-- C29: `CheckJobsDone` on an empty list of fetched jobs returns `allJobFinished` true
and `existFailedJob` false with no error and leaves the world as it is: no request is sent,
no status action is recorded and no stop marker is written. -/
theorem CheckJobsDone_empty (h : Helpers) (cli : Client) (stage actionName : String)
    (backupSet : BackupActionSet) (w : World) :
    CheckJobsDone h cli stage actionName backupSet [] w = some (.ok (true, false), w) := rfl

theorem analyse_fold (backupName actionName : String) (actions : List RestoreStatusAction)
    (p : ActionsProgress) :
    actions.foldl (analyseAction PrepareData backupName actionName) p =
      { restoreActionCount := p.restoreActionCount,
        finishedActionCount := p.finishedActionCount +
          ((actions.filter (fun a => a.isOf backupName actionName && a.finished)).length : Int),
        existFailedAction := p.existFailedAction ||
          actions.any (fun a => a.isOf backupName actionName && a.Status == RestoreActionFailed) } := by
  induction actions generalizing p with
  | nil => simp
  | cons a rest ih =>
    rw [List.foldl_cons, ih]
    have hstage : (PrepareData == PostReady) = false := by decide
    by_cases hof : a.BackupName = backupName ∧ a.Name = actionName
    · have hskip : (a.BackupName != backupName || a.Name != actionName) = false := by
        simp [hof.1, hof.2]
      have hisOf : a.isOf backupName actionName = true := by
        simp [RestoreStatusAction.isOf, hof.1, hof.2]
      by_cases hfailed : a.Status = RestoreActionFailed
      · have hfin : a.finished = true := by simp [RestoreStatusAction.finished, hfailed]
        simp only [analyseAction, hskip, hstage, Bool.false_eq_true, ↓reduceIte, hfailed,
          beq_self_eq_true, List.filter_cons, hisOf, hfin, Bool.and_self, List.length_cons,
          List.any_cons, Bool.true_or, Bool.or_true, Nat.cast_add, Nat.cast_one]
        congr 1
        omega
      · have hf2 : (a.Status == RestoreActionFailed) = false := by simpa using hfailed
        by_cases hcompleted : a.Status = RestoreActionCompleted
        · have hc1 : (a.Status == RestoreActionCompleted) = true := by simpa using hcompleted
          have hfin : a.finished = true := by simp [RestoreStatusAction.finished, hc1]
          simp only [analyseAction, hskip, hstage, Bool.false_eq_true, ↓reduceIte, hf2, hc1,
            List.filter_cons, hisOf, hfin, Bool.and_self, List.length_cons, List.any_cons,
            Bool.and_false, Bool.false_or, Nat.cast_add, Nat.cast_one]
          congr 1
          omega
        · have hc2 : (a.Status == RestoreActionCompleted) = false := by simpa using hcompleted
          have hfin : a.finished = false := by simp [RestoreStatusAction.finished, hf2, hc2]
          simp only [analyseAction, hskip, hstage, Bool.false_eq_true, ↓reduceIte, hf2, hc2,
            List.filter_cons, hisOf, hfin, Bool.and_false, List.any_cons, Bool.false_or]
    · have hskip : (a.BackupName != backupName || a.Name != actionName) = true := by
        simp only [Bool.or_eq_true, bne_iff_ne, ne_eq]
        by_contra hcon
        push_neg at hcon
        exact hof hcon
      have hisOf : a.isOf backupName actionName = false := by
        rw [Bool.eq_false_iff]
        intro hcon
        simp only [RestoreStatusAction.isOf, Bool.and_eq_true, beq_iff_eq] at hcon
        exact hof hcon
      simp only [analyseAction, hskip, ↓reduceIte, List.filter_cons, hisOf, Bool.false_and,
        Bool.false_eq_true, List.any_cons, Bool.false_or]

/-- C27: for the stage PrepareData, `AnalysisRestoreActionsWithBackup` returns
`allActionsFinished` true exactly when the target count of the configuration is positive
and equals the number of recorded prepare-data actions of the backup and the action name
that are Completed or Failed; it returns `existFailedAction` true exactly when one of these
actions is Failed; and two managers with the same configuration whose recorded prepare-data
actions of the backup and the action name are the same get the same results. -/
theorem AnalysisRestoreActionsWithBackup_prepareData (h : Helpers) (r : RestoreManager)
    (backupName actionName : String) :
    ((AnalysisRestoreActionsWithBackup h r PrepareData backupName actionName).1 = true ↔
      0 < h.GetRestoreActionsCountForPrepareData r.Restore.Spec.PrepareDataConfig ∧
      (((r.Restore.Status.Actions.PrepareData.filter
          (fun a => a.isOf backupName actionName && a.finished)).length : Int) =
        h.GetRestoreActionsCountForPrepareData r.Restore.Spec.PrepareDataConfig)) ∧
    ((AnalysisRestoreActionsWithBackup h r PrepareData backupName actionName).2 = true ↔
      ∃ a ∈ r.Restore.Status.Actions.PrepareData,
        a.BackupName = backupName ∧ a.Name = actionName ∧ a.Status = RestoreActionFailed) ∧
    (∀ r' : RestoreManager,
      r'.Restore.Spec.PrepareDataConfig = r.Restore.Spec.PrepareDataConfig →
      r'.Restore.Status.Actions.PrepareData.filter (fun a => a.isOf backupName actionName) =
        r.Restore.Status.Actions.PrepareData.filter (fun a => a.isOf backupName actionName) →
      AnalysisRestoreActionsWithBackup h r' PrepareData backupName actionName =
        AnalysisRestoreActionsWithBackup h r PrepareData backupName actionName) := by
  have hstage : (PrepareData == PrepareData) = true := by decide
  have hrun : ∀ r : RestoreManager,
      AnalysisRestoreActionsWithBackup h r PrepareData backupName actionName =
        (decide (h.GetRestoreActionsCountForPrepareData r.Restore.Spec.PrepareDataConfig > 0) &&
          (((r.Restore.Status.Actions.PrepareData.filter
            (fun a => a.isOf backupName actionName && a.finished)).length : Int) ==
            h.GetRestoreActionsCountForPrepareData r.Restore.Spec.PrepareDataConfig),
          r.Restore.Status.Actions.PrepareData.any
            (fun a => a.isOf backupName actionName && a.Status == RestoreActionFailed)) := by
    intro r
    simp only [AnalysisRestoreActionsWithBackup, hstage, ↓reduceIte, analyse_fold, zero_add,
      Bool.false_or]
  have hsplit : ∀ (l : List RestoreStatusAction) (f : RestoreStatusAction → Bool),
      l.filter (fun a => a.isOf backupName actionName && f a) =
        (l.filter (fun a => a.isOf backupName actionName)).filter f := by
    intro l f
    rw [List.filter_filter]
    apply List.filter_congr
    intro a _
    rw [Bool.and_comm]
  have hany : ∀ (l : List RestoreStatusAction) (f : RestoreStatusAction → Bool),
      l.any (fun a => a.isOf backupName actionName && f a) =
        (l.filter (fun a => a.isOf backupName actionName)).any f := by
    intro l f
    rw [List.any_filter]
  refine ⟨?_, ?_, ?_⟩
  · rw [hrun r]
    simp only [Bool.and_eq_true, decide_eq_true_eq, beq_iff_eq, gt_iff_lt]
  · rw [hrun r]
    simp only [List.any_eq_true, Bool.and_eq_true, beq_iff_eq, RestoreStatusAction.isOf]
    constructor
    · rintro ⟨a, ha, ⟨h1, h2⟩, h3⟩
      exact ⟨a, ha, h1, h2, h3⟩
    · rintro ⟨a, ha, h1, h2, h3⟩
      exact ⟨a, ha, ⟨h1, h2⟩, h3⟩
  · intro r' hcfg hactions
    rw [hrun r', hrun r, hcfg, hsplit, hsplit, hany, hany, hactions]

theorem AnalysisRestoreActionsWithBackup_prepareData_witness :
    AnalysisRestoreActionsWithBackup exHelpers
        (exCoordinator "Serial" 1 [exCompleted 0,
          { exCompleted 1 with BackupName := "G", Status := RestoreActionFailed }])
        PrepareData "F" "prepareData" =
      AnalysisRestoreActionsWithBackup exHelpers (exCoordinator "Serial" 1 [exCompleted 0])
        PrepareData "F" "prepareData" :=
  (AnalysisRestoreActionsWithBackup_prepareData exHelpers (exCoordinator "Serial" 1 [exCompleted 0])
    "F" "prepareData").2.2 _ rfl (by decide)

/-! ## Mount paths and the base backup: C24 and C26 -/

/-- C24: for a claim with an empty `MountPath` for which `getMountPathWithSourceVolume`
finds no mount path, `buildPVCVolumeAndMount` returns a fatal error on every builder whose
backup set does not use volume snapshots or has an action set that declares a prepare-data
stage; for a claim with a `MountPath` that is not empty it returns the volume named
`identifier-claimName` that refers to the claim `claimName`, and the mount of that name at
that path. The builders the program calls it on are of this kind: `BuildPrepareDataJobs`
returns no job, without a request and before it makes a builder, when the action set
declares no prepare-data stage, as `BuildVolumePopulateJob` does. -/
theorem buildPVCVolumeAndMount_mount_path (h : Helpers) (b : restoreJobBuilder)
    (claim : VolumeConfig) (claimName identifier : String) :
    (claim.MountPath = "" →
      h.getMountPathWithSourceVolume b.backupSet.Backup claim.VolumeSource = "" →
      b.backupSet.UseVolumeSnapshot = false ∨
        HasPrepareDataStage b.backupSet.ActionSet = true →
      ∃ msg, b.buildPVCVolumeAndMount h claim claimName identifier = .error (.fatal msg)) ∧
    (claim.MountPath ≠ "" →
      b.buildPVCVolumeAndMount h claim claimName identifier =
        .ok (some { Name := identifier ++ "-" ++ claimName, PersistentVolumeClaim := some claimName },
          some { Name := identifier ++ "-" ++ claimName, MountPath := claim.MountPath })) ∧
    (∀ (d : Deps) (cli : Client) (reqNamespace : String) (target : BackupStatusTarget)
        (actionName : String) (w : World),
      HasPrepareDataStage b.backupSet.ActionSet = false →
      BuildPrepareDataJobs d h cli reqNamespace b.backupSet target actionName w =
        some (.ok [], w)) := by
  refine ⟨?_, ?_, ?_⟩
  · intro h1 h2 h3
    have h4 : (b.backupSet.UseVolumeSnapshot && !HasPrepareDataStage b.backupSet.ActionSet)
        = false := by
      rcases h3 with h3 | h3 <;> simp [h3]
    unfold restoreJobBuilder.buildPVCVolumeAndMount
    simp only [h1, h2, h4, bne_self_eq_false, Bool.false_eq_true, ↓reduceIte]
    exact ⟨_, rfl⟩
  · intro h1
    have hne : (claim.MountPath != "") = true := by simpa using h1
    unfold restoreJobBuilder.buildPVCVolumeAndMount
    simp only [hne, ↓reduceIte]
  · intro d cli reqNamespace target actionName w hstage
    exact BuildPrepareDataJobs_nothing d h cli reqNamespace b.backupSet target actionName w
      (Or.inr hstage)

theorem buildPVCVolumeAndMount_mount_path_witness :
    ∃ msg, (newRestoreJobBuilder exHelpers (exCoordinator "Parallel" 1 []).Restore
        { exSet exF "full" BackupTypeFull with UseVolumeSnapshot := true } none
        PrepareData).buildPVCVolumeAndMount exHelpers
          { MountPath := "" } "data-0" "dp-claim-tpl" = .error (.fatal msg) :=
  (buildPVCVolumeAndMount_mount_path exHelpers
    (newRestoreJobBuilder exHelpers (exCoordinator "Parallel" 1 []).Restore
      { exSet exF "full" BackupTypeFull with UseVolumeSnapshot := true } none PrepareData)
    { MountPath := "" } "data-0" "dp-claim-tpl").1 rfl rfl (Or.inr (by decide))

/-- C26, as the claim has it, fails for the code: the full backup `FE` stops at 10:00, the
time at which the continuous backup `C` starts, and `getBaseBackupActionSetForContinuous`
selects it as the base for the restore time 10:20. -/
theorem getBaseBackupActionSetForContinuous_equal_stop_selected :
    exFE.GetEndTime = exC.GetStartTime ∧
    ∃ w', getBaseBackupActionSetForContinuous exDeps exStoreE exC 1020 exWorld =
      some (.ok { Backup := exFE, AncestorIncrementalBackups := [], BaseBackup := none,
                  ActionSet := some (exActionSet "full" BackupTypeFull),
                  UseVolumeSnapshot := false }, w') :=
  ⟨by decide, _, rfl⟩

/-! ## Decimal numerals -/

theorem digitChar_value (k : Nat) (hk : k < 10) :
    (Nat.digitChar k).toNat - 48 = k ∧ (Nat.digitChar k).isDigit = true ∧
      Nat.digitChar k ≠ '-' ∧ Nat.digitChar k ≠ '+' := by
  interval_cases k <;> decide

theorem toDigitsCore_value (fuel n : Nat) (ds : List Char) (hfuel : n < fuel) :
    (Nat.toDigitsCore 10 fuel n ds).foldl (fun value c => 10 * value + (c.toNat - 48)) 0 =
      ds.foldl (fun value c => 10 * value + (c.toNat - 48)) n := by
  induction fuel generalizing n ds with
  | zero => omega
  | succ fuel ih =>
    unfold Nat.toDigitsCore
    have hd := (digitChar_value (n % 10) (Nat.mod_lt _ (by decide))).1
    by_cases hzero : n / 10 = 0
    · simp only [hzero, ↓reduceIte, List.foldl_cons, Nat.mul_zero, Nat.zero_add, hd]
      congr 1
      omega
    · simp only [hzero, ↓reduceIte]
      rw [ih (n / 10) _ (by omega), List.foldl_cons, hd]
      congr 1
      omega

theorem toDigitsCore_digits (fuel n : Nat) (ds : List Char)
    (hds : ∀ c ∈ ds, c.isDigit = true) :
    ∀ c ∈ Nat.toDigitsCore 10 fuel n ds, c.isDigit = true := by
  induction fuel generalizing n ds with
  | zero => exact hds
  | succ fuel ih =>
    unfold Nat.toDigitsCore
    have hd := (digitChar_value (n % 10) (Nat.mod_lt _ (by decide))).2.1
    have hcons : ∀ c ∈ Nat.digitChar (n % 10) :: ds, c.isDigit = true := by
      intro c hc
      rcases List.mem_cons.mp hc with rfl | hc
      · exact hd
      · exact hds c hc
    by_cases hzero : n / 10 = 0
    · simp only [hzero, ↓reduceIte]
      exact hcons
    · simp only [hzero, ↓reduceIte]
      exact ih (n / 10) _ hcons

theorem toDigitsCore_ne_nil (fuel n : Nat) (ds : List Char) (hfuel : 0 < fuel) :
    Nat.toDigitsCore 10 fuel n ds ≠ [] := by
  induction fuel generalizing n ds with
  | zero => omega
  | succ fuel ih =>
    unfold Nat.toDigitsCore
    by_cases hzero : n / 10 = 0
    · simp [hzero]
    · simp only [hzero, ↓reduceIte]
      cases fuel with
      | zero => simp [Nat.toDigitsCore]
      | succ fuel => exact ih (n / 10) _ (by omega)

/-- The decimal numeral of a natural number: its digits, none of them a sign, and its value. -/
theorem decimal_spec (n : Nat) :
    (toString n).data ≠ [] ∧ (∀ c ∈ (toString n).data, c.isDigit = true) ∧
      digitsValue (toString n).data = n := by
  have hdata : (toString n).data = Nat.toDigits 10 n := rfl
  rw [hdata]
  refine ⟨toDigitsCore_ne_nil _ _ _ (by omega), toDigitsCore_digits _ _ _ (by simp), ?_⟩
  unfold digitsValue Nat.toDigits
  rw [toDigitsCore_value _ _ _ (by omega)]
  rfl

theorem isDigit_not_sign (c : Char) (hc : c.isDigit = true) : c ≠ '-' ∧ c ≠ '+' := by
  constructor
  · rintro rfl
    exact absurd hc (by decide)
  · rintro rfl
    exact absurd hc (by decide)

theorem formatInt_ofNat (n : Nat) : formatInt (n : Int) = toString n := rfl

theorem formatInt_negSucc (n : Nat) : formatInt (Int.negSucc n) = "-" ++ toString (n + 1) := rfl

/-- Two integers with the same decimal numeral are the same. -/
theorem formatInt_injective (i j : Int) (hij : formatInt i = formatInt j) : i = j := by
  have hdash : ∀ (m n : Nat), toString m ≠ "-" ++ toString (n + 1) := by
    intro m n heq
    obtain ⟨hne, hdigits, -⟩ := decimal_spec m
    have hdata := congrArg String.data heq
    rw [String.data_append] at hdata
    cases hm : (toString m).data with
    | nil => exact hne hm
    | cons c cs =>
      rw [hm] at hdata
      have hc : c = '-' := by
        have := List.head_eq_of_cons_eq hdata
        exact this
      exact (isDigit_not_sign c (hdigits c (by rw [hm]; exact List.mem_cons_self _ _))).1 hc
  have hnat : ∀ (m n : Nat), toString m = toString n → m = n := by
    intro m n heq
    rw [← (decimal_spec m).2.2, ← (decimal_spec n).2.2, heq]
  cases i with
  | ofNat m =>
    cases j with
    | ofNat n =>
      have := hnat m n hij
      rw [this]
    | negSucc n => exact absurd hij (hdash m n)
  | negSucc m =>
    cases j with
    | ofNat n => exact absurd hij.symm (hdash n m)
    | negSucc n =>
      have hdata := congrArg String.data hij
      rw [formatInt_negSucc, formatInt_negSucc, String.data_append, String.data_append] at hdata
      have htail : (toString (m + 1)).data = (toString (n + 1)).data := List.append_cancel_left hdata
      have : m + 1 = n + 1 := hnat _ _ (String.ext htail)
      have hmn : m = n := by omega
      rw [hmn]

/-! ## The job builder: C22, C23 and C28 -/

theorem goString_ascii_data (l : List Char) (hascii : ∀ c ∈ l, c.toNat < 128) :
    l.flatMap (fun c => (utf8Bytes c.toNat).map Char.ofNat) = l := by
  induction l with
  | nil => rfl
  | cons c cs ih =>
    have hc : c.toNat < 128 := hascii c (by simp)
    have hbytes : (utf8Bytes c.toNat).map Char.ofNat = [c] := by
      unfold utf8Bytes
      rw [if_pos hc]
      simp [Char.ofNat_toNat]
    rw [List.flatMap_cons, hbytes, ih (fun x hx => hascii x (by simp [hx]))]
    rfl

/-- An ASCII text is its own Go string. -/
theorem goString_ascii (text : String) (hascii : ∀ c ∈ text.data, c.toNat < 128) :
    goString text = text := by
  apply String.ext
  exact goString_ascii_data text.data hascii

theorem goString_prefix_data (l : List Char) (n : Nat)
    (hascii : ∀ c ∈ l.take n, c.toNat < 128) :
    (l.flatMap (fun c => (utf8Bytes c.toNat).map Char.ofNat)).take n = l.take n := by
  induction l generalizing n with
  | nil => simp
  | cons c cs ih =>
    cases n with
    | zero => simp
    | succ n =>
      have hc : c.toNat < 128 := hascii c (by simp)
      have hbytes : (utf8Bytes c.toNat).map Char.ofNat = [c] := by
        unfold utf8Bytes
        rw [if_pos hc]
        simp [Char.ofNat_toNat]
      rw [List.flatMap_cons, hbytes]
      simp only [List.singleton_append, List.take_succ_cons, List.cons.injEq, true_and]
      apply ih
      intro x hx
      exact hascii x (by simp [hx])

/-- The first bytes of the Go string of a text are its first characters when these are
ASCII. -/
theorem goString_prefix (text : String) (n : Nat)
    (hascii : ∀ c ∈ text.data.take n, c.toNat < 128) :
    prefixOf (goString text) n = ⟨text.data.take n⟩ := by
  unfold prefixOf goString
  rw [goString_prefix_data text.data n hascii]

/-- C22: for a restore whose UID has at least 8 bytes, the characters of a Go string,
`builderRestoreJobName` returns `cutJobName` of `restore-`, the stage in lower case, the
first 8 bytes of the UID, the name of the backup and the decimal index, joined by dashes;
for a UID that is a text of which the first 8 characters are ASCII, as in the UIDs the API
server issues, these 8 bytes are the first 8 characters of the text. Builders with the same
stage, UID and backup name get the same name; and two indices whose names `cutJobName`
leaves as they are get different names unless they are the same index. -/
theorem builderRestoreJobName_deterministic (h : Helpers) (b : restoreJobBuilder) (i : Int)
    (huid : 8 ≤ b.restore.UID.length) :
    b.builderRestoreJobName h i =
      .ok (h.cutJobName ("restore-" ++ toLower b.stage ++ "-" ++ prefixOf b.restore.UID 8 ++ "-"
        ++ b.backupSet.Backup.Name ++ "-" ++ formatInt i)) ∧
    ((prefixOf b.restore.UID 8).length = 8 ∧
      ∃ rest, b.restore.UID = prefixOf b.restore.UID 8 ++ rest) ∧
    (∀ text : String, b.restore.UID = goString text →
      (∀ c ∈ text.data.take 8, c.toNat < 128) →
      b.builderRestoreJobName h i =
        .ok (h.cutJobName ("restore-" ++ toLower b.stage ++ "-" ++ String.mk (text.data.take 8)
          ++ "-" ++ b.backupSet.Backup.Name ++ "-" ++ formatInt i))) ∧
    (∀ b' : restoreJobBuilder, b'.stage = b.stage → b'.restore.UID = b.restore.UID →
      b'.backupSet.Backup.Name = b.backupSet.Backup.Name →
      b'.builderRestoreJobName h i = b.builderRestoreJobName h i) ∧
    (∀ j : Int,
      h.cutJobName ("restore-" ++ toLower b.stage ++ "-" ++ prefixOf b.restore.UID 8 ++ "-"
        ++ b.backupSet.Backup.Name ++ "-" ++ formatInt i) =
        "restore-" ++ toLower b.stage ++ "-" ++ prefixOf b.restore.UID 8 ++ "-"
          ++ b.backupSet.Backup.Name ++ "-" ++ formatInt i →
      h.cutJobName ("restore-" ++ toLower b.stage ++ "-" ++ prefixOf b.restore.UID 8 ++ "-"
        ++ b.backupSet.Backup.Name ++ "-" ++ formatInt j) =
        "restore-" ++ toLower b.stage ++ "-" ++ prefixOf b.restore.UID 8 ++ "-"
          ++ b.backupSet.Backup.Name ++ "-" ++ formatInt j →
      i ≠ j → b.builderRestoreJobName h i ≠ b.builderRestoreJobName h j) := by
  have hnot : ¬ b.restore.UID.length < 8 := by omega
  have hrun : ∀ k : Int, b.builderRestoreJobName h k =
      .ok (h.cutJobName ("restore-" ++ toLower b.stage ++ "-" ++ prefixOf b.restore.UID 8 ++ "-"
        ++ b.backupSet.Backup.Name ++ "-" ++ formatInt k)) := by
    intro k
    simp only [builderRestoreJobName_eq, hnot, ↓reduceIte]
  refine ⟨hrun i, ⟨?_, ⟨⟨b.restore.UID.data.drop 8⟩, ?_⟩⟩, ?_, ?_, ?_⟩
  · have hlen : b.restore.UID.data.length = b.restore.UID.length := rfl
    show (b.restore.UID.data.take 8).length = 8
    rw [List.length_take]
    omega
  · apply String.ext
    rw [String.data_append]
    exact (List.take_append_drop 8 b.restore.UID.data).symm
  · intro text htext hascii
    rw [hrun i, htext, goString_prefix text 8 hascii]
  · intro b' hstage hUID hname
    simp only [builderRestoreJobName_eq, hstage, hUID, hname]
  · intro j hi hj hij heq
    rw [hrun i, hrun j, hi, hj] at heq
    have hdata := congrArg String.data (Except.ok.inj heq)
    rw [String.data_append, String.data_append] at hdata
    exact hij (formatInt_injective i j (String.ext (List.append_cancel_left hdata)))

/-- The UID of the text `ééééé` has 10 bytes: the name holds its first 8 bytes, which are
the text `éééé`. -/
theorem builderRestoreJobName_deterministic_witness :
    (newRestoreJobBuilder exHelpers
        { (exCoordinator "Parallel" 2 []).Restore with UID := goString "ééééé" }
        (exSet exF "full" BackupTypeFull) none PrepareData).builderRestoreJobName exHelpers 1 =
      .ok (goString "restore-preparedata-éééé-F-1") :=
  (builderRestoreJobName_deterministic exHelpers
    (newRestoreJobBuilder exHelpers
      { (exCoordinator "Parallel" 2 []).Restore with UID := goString "ééééé" }
      (exSet exF "full" BackupTypeFull) none PrepareData) 1 (by decide)).1.trans
    (congrArg Except.ok (by decide))

theorem AddFinalizer_spec (job : Job) (finalizer : String) :
    (AddFinalizer job finalizer).Spec = job.Spec := by
  unfold AddFinalizer
  split <;> rfl

/-- The pod spec of the job `build` returns: the restore container alone, then the
injection of the manager, then that of datasafed. -/
theorem build_spec (h : Helpers) (b b' : restoreJobBuilder) (job : Job)
    (hbuild : b.build h = .ok (b', job)) :
    ∃ podSpec : PodSpec,
      job.Spec.Template.Spec =
        b.injectDatasafedIfNeeded h (InjectManagerContainer h podSpec) ∧
      (∃ container, podSpec.Containers = [container] ∧ container.Name = RestoreContainer) ∧
      podSpec.Volumes = b.specificVolumes ++ b.commonVolumes ++
        (if b.backupSet.Backup.Status.Extras.length == 0 then [] else [extrasVolume h]) := by
  unfold restoreJobBuilder.build at hbuild
  by_cases hname : b.jobName = ""
  · by_cases huid : b.restore.UID.length < 8
    · simp [hname, builderRestoreJobName_eq, huid, bind, Except.bind] at hbuild
    · by_cases hstage : b.stage = PrepareData
      · cases hcfg : b.restore.Spec.PrepareDataConfig with
        | none =>
          simp [hname, hstage, builderRestoreJobName_eq, huid, bind, Except.bind,
            hcfg, pure, Except.pure] at hbuild
        | some cfg =>
          simp only [hname, hstage, builderRestoreJobName_eq, huid, bind,
            Except.bind, hcfg, pure, Except.pure, beq_self_eq_true, ↓reduceIte, Except.ok.injEq,
            Prod.mk.injEq] at hbuild
          obtain ⟨-, hjob⟩ := hbuild
          subst hjob
          rw [AddFinalizer_spec]
          refine ⟨_, rfl, ?_, ?_⟩
          · refine ⟨_, rfl, ?_⟩
            by_cases hex : (b.backupSet.Backup.Status.Extras.length == 0) = true <;> simp [hex]
          · by_cases hex : (b.backupSet.Backup.Status.Extras.length == 0) = true
            · simp only [hex, ↓reduceIte, List.append_nil]
            · simp only [hex, Bool.false_eq_true, ↓reduceIte, extrasVolume]
      · have hst : (b.stage == PrepareData) = false := by simpa using hstage
        simp only [hname, hst, builderRestoreJobName_eq, huid, bind,
          Except.bind, pure, Except.pure, beq_self_eq_true, ↓reduceIte, Bool.false_eq_true,
          Except.ok.injEq, Prod.mk.injEq] at hbuild
        obtain ⟨-, hjob⟩ := hbuild
        subst hjob
        rw [AddFinalizer_spec]
        refine ⟨_, rfl, ?_, ?_⟩
        · refine ⟨_, rfl, ?_⟩
          by_cases hex : (b.backupSet.Backup.Status.Extras.length == 0) = true <;> simp [hex]
        · by_cases hex : (b.backupSet.Backup.Status.Extras.length == 0) = true
          · simp only [hex, ↓reduceIte, List.append_nil]
          · simp only [hex, Bool.false_eq_true, ↓reduceIte, extrasVolume]
  · have hne : (b.jobName == "") = false := by simpa using hname
    by_cases hstage : b.stage = PrepareData
    · cases hcfg : b.restore.Spec.PrepareDataConfig with
      | none => simp [hne, hstage, bind, Except.bind, hcfg, pure, Except.pure] at hbuild
      | some cfg =>
        simp only [hne, hstage, bind, Except.bind, hcfg, pure, Except.pure, Bool.false_eq_true,
          ↓reduceIte, beq_self_eq_true, Except.ok.injEq, Prod.mk.injEq] at hbuild
        obtain ⟨-, hjob⟩ := hbuild
        subst hjob
        rw [AddFinalizer_spec]
        refine ⟨_, rfl, ?_, ?_⟩
        · refine ⟨_, rfl, ?_⟩
          by_cases hex : (b.backupSet.Backup.Status.Extras.length == 0) = true <;> simp [hex]
        · by_cases hex : (b.backupSet.Backup.Status.Extras.length == 0) = true
          · simp only [hex, ↓reduceIte, List.append_nil]
          · simp only [hex, Bool.false_eq_true, ↓reduceIte, extrasVolume]
    · have hst : (b.stage == PrepareData) = false := by simpa using hstage
      simp only [hne, hst, bind, Except.bind, pure, Except.pure, Bool.false_eq_true, ↓reduceIte,
        Except.ok.injEq, Prod.mk.injEq] at hbuild
      obtain ⟨-, hjob⟩ := hbuild
      subst hjob
      rw [AddFinalizer_spec]
      refine ⟨_, rfl, ?_, ?_⟩
      · refine ⟨_, rfl, ?_⟩
        by_cases hex : (b.backupSet.Backup.Status.Extras.length == 0) = true <;> simp [hex]
      · by_cases hex : (b.backupSet.Backup.Status.Extras.length == 0) = true
        · simp only [hex, ↓reduceIte, List.append_nil]
        · simp only [hex, Bool.false_eq_true, ↓reduceIte, extrasVolume]

theorem InjectManagerContainer_spec (h : Helpers) (podSpec : PodSpec) :
    (∃ manager, (InjectManagerContainer h podSpec).Containers = podSpec.Containers ++ [manager] ∧
      manager.Name = restoreManagerContainerName ∧
      manager.VolumeMounts = [{ Name := "downward-volume", MountPath := "/dp_downward" }]) ∧
    (InjectManagerContainer h podSpec).Volumes = podSpec.Volumes ++ [managerVolume h] :=
  ⟨⟨_, rfl, rfl, rfl⟩, rfl⟩

theorem KeepsPodSpec_id : KeepsPodSpec (fun p => p) := by
  intro p
  refine ⟨?_, fun v hv => hv⟩
  induction p.Containers with
  | nil => exact List.Forall₂.nil
  | cons c rest ih => exact List.Forall₂.cons ⟨rfl, fun m hm => hm⟩ ih

theorem injectDatasafedIfNeeded_keeps (h : Helpers) (b : restoreJobBuilder)
    (hkeeps : h.DatasafedKeeps) : KeepsPodSpec (b.injectDatasafedIfNeeded h) := by
  have hid := KeepsPodSpec_id
  intro p
  unfold restoreJobBuilder.injectDatasafedIfNeeded
  split
  · split
    · exact hkeeps.1 _ _ _ _ p
    · split
      · exact hkeeps.2 _ _ _ p
      · exact hid p
  · exact hid p

/-- The method `build` returns a job when the name is set or the UID has 8 bytes, and
the restore has a prepare-data configuration if the stage is PrepareData. -/
theorem build_returns (h : Helpers) (b : restoreJobBuilder)
    (hname : b.jobName ≠ "" ∨ 8 ≤ b.restore.UID.length)
    (hcfg : b.stage = PrepareData → b.restore.Spec.PrepareDataConfig ≠ none) :
    ∃ b' job, b.build h = .ok (b', job) := by
  unfold restoreJobBuilder.build
  by_cases hstage : b.stage = PrepareData
  · cases hc : b.restore.Spec.PrepareDataConfig with
    | none => exact absurd hc (hcfg hstage)
    | some cfg =>
      by_cases hn : b.jobName = ""
      · have huid : ¬ b.restore.UID.length < 8 := by
          rcases hname with hname | hname
          · exact absurd hn hname
          · omega
        simp only [hn, hstage, builderRestoreJobName_eq, huid, bind, Except.bind,
          hc, pure, Except.pure, beq_self_eq_true, ↓reduceIte]
        exact ⟨_, _, rfl⟩
      · have hne : (b.jobName == "") = false := by simpa using hn
        simp only [hne, hstage, bind, Except.bind, hc, pure, Except.pure, Bool.false_eq_true,
          ↓reduceIte, beq_self_eq_true]
        exact ⟨_, _, rfl⟩
  · have hst : (b.stage == PrepareData) = false := by simpa using hstage
    by_cases hn : b.jobName = ""
    · have huid : ¬ b.restore.UID.length < 8 := by
        rcases hname with hname | hname
        · exact absurd hn hname
        · omega
      simp only [hn, hst, builderRestoreJobName_eq, huid, bind, Except.bind,
        pure, Except.pure, beq_self_eq_true, ↓reduceIte, Bool.false_eq_true]
      exact ⟨_, _, rfl⟩
    · have hne : (b.jobName == "") = false := by simpa using hn
      simp only [hne, hst, bind, Except.bind, pure, Except.pure, Bool.false_eq_true, ↓reduceIte]
      exact ⟨_, _, rfl⟩

/-- C23: for a builder of any stage whose job name is set or whose restore has a UID of 8
bytes, with a prepare-data configuration if the stage is PrepareData, and injections
of datasafed that keep the names of the containers, their volume mounts and the volumes,
`build` returns a job whose containers are the `restore` container and then the
`restore-manager` container; the latter mounts the volume `downward-volume` at
`/dp_downward`, and the pod spec has a volume of that name whose downward-API file
`stop_restore_manager` shows the stop annotation. -/
theorem build_manager_container (h : Helpers) (b : restoreJobBuilder)
    (hkeeps : h.DatasafedKeeps)
    (hname : b.jobName ≠ "" ∨ 8 ≤ b.restore.UID.length)
    (hcfg : b.stage = PrepareData → b.restore.Spec.PrepareDataConfig ≠ none) :
    ∃ b' job restore manager, b.build h = .ok (b', job) ∧
      job.Spec.Template.Spec.Containers = [restore, manager] ∧
      restore.Name = RestoreContainer ∧ manager.Name = restoreManagerContainerName ∧
      { Name := "downward-volume", MountPath := "/dp_downward" } ∈ manager.VolumeMounts ∧
      managerVolume h ∈ job.Spec.Template.Spec.Volumes := by
  obtain ⟨b', job, hbuild⟩ := build_returns h b hname hcfg
  obtain ⟨podSpec, hspec, ⟨container, hcontainers, hcname⟩, -⟩ := build_spec h b b' job hbuild
  obtain ⟨⟨manager, hmc, hmname, hmmounts⟩, hmv⟩ := InjectManagerContainer_spec h podSpec
  obtain ⟨hforall, hvolumes⟩ := injectDatasafedIfNeeded_keeps h b hkeeps
    (InjectManagerContainer h podSpec)
  rw [← hspec, hmc, hcontainers] at hforall
  rw [← hspec] at hvolumes
  obtain ⟨restore', rest, h1, hrest, hlist⟩ := List.forall₂_cons_left_iff.mp hforall
  obtain ⟨manager', rest', h2, hnil, hlist'⟩ := List.forall₂_cons_left_iff.mp hrest
  have hempty : rest' = [] := List.forall₂_nil_left_iff.mp hnil
  subst hempty hlist'
  refine ⟨b', job, restore', manager', hbuild, hlist, ?_, ?_, ?_, ?_⟩
  · rw [h1.1, hcname]
  · rw [h2.1, hmname]
  · apply h2.2
    rw [hmmounts]
    exact List.mem_singleton.mpr rfl
  · apply hvolumes
    rw [hmv]
    exact List.mem_append_right _ (List.mem_singleton.mpr rfl)

theorem build_manager_container_witness :
    ∃ b' job restore manager, exExtrasBuilder.build exHelpers = .ok (b', job) ∧
      job.Spec.Template.Spec.Containers = [restore, manager] ∧
      restore.Name = RestoreContainer ∧ manager.Name = restoreManagerContainerName ∧
      { Name := "downward-volume", MountPath := "/dp_downward" } ∈ manager.VolumeMounts ∧
      managerVolume exHelpers ∈ job.Spec.Template.Spec.Volumes :=
  build_manager_container exHelpers exExtrasBuilder
    ⟨fun _ _ _ _ => KeepsPodSpec_id, fun _ _ _ => KeepsPodSpec_id⟩
    (Or.inl (by decide)) (fun _ => by decide)

/-- C28, as the code has it: for a builder whose volumes have pairwise distinct names,
none of them `downward-volume`, for a backup whose status carries no extras, when `build`
injects no datasafed, the volumes of the pod spec of the job it returns have pairwise
distinct names. -/
theorem build_distinct_volume_names (h : Helpers) (b b' : restoreJobBuilder) (job : Job)
    (hbuild : b.build h = .ok (b', job))
    (hdistinct : ((b.specificVolumes ++ b.commonVolumes).map (·.Name)).Nodup)
    (hdownward : ∀ v ∈ b.specificVolumes ++ b.commonVolumes, v.Name ≠ "downward-volume")
    (hextras : b.backupSet.Backup.Status.Extras = [])
    (hrepo : b.buildWithRepo = false) :
    (job.Spec.Template.Spec.Volumes.map (·.Name)).Nodup := by
  obtain ⟨podSpec, hspec, -, hvolumes⟩ := build_spec h b b' job hbuild
  have hinject : b.injectDatasafedIfNeeded h (InjectManagerContainer h podSpec) =
      InjectManagerContainer h podSpec := by
    simp [restoreJobBuilder.injectDatasafedIfNeeded, hrepo]
  rw [hspec, hinject, (InjectManagerContainer_spec h podSpec).2, hvolumes, hextras]
  simp only [List.length_nil, beq_self_eq_true, ↓reduceIte, List.append_nil, List.map_append,
    List.map_cons, List.map_nil]
  rw [List.nodup_append]
  refine ⟨by simpa using hdistinct, List.nodup_singleton _, ?_⟩
  intro name hname hname2
  rw [List.mem_singleton] at hname2
  rw [← List.map_append, List.mem_map] at hname
  obtain ⟨v, hv, hvn⟩ := hname
  exact hdownward v hv (hvn.trans hname2)

theorem build_distinct_volume_names_witness :
    ∃ b' job, ({ exExtrasBuilder with backupSet := exSet exF "full" BackupTypeFull }).build
        exHelpers = .ok (b', job) ∧
      (job.Spec.Template.Spec.Volumes.map (·.Name)).Nodup := by
  obtain ⟨b', job, hbuild⟩ := build_returns exHelpers
    { exExtrasBuilder with backupSet := exSet exF "full" BackupTypeFull }
    (Or.inl (by decide)) (fun _ => by decide)
  exact ⟨b', job, hbuild, build_distinct_volume_names exHelpers _ b' job hbuild (by decide)
    (by decide) rfl rfl⟩

/-- C28, as the claim has it, fails: for a backup whose status carries extras, `build`
appends a volume named `downward-volume` for the extras and `InjectManagerContainer`
appends another volume of that name, so the pod spec of the returned job has two volumes of
the same name, although the one volume of the builder has another name. -/
theorem build_duplicate_downward_volume :
    (exExtrasBuilder.specificVolumes ++ exExtrasBuilder.commonVolumes).map (·.Name) =
      ["dp-claim-data"] ∧
    (match exExtrasBuilder.build exHelpers with
      | .ok built => some (built.2.Spec.Template.Spec.Volumes.map (·.Name))
      | .error _ => none) = some ["dp-claim-data", "downward-volume", "downward-volume"] := by
  refine ⟨by decide, by decide⟩

/-! ## The number of planned jobs: C21 -/

theorem serialOrderOf_le (backupName actionName : String) (restoreJobReplicas : Int)
    (actions : List RestoreStatusAction) (currentOrder : Int)
    (hle : currentOrder ≤ restoreJobReplicas) :
    serialOrderOf backupName actionName restoreJobReplicas actions currentOrder ≤
      restoreJobReplicas := by
  induction actions generalizing currentOrder with
  | nil => exact hle
  | cons a rest ih =>
    unfold serialOrderOf
    split
    · exact ih currentOrder hle
    · split
      · rename_i hc
        simp only [Bool.and_eq_true, decide_eq_true_eq] at hc
        exact ih (currentOrder + 1) (by omega)
      · exact ih currentOrder hle

theorem indicesBelow_sublist (m n : Int) (hmn : m ≤ n) :
    (indicesBelow m).Sublist (indicesBelow n) := by
  unfold indicesBelow
  apply List.Sublist.map
  rw [List.range_sublist]
  omega

theorem indicesBelow_nodup (n : Int) : (indicesBelow n).Nodup := by
  unfold indicesBelow
  apply List.Nodup.map _ (List.nodup_range _)
  intro a b hab
  exact Int.ofNat.inj hab

theorem mem_indicesBelow (n i : Int) : i ∈ indicesBelow n ↔ 0 ≤ i ∧ i < n := by
  unfold indicesBelow
  simp only [List.mem_map, List.mem_range]
  constructor
  · rintro ⟨k, hk, rfl⟩
    constructor
    · exact Int.ofNat_nonneg k
    · have : (k : Int) < (n.toNat : Int) := by exact_mod_cast hk
      have h2 : (Int.ofNat k) = (k : Int) := rfl
      omega
  · rintro ⟨h0, hn⟩
    refine ⟨i.toNat, by omega, ?_⟩
    show ((i.toNat : Nat) : Int) = i
    omega

/-- C21, for a target count of at least 1: `BuildPrepareDataJobs` returns, leaves the
manager as it is, and the jobs it returns are
those of a list of distinct indices from 0 to below the target count, in increasing order,
so they are at most as many as the target count, whatever the policy and the recorded
actions are. -/
theorem BuildPrepareDataJobs_bounded (d : Deps) (h : Helpers) (cli : Client)
    (reqNamespace : String) (backupSet : BackupActionSet) (target : BackupStatusTarget)
    (actionName : String) (w : World)
    (hpositive : 0 < h.GetRestoreActionsCountForPrepareData w.r.Restore.Spec.PrepareDataConfig) :
    ∃ res w', BuildPrepareDataJobs d h cli reqNamespace backupSet target actionName w =
        some (res, w') ∧ w'.r = w.r ∧
      ∀ jobs, res = .ok jobs →
        ∃ indices : List Int,
          indices.Sublist (indicesBelow
            (h.GetRestoreActionsCountForPrepareData w.r.Restore.Spec.PrepareDataConfig)) ∧
          indices.Nodup ∧
          (∀ i ∈ indices, 0 ≤ i ∧
            i < h.GetRestoreActionsCountForPrepareData w.r.Restore.Spec.PrepareDataConfig) ∧
          jobs.map (·.Name) = indices.map (prepareDataJobName h w.r.Restore backupSet) ∧
          (jobs.length : Int) ≤
            h.GetRestoreActionsCountForPrepareData w.r.Restore.Spec.PrepareDataConfig := by
  have hnothing : ∀ w' : World,
      BuildPrepareDataJobs d h cli reqNamespace backupSet target actionName w =
        some (.ok [], w') → w' = w →
      ∃ res w', BuildPrepareDataJobs d h cli reqNamespace backupSet target actionName w =
        some (res, w') ∧ w'.r = w.r ∧
      ∀ jobs, res = .ok jobs →
        ∃ indices : List Int,
          indices.Sublist (indicesBelow
            (h.GetRestoreActionsCountForPrepareData w.r.Restore.Spec.PrepareDataConfig)) ∧
          indices.Nodup ∧
          (∀ i ∈ indices, 0 ≤ i ∧
            i < h.GetRestoreActionsCountForPrepareData w.r.Restore.Spec.PrepareDataConfig) ∧
          jobs.map (·.Name) = indices.map (prepareDataJobName h w.r.Restore backupSet) ∧
          (jobs.length : Int) ≤
            h.GetRestoreActionsCountForPrepareData w.r.Restore.Spec.PrepareDataConfig := by
    intro w' hrun hw
    subst hw
    refine ⟨_, _, hrun, rfl, ?_⟩
    intro jobs hjobs
    cases hjobs
    exact ⟨[], List.nil_sublist _, List.nodup_nil, by simp, rfl, by simp; omega⟩
  cases hcfg : w.r.Restore.Spec.PrepareDataConfig with
  | none =>
    exact hcfg ▸ hnothing w (BuildPrepareDataJobs_nothing d h cli reqNamespace backupSet target
      actionName w (Or.inl hcfg)) rfl
  | some cfg =>
    cases hstage : HasPrepareDataStage backupSet.ActionSet with
    | false =>
      exact hcfg ▸ hnothing w (BuildPrepareDataJobs_nothing d h cli reqNamespace backupSet target
        actionName w (Or.inr hstage)) rfl
    | true =>
      rw [hcfg] at hpositive
      obtain ⟨res, w', hrun, hr, hp⟩ := BuildPrepareDataJobs_yields d h cli reqNamespace backupSet
        target actionName w cfg hcfg hstage
      refine ⟨res, w', hrun, hr, ?_⟩
      intro jobs hjobs
      obtain ⟨hnames, -⟩ := hp jobs hjobs
      have hrounds : jobRounds h w.r cfg backupSet actionName ≤
          h.GetRestoreActionsCountForPrepareData (some cfg) := by
        unfold jobRounds
        split
        · exact serialOrderOf_le _ _ _ _ 1 (by omega)
        · exact le_refl _
      have hsub : ((indicesBelow (jobRounds h w.r cfg backupSet actionName)).filter
          (appendsJob h w.r cfg backupSet target)).Sublist
          (indicesBelow (h.GetRestoreActionsCountForPrepareData (some cfg))) :=
        (List.filter_sublist _).trans (indicesBelow_sublist _ _ hrounds)
      refine ⟨_, hsub, hsub.nodup (indicesBelow_nodup _), ?_, hnames, ?_⟩
      · intro i hi
        exact (mem_indicesBelow _ i).mp (hsub.subset hi)
      · have hlen := congrArg List.length hnames
        simp only [List.length_map] at hlen
        rw [hlen]
        have h1 := hsub.length_le
        have h2 : (indicesBelow (h.GetRestoreActionsCountForPrepareData (some cfg))).length =
            (h.GetRestoreActionsCountForPrepareData (some cfg)).toNat := by
          simp [indicesBelow]
        omega

theorem BuildPrepareDataJobs_bounded_witness :
    ∃ res w', BuildPrepareDataJobs exDeps exHelpers exStore "default"
        (exSet exF "full" BackupTypeFull) {} "prepareData" (exPlanWorld "Parallel" 2 []) =
        some (res, w') ∧ w'.r = (exPlanWorld "Parallel" 2 []).r ∧
      ∀ jobs, res = .ok jobs →
        ∃ indices : List Int,
          indices.Sublist (indicesBelow (exHelpers.GetRestoreActionsCountForPrepareData
            (exPlanWorld "Parallel" 2 []).r.Restore.Spec.PrepareDataConfig)) ∧
          indices.Nodup ∧
          (∀ i ∈ indices, 0 ≤ i ∧ i < exHelpers.GetRestoreActionsCountForPrepareData
            (exPlanWorld "Parallel" 2 []).r.Restore.Spec.PrepareDataConfig) ∧
          jobs.map (·.Name) = indices.map (prepareDataJobName exHelpers
            (exPlanWorld "Parallel" 2 []).r.Restore (exSet exF "full" BackupTypeFull)) ∧
          (jobs.length : Int) ≤ exHelpers.GetRestoreActionsCountForPrepareData
            (exPlanWorld "Parallel" 2 []).r.Restore.Spec.PrepareDataConfig :=
  BuildPrepareDataJobs_bounded exDeps exHelpers exStore "default"
    (exSet exF "full" BackupTypeFull) {} "prepareData" (exPlanWorld "Parallel" 2 []) (by decide)

/-- C21 fails for the code at the target count 0: under the Serial policy
`BuildPrepareDataJobs` returns one job, more than the target count, where it returns no
job under the Parallel policy. -/
theorem BuildPrepareDataJobs_exceeds_zero_target :
    exHelpers.GetRestoreActionsCountForPrepareData
      (exPlanWorld "Serial" 0 []).r.Restore.Spec.PrepareDataConfig = 0 ∧
    (returnedJobNames (BuildPrepareDataJobs exDeps exHelpers exStore "default"
      (exSet exF "full" BackupTypeFull) {} "prepareData" (exPlanWorld "Serial" 0 []))).map
        List.length = some 1 ∧
    (returnedJobNames (BuildPrepareDataJobs exDeps exHelpers exStore "default"
      (exSet exF "full" BackupTypeFull) {} "prepareData" (exPlanWorld "Parallel" 0 []))).map
        List.length = some 0 :=
  ⟨by decide, by decide!, by decide!⟩

/-! ## Provision strategies: C25 -/

theorem requireAll_iff (opt : Option appsv1.MultipleClusterObjectOption) :
    requireAll opt = true ↔ ∃ o, opt = some o ∧ o.RequireAllComponentObjects = some true := by
  unfold requireAll
  cases opt with
  | none => simp
  | some o =>
    cases hr : o.RequireAllComponentObjects with
    | none => simp [hr]
    | some b => simp [hr]

theorem require_eq (v : appsv1.EnvVar) :
    require v = match v.refs.head? with
      | some ref => requireAll ref.MultipleClusterObjectOption
      | none => false := by
  unfold require appsv1.EnvVar.refs
  cases v.ValueFrom with
  | none => rfl
  | some s =>
    unfold appsv1.VarSource.refs
    obtain ⟨a, b, c, d, e, f, g⟩ := s
    cases a <;> cases b <;> cases c <;> cases d <;> cases e <;> cases f <;> cases g <;> rfl

theorem supported_iff (strategy : Option String) :
    supported strategy = true ↔
      strategy = none ∨ strategy = some appsv1.SerialStrategy ∨
        strategy = some appsv1.ParallelStrategy := by
  unfold supported
  cases strategy with
  | none => simp
  | some s => simp

/-- The code of `requireParallelProvision`: it returns true exactly when, for a variable
of a component definition the reconciler carries, the first reference that is set, in the
order host-network, service, credential, TLS, service-ref, resource, component, has the
option `requireAllComponentObjects` set to true. -/
theorem requireParallelProvision_first_reference (r : ShardingDefinitionReconciler) :
    r.requireParallelProvision = true ↔
      ∃ compDef ∈ r.compDefs, ∃ v ∈ compDef.Vars, ∃ ref option,
        v.refs.head? = some ref ∧ ref.MultipleClusterObjectOption = some option ∧
        option.RequireAllComponentObjects = some true := by
  have hrequire : ∀ v : appsv1.EnvVar, require v = true ↔ ∃ ref option,
      v.refs.head? = some ref ∧ ref.MultipleClusterObjectOption = some option ∧
        option.RequireAllComponentObjects = some true := by
    intro v
    rw [require_eq]
    cases hhead : v.refs.head? with
    | none => simp
    | some ref =>
      simp only [requireAll_iff, Option.some.injEq, exists_and_left, exists_eq_left']
  unfold ShardingDefinitionReconciler.requireParallelProvision
  simp only [List.any_eq_true, hrequire]

/-- The code of `validateProvisionNUpdateStrategy`: no error exactly when both strategies
are unset, Serial or Parallel, and the provision strategy is not Serial or
`requireParallelProvision` returns false. -/
theorem validateProvisionNUpdateStrategy_none (r : ShardingDefinitionReconciler)
    (shardingDef : appsv1.ShardingDefinition) :
    r.validateProvisionNUpdateStrategy shardingDef = none ↔
      (shardingDef.ProvisionStrategy = none ∨
        shardingDef.ProvisionStrategy = some appsv1.SerialStrategy ∨
        shardingDef.ProvisionStrategy = some appsv1.ParallelStrategy) ∧
      (shardingDef.UpdateStrategy = none ∨
        shardingDef.UpdateStrategy = some appsv1.SerialStrategy ∨
        shardingDef.UpdateStrategy = some appsv1.ParallelStrategy) ∧
      ¬ (shardingDef.ProvisionStrategy = some appsv1.SerialStrategy ∧
        r.requireParallelProvision = true) := by
  unfold ShardingDefinitionReconciler.validateProvisionNUpdateStrategy
  rw [← supported_iff, ← supported_iff]
  cases hp : supported shardingDef.ProvisionStrategy
  · simp [hp]
  · cases hu : supported shardingDef.UpdateStrategy
    · simp [hp, hu]
    · by_cases hs : shardingDef.ProvisionStrategy = some appsv1.SerialStrategy
      · rw [hs] at hp
        cases hr : r.requireParallelProvision <;> simp [hp, hu, hs, hr]
      · have hs2 : (shardingDef.ProvisionStrategy == some appsv1.SerialStrategy) = false := by
          simpa using hs
        simp [hp, hu, hs, hs2]

/-- C25, for a reconciler none of whose variables has more than one reference set:
`requireParallelProvision` returns true exactly when a reference of a variable of a
component definition the reconciler carries has the option `requireAllComponentObjects` set
to true; and `validateProvisionNUpdateStrategy` returns no error exactly when the provision
strategy and the update strategy are each unset, Serial or Parallel, and the provision
strategy is not Serial together with such a reference. -/
theorem requireParallelProvision_iff (r : ShardingDefinitionReconciler)
    (shardingDef : appsv1.ShardingDefinition)
    (hone : ∀ compDef ∈ r.compDefs, ∀ v ∈ compDef.Vars, v.refs.length ≤ 1) :
    (r.requireParallelProvision = true ↔
      ∃ compDef ∈ r.compDefs, ∃ v ∈ compDef.Vars, ∃ ref ∈ v.refs, ∃ option,
        ref.MultipleClusterObjectOption = some option ∧
        option.RequireAllComponentObjects = some true) ∧
    (r.validateProvisionNUpdateStrategy shardingDef = none ↔
      (shardingDef.ProvisionStrategy = none ∨
        shardingDef.ProvisionStrategy = some appsv1.SerialStrategy ∨
        shardingDef.ProvisionStrategy = some appsv1.ParallelStrategy) ∧
      (shardingDef.UpdateStrategy = none ∨
        shardingDef.UpdateStrategy = some appsv1.SerialStrategy ∨
        shardingDef.UpdateStrategy = some appsv1.ParallelStrategy) ∧
      ¬ (shardingDef.ProvisionStrategy = some appsv1.SerialStrategy ∧
        ∃ compDef ∈ r.compDefs, ∃ v ∈ compDef.Vars, ∃ ref ∈ v.refs, ∃ option,
          ref.MultipleClusterObjectOption = some option ∧
          option.RequireAllComponentObjects = some true)) := by
  have hany : r.requireParallelProvision = true ↔
      ∃ compDef ∈ r.compDefs, ∃ v ∈ compDef.Vars, ∃ ref ∈ v.refs, ∃ option,
        ref.MultipleClusterObjectOption = some option ∧
        option.RequireAllComponentObjects = some true := by
    rw [requireParallelProvision_first_reference]
    constructor
    · rintro ⟨compDef, hc, v, hv, ref, option, hhead, hopt, hall⟩
      exact ⟨compDef, hc, v, hv, ref, List.mem_of_mem_head? hhead, option, hopt, hall⟩
    · rintro ⟨compDef, hc, v, hv, ref, href, option, hopt, hall⟩
      refine ⟨compDef, hc, v, hv, ref, option, ?_, hopt, hall⟩
      have hlen := hone compDef hc v hv
      cases hrefs : v.refs with
      | nil => rw [hrefs] at href; cases href
      | cons a rest =>
        rw [hrefs] at href hlen
        have hrest : rest = [] := by
          cases rest with
          | nil => rfl
          | cons _ _ => simp at hlen
        subst hrest
        rw [List.mem_singleton] at href
        subst href
        rfl
  refine ⟨hany, ?_⟩
  rw [validateProvisionNUpdateStrategy_none, hany]

theorem requireParallelProvision_iff_witness :
    exOneRefReconciler.requireParallelProvision = true ∧
    exOneRefReconciler.validateProvisionNUpdateStrategy
      { ProvisionStrategy := some appsv1.SerialStrategy } ≠ none :=
  have hone : ∀ compDef ∈ exOneRefReconciler.compDefs, ∀ v ∈ compDef.Vars,
      v.refs.length ≤ 1 := by
    intro compDef hc v hv
    rw [List.mem_singleton.mp hc] at hv
    rw [List.mem_singleton.mp hv]
    decide
  have href : ∃ compDef ∈ exOneRefReconciler.compDefs, ∃ v ∈ compDef.Vars, ∃ ref ∈ v.refs,
      ∃ option, ref.MultipleClusterObjectOption = some option ∧
        option.RequireAllComponentObjects = some true :=
    ⟨_, List.mem_singleton.mpr rfl, exOneRefVar, List.mem_singleton.mpr rfl, exRequireAllRef,
      List.mem_singleton.mpr rfl, _, rfl, rfl⟩
  ⟨(requireParallelProvision_iff exOneRefReconciler {} hone).1.mpr href,
    fun hnone =>
      ((requireParallelProvision_iff exOneRefReconciler
        { ProvisionStrategy := some appsv1.SerialStrategy } hone).2.mp hnone).2.2 ⟨rfl, href⟩⟩

/-- C25, as the claim and the comment of `requireParallelProvision` have it, fails for the
code: the variable `exTwoRefsVar` has a service reference whose option
`requireAllComponentObjects` is true, behind a host-network reference without option;
`requireParallelProvision` returns false and `validateProvisionNUpdateStrategy` accepts the
Serial provision strategy. -/
theorem requireParallelProvision_second_reference_ignored :
    (∃ ref ∈ exTwoRefsVar.refs, ∃ option, ref.MultipleClusterObjectOption = some option ∧
      option.RequireAllComponentObjects = some true) ∧
    exReconciler.requireParallelProvision = false ∧
    exReconciler.validateProvisionNUpdateStrategy
      { ProvisionStrategy := some appsv1.SerialStrategy } = none := by
  refine ⟨⟨exRequireAllRef, by decide, _, rfl, rfl⟩, by decide, by decide⟩

/-! ## Pod names: C30 -/

theorem replaceFirst_prefix (old rest : List Char) (hold : old ≠ []) :
    replaceFirst old [] (old ++ rest) = rest := by
  cases hs : old ++ rest with
  | nil =>
    cases old with
    | nil => exact absurd rfl hold
    | cons c cs => cases hs
  | cons c s =>
    unfold replaceFirst
    have hstarts : old.isPrefixOf (c :: s) = true := by
      rw [← hs, List.isPrefixOf_iff_prefix]
      exact List.prefix_append _ _
    simp only [hstarts, ↓reduceIte, List.nil_append]
    rw [← hs, List.drop_left]

theorem lastDashFrom_none (s : List Char) (place found : Int) (hs : ∀ c ∈ s, c ≠ '-') :
    lastDashFrom s place found = found := by
  induction s generalizing place found with
  | nil => rfl
  | cons c s ih =>
    unfold lastDashFrom
    have hc : (c == '-') = false := by simpa using hs c (List.mem_cons_self _ _)
    simp only [hc, Bool.false_eq_true, ↓reduceIte]
    exact ih _ _ (fun x hx => hs x (List.mem_cons_of_mem _ hx))

theorem lastDashFrom_last (a s : List Char) (place found : Int) (hs : ∀ c ∈ s, c ≠ '-') :
    lastDashFrom (a ++ '-' :: s) place found = place + a.length := by
  induction a generalizing place found with
  | nil =>
    simp only [List.nil_append, lastDashFrom, beq_self_eq_true, ↓reduceIte, List.length_nil,
      Nat.cast_zero, add_zero]
    exact lastDashFrom_none s _ _ hs
  | cons c a ih =>
    show lastDashFrom (a ++ '-' :: s) (place + 1) _ = place + ((a.length + 1 : Nat) : Int)
    rw [ih]
    push_cast
    omega

theorem Atoi_decimal (n : Nat) (hn : n < 2 ^ 63) : Atoi (toString n).data = some (n : Int) := by
  obtain ⟨hne, hdigits, hvalue⟩ := decimal_spec n
  cases hs : (toString n).data with
  | nil => exact absurd hs hne
  | cons c cs =>
    rw [hs] at hdigits hvalue
    have hc := isDigit_not_sign c (hdigits c (List.mem_cons_self _ _))
    have hall : (c :: cs).all Char.isDigit = true := List.all_eq_true.mpr hdigits
    have hminus : ((c :: cs).head? == some '-') = false := by
      simp only [List.head?_cons]
      rw [Bool.eq_false_iff]
      intro hcon
      exact hc.1 (Option.some.inj (beq_iff_eq.mp hcon))
    have hplus : ((c :: cs).head? == some '+') = false := by
      simp only [List.head?_cons]
      rw [Bool.eq_false_iff]
      intro hcon
      exact hc.2 (Option.some.inj (beq_iff_eq.mp hcon))
    have h1 : ((n : Int) < -(2 : Int) ^ 63) = False := by
      have : (0 : Int) ≤ n := Int.ofNat_nonneg n
      rw [eq_iff_iff, iff_false]
      norm_num
      omega
    have h2 : ((n : Int) > (2 : Int) ^ 63 - 1) = False := by
      have : (n : Int) < (2 : Int) ^ 63 := by exact_mod_cast hn
      rw [eq_iff_iff, iff_false]
      omega
    unfold Atoi
    simp only [hminus, hplus, Bool.or_self, Bool.false_eq_true, ↓reduceIte, List.isEmpty_cons,
      hall, Bool.not_true, hvalue, h1, h2, decide_False]

theorem toInt32_small (n : Nat) (hn : n < 2 ^ 31) : toInt32 (n : Int) = (n : Int) := by
  unfold toInt32
  have h1 : (n : Int) < 2 ^ 31 := by exact_mod_cast hn
  have h0 : (0 : Int) ≤ n := Int.ofNat_nonneg n
  rw [Int.emod_eq_of_lt (by omega) (by omega)]
  omega

theorem decimal_no_dash (n : Nat) : ∀ c ∈ (toString n).data, c ≠ '-' :=
  fun c hc => (isDigit_not_sign c ((decimal_spec n).2.1 c hc)).1

/-- C30: for a workload name `w`, a template name `t` and an ordinal `n` below 2^31,
`GetTemplateNameAndOrdinal` returns the empty template name and `n` for the pod name
`w-n`, and `t` and `n` for the pod name `w-t-n`, without error; and for a pod name of which
nothing is left once the first `w-` is taken out, or what is left ends with a dash, it
returns an error. -/
theorem GetTemplateNameAndOrdinal_round_trip (w t : String) (n : Nat) (hn : n < 2 ^ 31) :
    GetTemplateNameAndOrdinal w (w ++ "-" ++ toString n) = .ok ("", (n : Int)) ∧
    GetTemplateNameAndOrdinal w (w ++ "-" ++ t ++ "-" ++ toString n) = .ok (t, (n : Int)) ∧
    ∀ podName : String,
      (replaceFirst (w ++ "-").data [] podName.data = [] ∨
        (replaceFirst (w ++ "-").data [] podName.data).getLast? = some '-') →
      ∃ msg, GetTemplateNameAndOrdinal w podName = .error msg := by
  have hold : (w ++ "-").data ≠ [] := by
    rw [String.data_append]
    simp
  have hn63 : n < 2 ^ 63 := lt_trans hn (by norm_num)
  obtain ⟨hne, -, -⟩ := decimal_spec n
  have hlen : 1 ≤ (toString n).data.length := by
    cases hs : (toString n).data with
    | nil => exact absurd hs hne
    | cons c cs => simp
  refine ⟨?_, ?_, ?_⟩
  · unfold GetTemplateNameAndOrdinal
    have hdata : (w ++ "-" ++ toString n).data = (w ++ "-").data ++ (toString n).data :=
      String.data_append _ _
    have hdash : lastDashIndex (toString n).data = -1 :=
      lastDashFrom_none _ _ _ (decimal_no_dash n)
    have hcheck : ((-1 : Int) == ((toString n).data.length : Int) - 1) = false := by
      rw [beq_eq_false_iff_ne]
      omega
    simp only [hdata, replaceFirst_prefix _ _ hold, hdash, hcheck, Bool.false_eq_true,
      ↓reduceIte, beq_self_eq_true, Atoi_decimal n hn63, toInt32_small n hn]
  · unfold GetTemplateNameAndOrdinal
    have hdata : (w ++ "-" ++ t ++ "-" ++ toString n).data =
        (w ++ "-").data ++ (t.data ++ '-' :: (toString n).data) := by
      simp only [String.data_append, List.append_assoc]
      rfl
    have hdash : lastDashIndex (t.data ++ '-' :: (toString n).data) = (t.data.length : Int) := by
      unfold lastDashIndex
      rw [lastDashFrom_last _ _ _ _ (decimal_no_dash n)]
      omega
    have hcheck : ((t.data.length : Int) ==
        ((t.data ++ '-' :: (toString n).data).length : Int) - 1) = false := by
      rw [beq_eq_false_iff_ne]
      simp only [List.length_append, List.length_cons, Nat.cast_add, Nat.cast_one]
      omega
    have hminus : ((t.data.length : Int) == -1) = false := by
      rw [beq_eq_false_iff_ne]
      omega
    have hdrop : List.drop (t.data.length + 1) (t.data ++ '-' :: (toString n).data) =
        (toString n).data := by
      rw [List.drop_append]
      rfl
    have htake : List.take t.data.length (t.data ++ '-' :: (toString n).data) = t.data :=
      List.take_left _ _
    simp only [hdata, replaceFirst_prefix _ _ hold, hdash, hcheck, hminus, Bool.false_eq_true,
      ↓reduceIte, Int.toNat_ofNat, htake, hdrop, Atoi_decimal n hn63, toInt32_small n hn]
  · intro podName hleft
    unfold GetTemplateNameAndOrdinal
    rcases hleft with hleft | hleft
    · simp only [hleft, lastDashIndex, lastDashFrom, List.length_nil, Nat.cast_zero, zero_sub,
        beq_self_eq_true, ↓reduceIte]
      exact ⟨_, rfl⟩
    · obtain ⟨a, ha⟩ : ∃ a, replaceFirst (w ++ "-").data [] podName.data = a ++ ['-'] :=
        List.getLast?_eq_some_iff.mp hleft
      have hd : lastDashIndex (a ++ ['-']) = (a.length : Int) := by
        unfold lastDashIndex
        rw [lastDashFrom_last a [] 0 (-1) (by simp)]
        omega
      simp only [ha, hd, List.length_append, List.length_singleton, Nat.cast_add, Nat.cast_one,
        add_sub_cancel_right, beq_self_eq_true, ↓reduceIte]
      exact ⟨_, rfl⟩

theorem GetTemplateNameAndOrdinal_round_trip_witness :
    GetTemplateNameAndOrdinal "mysql" "mysql-tpl-3" = .ok ("tpl", 3) ∧
    GetTemplateNameAndOrdinal "mysql" "mysql-3" = .ok ("", 3) :=
  ⟨(GetTemplateNameAndOrdinal_round_trip "mysql" "tpl" 3 (by decide)).2.1,
   (GetTemplateNameAndOrdinal_round_trip "mysql" "tpl" 3 (by decide)).1⟩

end KubeBlocks
